import Mathlib

/-!
# RSP reliable multicast transport and master change manager

A shallow embedding of `lib/net/rspConnection.cpp` (receiver and writer
engines) and of `lib/net/masterCM.cpp`.  Machine integers are
natural numbers (or integers) with the truncations of the source written out.
Blocking waits and out-of-bounds accesses are modelled by `Option`: every
function says in its comment what `none` stands for.
-/

namespace RSP

/-! ## Configuration -/

/-- The process-wide settings read once in the constructor (lines 108-116):
`_mtu` and `_ackFreq` come from the global attributes; the two `sizeof` values
belong to the datagram structs declared in `rspConnection.h`. -/
structure Config where
  mtu : Nat
  ackFreq : Nat
  sizeofDatagramData : Nat
  sizeofDatagramNack : Nat
deriving DecidableEq

/-- Static member `_payloadSize = _mtu - sizeof( DatagramData )`. -/
def Config.payloadSize (cfg : Config) : Nat :=
  cfg.mtu - cfg.sizeofDatagramData

/-- Static member `_bufferSize = _payloadSize * _ackFreq` (32-bit product). -/
def Config.bufferSize (cfg : Config) : Nat :=
  (cfg.payloadSize * cfg.ackFreq) % 2 ^ 32

/-- Static member `_maxNAck = (_mtu - sizeof( DatagramNack )) / sizeof( uint32_t )`. -/
def Config.maxNAck (cfg : Config) : Nat :=
  (cfg.mtu - cfg.sizeofDatagramNack) / 4

/-- Settings for which the 16-bit wire fields can hold every fragment index and
every fragment length: a non-empty payload shorter than 64 KiB and an ACK
window of fewer than 2^16 fragments. -/
def Config.WF (cfg : Config) : Prop :=
  0 < cfg.payloadSize ∧ cfg.payloadSize < 65536 ∧ 0 < cfg.ackFreq ∧ cfg.ackFreq < 65536

instance (cfg : Config) : Decidable cfg.WF := by
  unfold Config.WF; infer_instance

/-! ## Wire types -/

/-- A `DatagramData` header followed by the bytes that come after it in the
buffer handed to `_handleDataDatagram`. -/
structure DatagramData where
  writeSeqID : Nat
  dataIDlength : Nat
  payload : List Nat
deriving DecidableEq

/-- A `DatagramAckRequest` (type tag left out). -/
structure DatagramAckRequest where
  writerID : Nat
  lastDatagramID : Nat
  sequenceID : Nat
deriving DecidableEq

/-- What the receiver hands to `_sendNack` and `_sendAck`.  `nack` carries the
header fields and the packed ranges that are copied behind the header; `ack`
carries the three fields of `DatagramAck`. -/
inductive Out where
  | nack (readerID writerID sequenceID count : Nat) (ranges : List Nat)
  | ack (readerID writerID sequenceID : Nat)
deriving DecidableEq

/-- High half of a packed NACK range, as decoded by `_addRepeat`:
`( repeatID & 0xFFFF0000 ) >> 16`. -/
def rangeStart (repeatID : Nat) : Nat := (repeatID &&& 0xFFFF0000) >>> 16

/-- Low half of a packed NACK range, as decoded by `_addRepeat`:
`repeatID & 0xFFFF`. -/
def rangeEnd (repeatID : Nat) : Nat := repeatID &&& 0xFFFF

/-! ## Receive slots -/

/-- Number of receive slots per connection (`_nBuffers`). -/
def nBuffers : Nat := 4

/-- One receive slot (`RSPConnection::InBuffer`).  `data` is the memory of the
byte buffer and `dataSize` its `getSize()`; bytes at and after `dataSize` are
memory that the buffer keeps but does not expose. -/
structure InBuffer where
  sequenceID : Nat
  ackSend : Bool
  allRead : Bool
  readPos : Nat
  got : List Bool
  data : List Nat
  dataSize : Nat
deriving DecidableEq

/-- Modelled from the spec: `eq::base::Buffer::resize` and `memcpy` into the
buffer (the buffer class is not part of the sources at hand).  Writing `bytes`
at offset `pos` keeps every other byte; memory that had to be allocated for the
write and is not written reads as 0. -/
def writeAt (mem : List Nat) (pos : Nat) (bytes : List Nat) : List Nat :=
  (List.range (max mem.length (pos + bytes.length))).map
    (fun j => if pos ≤ j ∧ j < pos + bytes.length then bytes.getD (j - pos) 0 else mem.getD j 0)

/-- Method `InBuffer::reset` (lines 184-194). -/
def InBuffer.reset (cfg : Config) (b : InBuffer) : InBuffer :=
  { sequenceID := 0
    ackSend := true
    allRead := true
    readPos := 0
    got := List.replicate cfg.ackFreq false
    data := b.data ++ List.replicate (cfg.bufferSize - b.data.length) 0
    dataSize := cfg.bufferSize }

/-- Modelled from the spec: a newly constructed slot.  The constructor of
`InBuffer` is declared in `rspConnection.h`; a new slot is taken to be a
`reset` one over empty memory. -/
def InBuffer.fresh (cfg : Config) : InBuffer :=
  InBuffer.reset cfg
    { sequenceID := 0, ackSend := true, allRead := true, readPos := 0,
      got := [], data := [], dataSize := 0 }

/-- The bytes a slot exposes: the first `dataSize` bytes of its memory. -/
def InBuffer.bytes (b : InBuffer) : List Nat := b.data.take b.dataSize

/-! ## Connections -/

/-- Connection states of the base class. -/
inductive State where
  | closed | connecting | listening | connected
deriving DecidableEq

/-- The members of one `RSPConnection` object held in `_children` (one per
known writer, the local one included): the receiver-side state, and
`_ackReceived`, the sequence of the last ACK the writer counted from it. -/
structure Conn where
  id : Nat
  state : State
  inBuffers : Fin 4 → InBuffer
  recvBuffer : Option (Fin 4)
  recvBufferIndex : Fin 4
  readBufferIndex : Fin 4
  lastSequenceIDAck : Int
  ackReceived : Nat

/-- The members of the listening (root) `RSPConnection` used by the receiver
and writer engines. -/
structure RSPConnection where
  id : Nat
  state : State
  connectionValid : Bool
  children : List Conn
  sequenceID : Nat
  nDatagrams : Nat
  timeouts : Nat
  numWriteAcks : Nat
  writing : Bool
  countAcceptChildren : Int

/-- Ring successor `( index + 1 ) % _nBuffers`. -/
def nextIndex (i : Fin 4) : Fin 4 := ⟨(i.val + 1) % 4, Nat.mod_lt _ (by decide)⟩

/-- A connection as the constructor leaves it (lines 84-126) with the given ID:
four new slots, `_recvBuffer = _inBuffers[ 0 ]`, both ring indices 0,
`_lastSequenceIDAck = -1` and `_ackReceived = 65535`, the largest 16-bit
value. -/
def Conn.fresh (cfg : Config) (id : Nat) : Conn :=
  { id := id
    state := State.closed
    inBuffers := fun _ => InBuffer.fresh cfg
    recvBuffer := some 0
    recvBufferIndex := 0
    readBufferIndex := 0
    lastSequenceIDAck := -1
    ackReceived := 65535 }

/-- Method `_findReceiverWithSequenceID` (lines 1137-1148): the first slot, in vector
order, that records the sequence. -/
def Conn.findReceiverWithSequenceID (c : Conn) (sequenceID : Nat) : Option (Fin 4) :=
  (List.finRange 4).find? (fun k => (c.inBuffers k).sequenceID == sequenceID)

/-- The loop of `_findConnectionWithWriterID` over the children: position of
the first child with the given ID. -/
def findChild : List Conn → Nat → Option Nat
  | [], _ => none
  | c :: children, writerID =>
    if c.id = writerID then some 0 else (findChild children writerID).map (fun i => i + 1)

/-- Method `_findConnectionWithWriterID` (lines 1150-1159). -/
def RSPConnection.findConnectionWithWriterID (s : RSPConnection) (writerID : Nat) :
    Option Nat :=
  findChild s.children writerID

/-- Method `_sendNack` (lines 1448-1476): the count is an 8-bit parameter, and
`count` ranges are passed on (to `_addRepeat` for the local writer, behind the
header on the wire otherwise). -/
def sendNack (selfID toWriterID sequenceID count : Nat) (repeatID : List Nat) : Out :=
  Out.nack selfID toWriterID sequenceID (count % 256) (repeatID.take (count % 256))

/-- Method `_sendAck` (lines 1436-1446). -/
def sendAck (selfID writerID sequenceID : Nat) : Out :=
  Out.ack selfID writerID sequenceID

/-! ## DATA handling -/

/-- Lines 765-789 of `_handleDataDatagram`: with no current receive buffer, the
result of the sequence lookup is stored in `_recvBuffer` and then replaced by
the slot at `_recvBufferIndex` if that slot is `allRead`; otherwise the
datagram is dropped.  Returns the connection and the slot to go on with
(`none`: return now). -/
def Conn.acquireRecvBuffer (c : Conn) (sequenceID : Nat) : Conn × Option (Fin 4) :=
  match c.recvBuffer with
  | some r => (c, some r)
  | none =>
    if (c.inBuffers c.recvBufferIndex).allRead = true then
      ({ c with recvBuffer := some c.recvBufferIndex }, some c.recvBufferIndex)
    else
      ({ c with recvBuffer := c.findReceiverWithSequenceID sequenceID }, none)

/-- Lines 809-812: the slot is taken over by a new sequence. -/
def InBuffer.startSequence (b : InBuffer) (sequenceID : Nat) : InBuffer :=
  { b with sequenceID := sequenceID, readPos := 0, dataSize := 0, ackSend := false }

/-- Lines 794-813: `none` when the datagram is ignored (a repetition of the
slot's own or of the last acknowledged sequence), otherwise the slot to fill. -/
def firstDatagram (lastSequenceIDAck : Int) (b : InBuffer) (sequenceID : Nat) :
    Option InBuffer :=
  if b.ackSend = true then
    if sequenceID = b.sequenceID then none
    else if lastSequenceIDAck = (sequenceID : Int) ∧ lastSequenceIDAck ≠ -1 then none
    else some (b.startSequence sequenceID)
  else some b

/-- Method `Buffer::grow`: the size only ever increases. -/
def growSize (size newSize : Nat) : Nat := if newSize > size then newSize else size

/-- Lines 825-831: copy the payload to `index * _payloadSize`, grow the data
size to `index * _payloadSize + length` and mark the fragment as received. -/
def InBuffer.store (cfg : Config) (b : InBuffer) (index length : Nat) (payload : List Nat) :
    InBuffer :=
  { b with
    dataSize := growSize b.dataSize (index * cfg.payloadSize + length)
    data := writeAt b.data (index * (cfg.mtu - cfg.sizeofDatagramData)) (payload.take length)
    got := b.got.set index true }

/-- Lines 844-853: walk down from `indexMax` while the fragment below is
missing. -/
def earlyNackMin (got : List Bool) : Nat → Nat
  | 0 => 0
  | m + 1 => if got.getD m false = false then earlyNackMin got m else m + 1

/-- Lines 833-856: the early NACK for the run of missing fragments that ends
right below `index`, if there is one. -/
def earlyNack (selfID writerID sequenceID : Nat) (got : List Bool) (index : Nat) : List Out :=
  if index ≤ 0 then []
  else if got.getD (index - 1) false = true then []
  else
    let indexMax := (index - 1) % 65536
    let indexMin := earlyNackMin got indexMax
    let repeatID := (indexMax ||| (indexMin <<< 16)) % 2 ^ 32
    [sendNack selfID writerID sequenceID 1 [repeatID]]

/-- Lines 791-857 of `_handleDataDatagram`: the datagram is taken into the
receive buffer `r`.  `none` stands for an access outside the `got` bitset or a
copy of more bytes than follow the header. -/
def Conn.fillSlot (cfg : Config) (selfID : Nat) (c : Conn) (r : Fin 4) (d : DatagramData) :
    Option (Conn × List Out) :=
  let writerID := d.writeSeqID >>> 16
  let sequenceID := d.writeSeqID &&& 0xFFFF
  match firstDatagram c.lastSequenceIDAck (c.inBuffers r) sequenceID with
  | none => some (c, [])
  | some receive =>
    let index := d.dataIDlength >>> 16
    if index < receive.got.length then
      if receive.got.getD index false = true then
        some ({ c with inBuffers := Function.update c.inBuffers r receive }, [])
      else
        let length := d.dataIDlength &&& 0xFFFF
        if length ≤ d.payload.length then
          let stored := receive.store cfg index length d.payload
          some ({ c with inBuffers := Function.update c.inBuffers r stored },
                earlyNack selfID writerID sequenceID stored.got index)
        else none
    else none

/-- The body of `_handleDataDatagram` (lines 764-857) on the connection found
for the writer.  `none` as for `fillSlot`. -/
def Conn.handleDataDatagram (cfg : Config) (selfID : Nat) (c : Conn) (d : DatagramData) :
    Option (Conn × List Out) :=
  match c.acquireRecvBuffer (d.writeSeqID &&& 0xFFFF) with
  | (c1, none) => some (c1, [])
  | (c1, some r) => c1.fillSlot cfg selfID r d

/-- Method `_handleDataDatagram` (lines 740-858) with the result flag of the source:
`false` when no child has the writer ID of the datagram. -/
def RSPConnection.handleDataDatagram (cfg : Config) (s : RSPConnection) (d : DatagramData) :
    Option (RSPConnection × List Out × Bool) :=
  match s.findConnectionWithWriterID (d.writeSeqID >>> 16) with
  | none => some (s, [], false)
  | some i =>
    match s.children[i]? with
    | none => some (s, [], false)
    | some c =>
      match c.handleDataDatagram cfg s.id d with
      | none => none
      | some (c1, out) => some ({ s with children := s.children.set i c1 }, out, true)

/-! ## ACK requests -/

/-- Inner loop of the scan (lines 1028-1034) over the bits from position `i`
on: the first position whose fragment has arrived, `none` if the loop runs to
the end of the bitset. -/
def firstGot : List Bool → Nat → Option Nat
  | [], _ => none
  | true :: _, i => some i
  | false :: rest, i => firstGot rest (i + 1)

/-- The scan for lost fragments (lines 1013-1038), started at position `i`
with the ranges collected so far.  The first argument counts the positions
`i..lastDatagramID` still to visit; `i` grows with every pass, so the loop
leaves by its own test before the count is used up.  `none` stands for a read
outside the `got` bitset. -/
def scanLost (cfg : Config) (got : List Bool) (lastDatagramID : Nat) :
    Nat → Nat → List Nat → Option (List Nat)
  | 0, _, bufferRepeatID => some bufferRepeatID
  | fuel + 1, i, bufferRepeatID =>
    if lastDatagramID < i then some bufferRepeatID
    else if cfg.maxNAck ≤ bufferRepeatID.length then some bufferRepeatID
    else if i < got.length then
      if got.getD i false = true then scanLost cfg got lastDatagramID fuel (i + 1) bufferRepeatID
      else
        let start := (i <<< 16) % 2 ^ 32
        match firstGot (got.drop i) i with
        | some j =>
          scanLost cfg got lastDatagramID fuel (j + 1)
            (bufferRepeatID ++ [((j - 1) % 2 ^ 32) ||| start])
        | none =>
          scanLost cfg got lastDatagramID fuel (got.length + 1)
            (bufferRepeatID ++ [lastDatagramID ||| start])
    else none

/-- The body of `_handleAckRequest` (lines 980-1093) on the connection found
for the writer.  `none` stands for a read outside the `got` bitset. -/
def Conn.handleAckRequest (cfg : Config) (selfID : Nat) (c : Conn) (r : DatagramAckRequest) :
    Option (Conn × List Out) :=
  match c.findReceiverWithSequenceID r.sequenceID with
  | none => some (c, [sendNack selfID c.id r.sequenceID 1 [r.lastDatagramID]])
  | some k =>
    let receive := c.inBuffers k
    if receive.ackSend = true then some (c, [sendAck selfID r.writerID r.sequenceID])
    else
      match scanLost cfg receive.got r.lastDatagramID (r.lastDatagramID + 1) 0 [] with
      | none => none
      | some bufferRepeatID =>
        if bufferRepeatID.length > 0 then
          some (c, [sendNack selfID c.id r.sequenceID bufferRepeatID.length bufferRepeatID])
        else
          let index := nextIndex c.recvBufferIndex
          some ({ c with
                  recvBuffer := if (c.inBuffers index).allRead = true then some index else none
                  recvBufferIndex := index
                  lastSequenceIDAck := (receive.sequenceID : Int)
                  inBuffers :=
                    Function.update c.inBuffers k { receive with ackSend := true, allRead := false } },
                [sendAck selfID c.id receive.sequenceID])

/-- Method `_handleAckRequest` (lines 968-1094) with the result flag of the source:
`false` when no child has the writer ID of the request. -/
def RSPConnection.handleAckRequest (cfg : Config) (s : RSPConnection)
    (r : DatagramAckRequest) : Option (RSPConnection × List Out × Bool) :=
  match s.findConnectionWithWriterID r.writerID with
  | none => some (s, [], false)
  | some i =>
    match s.children[i]? with
    | none => some (s, [], false)
    | some c =>
      match c.handleAckRequest cfg s.id r with
      | none => none
      | some (c1, out) => some ({ s with children := s.children.set i c1 }, out, true)

/-! ## Reading -/

/-- The result of a read: the connection afterwards, the bytes copied to the
caller and the returned count. -/
structure ReadResult where
  conn : Conn
  bytes : List Nat
  ret : Nat

/-- Method `_readSync` (lines 632-665) on slot `k`. -/
def Conn.readSyncSlot (c : Conn) (k : Fin 4) (bytes : Nat) : ReadResult :=
  let readBuffer := c.inBuffers k
  let size := min bytes ((readBuffer.dataSize + 2 ^ 64 - readBuffer.readPos) % 2 ^ 64)
  let copied := (readBuffer.data.drop readBuffer.readPos).take size
  let readPos := readBuffer.readPos + size
  if readPos = readBuffer.dataSize then
    { conn :=
        { c with
          readBufferIndex := nextIndex c.readBufferIndex
          inBuffers := Function.update c.inBuffers k
            { readBuffer with
              readPos := readPos
              got := List.replicate readBuffer.got.length false
              dataSize := 0
              allRead := true } }
      bytes := copied
      ret := size }
  else
    { conn := { c with inBuffers := Function.update c.inBuffers k { readBuffer with readPos := readPos } }
      bytes := copied
      ret := size }

/-- Method `readSync` (lines 376-395).  `none` stands for a call that does not get
past its waits in this state: it waits for `ackSend == true` and then for
`allRead == false` on the slot at the read index. -/
def Conn.readSync (cfg : Config) (c : Conn) (bytes : Nat) : Option ReadResult :=
  let size := (min bytes cfg.bufferSize) % 2 ^ 32
  let readBuffer := c.inBuffers c.readBufferIndex
  if readBuffer.ackSend = true ∧ readBuffer.allRead = false then
    some (c.readSyncSlot c.readBufferIndex size)
  else none

/-- Method `close` (lines 142-182), receiver-side members: nothing happens on a closed
connection; otherwise every slot is reset and `_recvBuffer` points to slot 0. -/
def Conn.close (cfg : Config) (c : Conn) : Conn :=
  if c.state = State.closed then c
  else
    { c with
      state := State.closed
      inBuffers := fun k => (c.inBuffers k).reset cfg
      recvBuffer := some 0 }

/-! ## Event traces of a receiver -/

/-- Method `readSync` called on the child at position `i` of `_children` (the
connection object handed out by `acceptSync`).  `none` when the call does not
get past its waits, or when there is no such child. -/
def RSPConnection.readChild (cfg : Config) (s : RSPConnection) (i bytes : Nat) :
    Option (RSPConnection × ReadResult) :=
  match s.children[i]? with
  | none => none
  | some c =>
    match c.readSync cfg bytes with
    | none => none
    | some res => some ({ s with children := s.children.set i res.conn }, res)

/-- Method `close` called on the child at position `i` of `_children`; nothing
happens when there is no such child. -/
def RSPConnection.closeChild (cfg : Config) (s : RSPConnection) (i : Nat) : RSPConnection :=
  match s.children[i]? with
  | none => s
  | some c => { s with children := s.children.set i (c.close cfg) }

/-- What can happen at a receiver: a DATA datagram or an ACK request is taken
from the socket by the I/O thread, the reader calls `readSync` on a child, or a
child is closed. -/
inductive Event where
  | data (d : DatagramData)
  | ackRequest (r : DatagramAckRequest)
  | read (child bytes : Nat)
  | close (child : Nat)
deriving DecidableEq

/-- One event, with what it produces: the datagrams sent in reply and the
bytes returned to the reader. -/
def RSPConnection.step (cfg : Config) (s : RSPConnection) :
    Event → Option (RSPConnection × List Out × List Nat)
  | Event.data d => (s.handleDataDatagram cfg d).map (fun x => (x.1, x.2.1, []))
  | Event.ackRequest r => (s.handleAckRequest cfg r).map (fun x => (x.1, x.2.1, []))
  | Event.read i bytes => (s.readChild cfg i bytes).map (fun x => (x.1, [], x.2.bytes))
  | Event.close i => some (s.closeChild cfg i, [], [])

/-- A sequence of events, collecting the replies and, for every read, the
bytes it returned. -/
def RSPConnection.run (cfg : Config) (s : RSPConnection) :
    List Event → Option (RSPConnection × List Out × List (List Nat))
  | [] => some (s, [], [])
  | e :: es =>
    match s.step cfg e with
    | none => none
    | some (s1, out, bytes) =>
      match RSPConnection.run cfg s1 es with
      | none => none
      | some (s2, outs, reads) =>
        some (s2, out ++ outs, match e with
                               | Event.read _ _ => bytes :: reads
                               | _ => reads)

/-- A listening participant with the given children and no write under way. -/
def RSPConnection.listening (id : Nat) (children : List Conn) : RSPConnection :=
  { id := id, state := State.listening, connectionValid := true, children := children,
    sequenceID := 0, nDatagrams := 0, timeouts := 0, numWriteAcks := 0, writing := false,
    countAcceptChildren := 0 }

/-! ## Writer engine -/

/-- The enumeration `RepeatRequest::Type`. -/
inductive RepeatType where
  | done | ackreq | nack
deriving DecidableEq

/-- The struct `RepeatRequest`: what the I/O thread queues for the writer.  `end_` is the
member `end` of the source. -/
structure RepeatRequest where
  type : RepeatType
  start : Nat
  end_ : Nat
deriving DecidableEq

/-- What the writer hands to the socket or to the UDP layer: a DATA datagram,
an ACK request, or a call of `_adaptSendRate` with its error count. -/
inductive Emit where
  | data (d : DatagramData)
  | ackRequest (r : DatagramAckRequest)
  | adaptSendRate (errors : Nat)
deriving DecidableEq

/-- Member `_shiftedID` as set by `_buildNewID` (line 252): the ID in the high half of
a 32-bit word. -/
def shiftedID (id : Nat) : Nat := (id <<< 16) % 2 ^ 32

/-- The datagram built by `_sendDatagram` (lines 1478-1511) for fragment
`idDatagram` (a 16-bit parameter) of the first `size` bytes of `data`. -/
def sendDatagram (cfg : Config) (data : List Nat) (size writeSeqID idDatagram : Nat) :
    DatagramData :=
  let id := idDatagram % 65536
  let posInData := (cfg.payloadSize * id) % 2 ^ 32
  let remaining := (size + 2 ^ 64 - posInData) % 2 ^ 64
  let packetSize := if remaining ≥ cfg.payloadSize then cfg.payloadSize else remaining % 2 ^ 32
  { writeSeqID := writeSeqID
    dataIDlength := ((id <<< 16) ||| (packetSize &&& 0xffff)) % 2 ^ 32
    payload := (data.drop posInData).take packetSize }

/-- The datagram built by `_sendAckRequest` (lines 1513-1522); the last
fragment ID is the 16-bit value of `_nDatagrams - 1`. -/
def RSPConnection.ackRequest (s : RSPConnection) : DatagramAckRequest :=
  { writerID := s.id
    lastDatagramID := (s.nDatagrams + 65535) % 65536
    sequenceID := s.sequenceID }

/-- Lines 1337-1352: a NACK candidate is merged into the first request it
overlaps, and appended if it overlaps none. -/
def mergeCandidate : List RepeatRequest → RepeatRequest → List RepeatRequest
  | [], candidate => [candidate]
  | old :: rest, candidate =>
    if old.start ≤ candidate.end_ ∧ old.end_ ≥ candidate.start then
      { old with start := min old.start candidate.start,
                 end_ := max old.end_ candidate.end_ } :: rest
    else old :: mergeCandidate rest candidate

/-- The merge loop (lines 1323-1355) over the requests found in the queue:
`none` when a `DONE` is among them (the function returns), otherwise the
merged requests. -/
def mergeRequests : List RepeatRequest → List RepeatRequest → Option (List RepeatRequest)
  | requests, [] => some requests
  | requests, candidate :: queue =>
    match candidate.type with
    | RepeatType.done => none
    | RepeatType.ackreq => mergeRequests requests queue
    | RepeatType.nack => mergeRequests (mergeCandidate requests candidate) queue

/-- Lines 1358-1365: the error count of a batch, `end - start + 1` summed in
unsigned arithmetic. -/
def countErrors (requests : List RepeatRequest) : Nat :=
  requests.foldl (fun errors r => (errors + (r.end_ + 2 ^ 32 - r.start + 1) % 2 ^ 32) % 2 ^ 64) 0

/-- Lines 1369-1383: the fragments of every merged request are sent again. -/
def resend (cfg : Config) (data : List Nat) (size writeSeqID : Nat)
    (requests : List RepeatRequest) : List Emit :=
  requests.flatMap (fun r =>
    (List.range' r.start (r.end_ + 1 - r.start)).map
      (fun j => Emit.data (sendDatagram cfg data size writeSeqID j)))

/-- Method `_handleRepeat` (lines 1284-1392).  The queue is given as what the writer
finds in it over time: `some r` is a request it pops, `none` marks a moment at
which it finds the queue empty (a blocking `pop` waits through such moments).
The first list holds the requests collected for the current batch; it is empty
while the writer waits for the first NACK.  The result is the returned number
of repeats with everything sent on the way; `none` stands for a writer that
never returns because no `DONE` arrives. -/
def handleRepeat (cfg : Config) (s : RSPConnection) (data : List Nat) (size : Nat) :
    List RepeatRequest → Nat → List (Option RepeatRequest) → Option (Nat × List Emit)
  | _, _, [] => none
  | [], nRepeats, none :: queue => handleRepeat cfg s data size [] nRepeats queue
  | [], nRepeats, some request :: queue =>
    match request.type with
    | RepeatType.done => some (nRepeats, [])
    | RepeatType.ackreq =>
      (handleRepeat cfg s data size [] nRepeats queue).map
        (fun x => (x.1, Emit.ackRequest s.ackRequest :: x.2))
    | RepeatType.nack => handleRepeat cfg s data size [request] nRepeats queue
  | old :: rest, nRepeats, some candidate :: queue =>
    match candidate.type with
    | RepeatType.done => some (nRepeats, [])
    | RepeatType.ackreq => handleRepeat cfg s data size (old :: rest) nRepeats queue
    | RepeatType.nack =>
      handleRepeat cfg s data size (mergeCandidate (old :: rest) candidate) nRepeats queue
  | old :: rest, nRepeats, none :: queue =>
    let requests := old :: rest
    let batch := Emit.adaptSendRate (countErrors requests) ::
      resend cfg data size (shiftedID s.id ||| s.sequenceID) requests
    let reRequest := match queue with
      | some _ :: _ => []
      | _ => [Emit.ackRequest s.ackRequest]
    (handleRepeat cfg s data size [] (nRepeats + requests.length) queue).map
      (fun x => (x.1, batch ++ reRequest ++ x.2))

/-- The result of a `write`: the returned value, the connection afterwards and
everything handed to the socket or the UDP layer, in order. -/
structure WriteResult where
  ret : Int
  conn : RSPConnection
  sent : List Emit

/-- Lines 1240-1242: the number of datagrams for `size` bytes. -/
def countDatagrams (cfg : Config) (size : Nat) : Nat :=
  if (size / cfg.payloadSize) * cfg.payloadSize ≠ size then size / cfg.payloadSize + 1
  else size / cfg.payloadSize

/-- Method `write` (lines 1216-1282) on a connection without a parent.  `queue` is
what the writer finds in the repeat queue over time (see `handleRepeat`).
`none` stands for a call that never returns: no `DONE` arrives, or the payload
size is zero and the division at line 1240 is undefined. -/
def RSPConnection.write (cfg : Config) (s : RSPConnection) (buffer : List Nat) (bytes : Nat)
    (queue : List (Option RepeatRequest)) : Option WriteResult :=
  if s.state ≠ State.connected ∧ s.state ≠ State.listening then
    some { ret := -1, conn := s, sent := [] }
  else
    let size := min bytes cfg.bufferSize
    if s.connectionValid = false then some { ret := -1, conn := s, sent := [] }
    else if cfg.payloadSize = 0 then none
    else
      let s1 : RSPConnection :=
        { s with timeouts := 0, numWriteAcks := 0,
                 sequenceID := (s.sequenceID + 1) % 65536,
                 nDatagrams := countDatagrams cfg size }
      let writSeqID := shiftedID s1.id ||| s1.sequenceID
      let initial := (List.range s1.nDatagrams).map
        (fun i => Emit.data (sendDatagram cfg buffer size writSeqID i))
      let s2 : RSPConnection := { s1 with writing := true }
      match handleRepeat cfg s2 buffer size [] 0 queue with
      | none => none
      | some (nRepeats, repeated) =>
        some { ret := (size : Int)
               conn := { s2 with writing := false }
               sent := initial ++ Emit.ackRequest s2.ackRequest :: repeated ++
                 [Emit.adaptSendRate nRepeats] }

/-- Method `write` on a connection with a parent (lines 1218-1222): after the state
check the call is passed on to the parent. -/
def RSPConnection.writeChild (cfg : Config) (parent s : RSPConnection) (buffer : List Nat)
    (bytes : Nat) (queue : List (Option RepeatRequest)) : Option WriteResult :=
  if s.state ≠ State.connected ∧ s.state ≠ State.listening then
    some { ret := -1, conn := parent, sent := [] }
  else parent.write cfg buffer bytes queue

/-- The timeout branch of `_runReadThread` (lines 583-607): the request pushed
to the repeat queue when the timeout counter has the given value before the
increment. -/
def timeoutRequest (maxTimeouts timeouts : Nat) : RepeatRequest :=
  if timeouts + 1 ≥ maxTimeouts then { type := RepeatType.done, start := 0, end_ := 0 }
  else { type := RepeatType.ackreq, start := 0, end_ := 0 }

/-- What successive timeouts of the I/O thread push to the repeat queue, from
a timeout counter of `timeouts`, until `DONE` has been pushed (the thread
returns after pushing it).  The first argument bounds the number of
timeouts. -/
def timeoutRequests (maxTimeouts : Nat) : Nat → Nat → List RepeatRequest
  | 0, _ => []
  | n + 1, timeouts =>
    let r := timeoutRequest maxTimeouts timeouts
    if r.type = RepeatType.done then [r]
    else r :: timeoutRequests maxTimeouts n (timeouts + 1)

/-! ## Rate adaptation -/

/-- The four rate attributes read by `_adaptSendRate`. -/
structure RateSettings where
  errorBaseRate : Int
  errorUpscale : Int
  errorDownscale : Int
  errorMax : Int
deriving DecidableEq

/-- The cast `static_cast< int32_t >` of a real value: the fractional part is dropped. -/
def truncate (x : ℚ) : Int := if 0 ≤ x then ⌊x⌋ else ⌈x⌉

/-- Method `_adaptSendRate` (lines 1394-1424): the percentage handed to
`adaptSendRate` of the UDP connection.  The `float` arithmetic of the source is
taken as exact arithmetic on rationals. -/
def adaptSendRate (g : RateSettings) (nDatagrams errors : Nat) : Int :=
  let error : ℚ := (errors : ℚ) / (nDatagrams : ℚ) * 100 - (g.errorBaseRate : ℚ)
  if error < 0 then
    let delta := truncate (error * (g.errorUpscale : ℚ))
    let capped := min g.errorMax delta
    (0 : Int) - capped
  else
    let delta := truncate (error / (g.errorDownscale : ℚ))
    let capped := min g.errorMax delta
    (0 : Int) - capped

/-- The states a receiver can be in: a listening participant whose children
are as constructed, after any sequence of events. -/
inductive Reachable (cfg : Config) : RSPConnection → Prop where
  | init (id : Nat) (ids : List Nat) :
      Reachable cfg (RSPConnection.listening id (ids.map (Conn.fresh cfg)))
  | step {s s1 : RSPConnection} {out : List Out} {bytes : List Nat} (e : Event) :
      Reachable cfg s → s.step cfg e = some (s1, out, bytes) → Reachable cfg s1

/-- A slot that is being filled is the current receive buffer. -/
def Conn.SingleFill (c : Conn) : Prop :=
  ∀ k, (c.inBuffers k).ackSend = false → c.recvBuffer = some k

/-- Whether fragment `k` lies in one of the requested ranges. -/
def covered (requests : List RepeatRequest) (k : Nat) : Bool :=
  requests.any (fun r => decide (r.start ≤ k) && decide (k ≤ r.end_))

/-! ## Worked inputs -/

/-- Settings of the worked traces: 4 payload bytes per fragment, 5 fragments
per ACK window, at most 2 ranges per NACK. -/
def exCfg : Config :=
  { mtu := 16, ackFreq := 5, sizeofDatagramData := 12, sizeofDatagramNack := 8 }

/-- Participant 2, listening, with the writer 1 as its only child. -/
def exReceiver : RSPConnection := RSPConnection.listening 2 [Conn.fresh exCfg 1]

/-- Fragment `i` of the write of `buffer` by writer 1 under sequence `seq`. -/
def exFragment (buffer : List Nat) (seq i : Nat) : DatagramData :=
  sendDatagram exCfg buffer buffer.length (shiftedID 1 ||| seq) i

/-- The ACK request that ends the write of `buffer` by writer 1 under `seq`. -/
def exAckRequest (buffer : List Nat) (seq : Nat) : DatagramAckRequest :=
  { writerID := 1, lastDatagramID := (countDatagrams exCfg buffer.length + 65535) % 65536,
    sequenceID := seq }

/-- The one-fragment write of `buffer` under `seq`, received and acknowledged. -/
def exWrite (buffer : List Nat) (seq : Nat) : List Event :=
  [Event.data (exFragment buffer seq 0), Event.ackRequest (exAckRequest buffer seq)]

/-- Four one-byte writes are received while the reader reads nothing, then
the fragment of write 4 arrives once more (a repetition sent for another
receiver). -/
def exSlotReuse : List Event :=
  exWrite [11] 1 ++ exWrite [22] 2 ++ exWrite [33] 3 ++ exWrite [44] 4 ++
    [Event.data (exFragment [44] 4 0)]

/-- The 17 bytes of the first write of the stale-fragment trace. -/
def exLong : List Nat := [1, 2, 3, 4, 5, 6, 7, 8, 9, 10, 11, 12, 13, 14, 15, 16, 17]

/-- The 6 bytes of the second write of the stale-fragment trace. -/
def exShort : List Nat := [21, 22, 23, 24, 25, 26]

/-- A 17-byte write (5 fragments) is received and acknowledged.  Of the next
write (6 bytes, 2 fragments) fragment 0 arrives, then a late copy of fragment 4
of the first write, while fragment 1 is lost. -/
def exStaleFragment : List Event :=
  (List.range 5).map (fun i => Event.data (exFragment exLong 1 i)) ++
    [Event.ackRequest (exAckRequest exLong 1),
     Event.data (exFragment exShort 2 0),
     Event.data (exFragment exLong 1 4)]

/-- Rate settings of the worked example. -/
def exRates : RateSettings :=
  { errorBaseRate := 50, errorUpscale := 5, errorDownscale := 5, errorMax := 10 }

/-- Participant 1, listening, as a writer. -/
def exWriter : RSPConnection := RSPConnection.listening 1 []

/-- A connected child for writer 1, as handed out by `acceptSync`. -/
def exConn : Conn := { Conn.fresh exCfg 1 with state := State.connected }

/-- What can be observed of a slot: sequence ID, `ackSend`, `allRead`, read
position, the `got` bits and the exposed bytes. -/
def InBuffer.view (b : InBuffer) : Nat × Bool × Bool × Nat × List Bool × List Nat :=
  (b.sequenceID, b.ackSend, b.allRead, b.readPos, b.got, b.bytes)

/-- What can be observed of a connection: its four slots in ring order, the
current receive buffer, the receive index, the read index and the last
acknowledged sequence. -/
def Conn.view (c : Conn) :
    List (Nat × Bool × Bool × Nat × List Bool × List Nat) × Option (Fin 4) × Fin 4 × Fin 4 × Int :=
  ((List.finRange 4).map (fun k => (c.inBuffers k).view), c.recvBuffer, c.recvBufferIndex,
    c.readBufferIndex, c.lastSequenceIDAck)

/-- The children of a participant after a trace, as observed. -/
def RSPConnection.viewAfter (cfg : Config) (s : RSPConnection) (events : List Event) :
    Option (List (List (Nat × Bool × Bool × Nat × List Bool × List Nat) ×
      Option (Fin 4) × Fin 4 × Fin 4 × Int)) :=
  (s.run cfg events).map (fun x => x.1.children.map Conn.view)

/-- The result of handling the only fragment of the one-byte write 1 at
`exReceiver`. -/
def exOnce : RSPConnection × List Out × Bool :=
  (exReceiver.handleDataDatagram exCfg (exFragment [11] 1 0)).getD (exReceiver, [], false)

/-- The state of a slot while the fragments of `buffer`, written under
sequence `seq`, arrive: the slot is being filled, every byte of a received
fragment is in place, and the data size is that of the whole buffer once the
last fragment is in. -/
def InBuffer.Assembling (cfg : Config) (buffer : List Nat) (seq : Nat) (b : InBuffer) : Prop :=
  b.ackSend = false ∧ b.allRead = true ∧ b.sequenceID = seq ∧ b.readPos = 0 ∧
  b.got.length = cfg.ackFreq ∧ b.dataSize ≤ b.data.length ∧ b.dataSize ≤ buffer.length ∧
  (b.got.getD (countDatagrams cfg buffer.length - 1) false = true →
    b.dataSize = buffer.length) ∧
  ∀ j, j < buffer.length → b.got.getD (j / cfg.payloadSize) false = true →
    b.data.getD j 0 = buffer.getD j 0

/-- The state of the connection of writer `id` while the fragments of
`buffer`, written under `seq`, arrive in slot `r`: the slot is the current
receive buffer and the next one to be read, it is assembling, and no other
slot records the sequence. -/
def Conn.Assembling (cfg : Config) (buffer : List Nat) (seq : Nat) (r : Fin 4) (id : Nat)
    (c : Conn) : Prop :=
  c.id = id ∧ c.recvBuffer = some r ∧ c.readBufferIndex = r ∧
  (∀ k, k ≠ r → (c.inBuffers k).sequenceID ≠ seq) ∧
  (c.inBuffers r).Assembling cfg buffer seq

/-- A free, empty slot `r` of a connection that is about to receive the new
sequence `seq`: the slot is the one `_handleDataDatagram` will fill and the
next one to be read, it is acknowledged and read with no `got` bit set, and
the sequence is neither recorded in a slot nor the last acknowledged one. -/
def Conn.FreeFor (cfg : Config) (seq : Nat) (r : Fin 4) (c : Conn) : Prop :=
  (c.recvBuffer = some r ∨ (c.recvBuffer = none ∧ c.recvBufferIndex = r)) ∧
  c.readBufferIndex = r ∧
  (c.inBuffers r).allRead = true ∧ (c.inBuffers r).ackSend = true ∧
  (c.inBuffers r).got = List.replicate cfg.ackFreq false ∧
  (∀ k, (c.inBuffers k).sequenceID ≠ seq) ∧ c.lastSequenceIDAck ≠ (seq : Int)

/-- The connection once slot `r` has been taken over by sequence `seq`
(lines 809-812), before a fragment is stored. -/
def Conn.adopt (c : Conn) (r : Fin 4) (seq : Nat) : Conn :=
  { c with recvBuffer := some r
           inBuffers := Function.update c.inBuffers r ((c.inBuffers r).startSequence seq) }

/-! ## ACK handling by the writer -/

/-- The fields of an ACK datagram behind its type tag. -/
structure DatagramAck where
  readerID : Nat
  writerID : Nat
  sequenceID : Nat
deriving DecidableEq

/-- Method `_isCurrentSequence` (lines 1211-1214). -/
def RSPConnection.isCurrentSequence (s : RSPConnection) (sequenceID writer : Nat) : Bool :=
  decide (sequenceID = s.sequenceID) && decide (writer = s.id)

/-- Method `_handleAck` (lines 860-909): the participant afterwards, what is
pushed to the repeat queue, and the result flag of the source (`false` when
no child has the reader ID of the datagram). -/
def RSPConnection.handleAck (s : RSPConnection) (ack : DatagramAck) :
    RSPConnection × List RepeatRequest × Bool :=
  if s.isCurrentSequence ack.sequenceID ack.writerID = false then (s, [], true)
  else
    match s.findConnectionWithWriterID ack.readerID with
    | none => (s, [], false)
    | some i =>
      match s.children[i]? with
      | none => (s, [], false)
      | some connection =>
        if connection.ackReceived = ack.sequenceID then (s, [], true)
        else
          let s1 : RSPConnection :=
            { s with
              children := s.children.set i { connection with ackReceived := ack.sequenceID }
              numWriteAcks := s.numWriteAcks + 1
              timeouts := 0 }
          if s1.numWriteAcks ≠ s1.children.length then (s1, [], true)
          else (s1, [{ type := RepeatType.done, start := 0, end_ := 0 }], true)

/-- Successive calls of `_handleAck`, with everything pushed to the repeat
queue. -/
def RSPConnection.handleAcks (s : RSPConnection) :
    List DatagramAck → RSPConnection × List RepeatRequest
  | [] => (s, [])
  | ack :: acks =>
    let r := s.handleAck ack
    let rest := r.1.handleAcks acks
    (rest.1, r.2.1 ++ rest.2)

/-- The number of children whose last counted ACK is not for the current
sequence of the writer. -/
def RSPConnection.uncounted (s : RSPConnection) : Nat :=
  s.children.countP (fun c => decide (c.ackReceived ≠ s.sequenceID))

/-! ## Sizes and runs of a NACK -/

/-- Line 1461 of `_sendNack`: the size of a NACK datagram with `count` ranges. -/
def nackSize (cfg : Config) (count : Nat) : Nat := count * 4 + cfg.sizeofDatagramNack

/-- The ranges of a datagram sent by the receiver, decoded as `_addRepeat`
does: start and end of each (none for an ACK). -/
def Out.ranges : Out → List (Nat × Nat)
  | Out.nack _ _ _ _ ranges => ranges.map (fun r => (rangeStart r, rangeEnd r))
  | Out.ack _ _ _ => []

/-- The ranges the specification asks for, walking the fragments `i`,
`i + 1`, ... (`n` of them) with the start of the run of missing fragments
that is open at `i`, if any: a run is closed by a fragment that has arrived or
by the end of the walk. -/
def specMissingRunsFrom (got : List Bool) : Nat → Nat → Option Nat → List (Nat × Nat)
  | 0, i, run =>
    match run with
    | some start => [(start, i - 1)]
    | none => []
  | n + 1, i, run =>
    if got.getD i false = true then
      match run with
      | some start => (start, i - 1) :: specMissingRunsFrom got n (i + 1) none
      | none => specMissingRunsFrom got n (i + 1) none
    else specMissingRunsFrom got n (i + 1) (some (run.getD i))

/-- The ranges the specification asks for in the NACK that answers an ACK
request: the maximal runs of missing fragments among the fragments
`0..lastFragmentID`, in increasing order. -/
def specMissingRuns (got : List Bool) (lastFragmentID : Nat) : List (Nat × Nat) :=
  specMissingRunsFrom got (lastFragmentID + 1) 0 none

/-- Whether `_handleDataDatagram` takes the fragment in (line 822 is reached):
a receive buffer is available, the datagram is not ignored as a repetition of
an acknowledged sequence, and its fragment has not arrived before. -/
def Conn.accepts (c : Conn) (d : DatagramData) : Bool :=
  match c.acquireRecvBuffer (d.writeSeqID &&& 0xFFFF) with
  | (_, none) => false
  | (c1, some r) =>
    match firstDatagram c1.lastSequenceIDAck (c1.inBuffers r) (d.writeSeqID &&& 0xFFFF) with
    | none => false
    | some receive => !(receive.got.getD (d.dataIDlength >>> 16) false)

/-! ## Worked inputs of the receiver and writer claims -/

/-- The child of `exReceiver` once the only fragment of the one-byte write 1
has been handled: slot 0 is being filled. -/
def exFilling : Conn := exOnce.1.children.headD (Conn.fresh exCfg 1)

/-- The child of `exReceiver` once both fragments of the 6-byte write `exShort`
have arrived under sequence 1. -/
def exComplete : Conn :=
  ((exReceiver.run exCfg
      [Event.data (exFragment exShort 1 0), Event.data (exFragment exShort 1 1)]).map
    (fun x => x.1.children.headD (Conn.fresh exCfg 1))).getD (Conn.fresh exCfg 1)

/-- The child of `exReceiver` once fragments 0 and 1 of a 16-byte write
(4 fragments) have arrived under sequence 1. -/
def exTwoOfFour : Conn :=
  ((exReceiver.run exCfg
      [Event.data (exFragment (exLong.take 16) 1 0),
       Event.data (exFragment (exLong.take 16) 1 1)]).map
    (fun x => x.1.children.headD (Conn.fresh exCfg 1))).getD (Conn.fresh exCfg 1)

/-- The result of handling fragment 3 of the 16-byte write at `exTwoOfFour`,
fragment 2 not having arrived. -/
def exThree : Conn × List Out :=
  (exTwoOfFour.handleDataDatagram exCfg 2 (exFragment (exLong.take 16) 1 3)).getD
    (exTwoOfFour, [])

/-- The child of `exReceiver` once fragment 0 of the 6-byte write `exShort`
has arrived under sequence 1; fragment 1 is missing. -/
def exOneOfTwo : Conn :=
  ((exReceiver.run exCfg [Event.data (exFragment exShort 1 0)]).map
    (fun x => x.1.children.headD (Conn.fresh exCfg 1))).getD (Conn.fresh exCfg 1)

/-- The child of `exReceiver` once fragments 0, 2 and 4 of a 17-byte write
(5 fragments) have arrived under sequence 1; fragments 1 and 3 are missing. -/
def exGaps : Conn :=
  ((exReceiver.run exCfg
      [Event.data (exFragment exLong 1 0), Event.data (exFragment exLong 1 2),
       Event.data (exFragment exLong 1 4)]).map
    (fun x => x.1.children.headD (Conn.fresh exCfg 1))).getD (Conn.fresh exCfg 1)

/-- The child of `exReceiver` after `exStaleFragment`. -/
def exStale : Conn :=
  ((exReceiver.run exCfg exStaleFragment).map
    (fun x => x.1.children.headD (Conn.fresh exCfg 1))).getD (Conn.fresh exCfg 1)

/-- The 5 bytes (2 fragments) of write 4 of the trace `exStaleAdoption`. -/
def exFive : List Nat := [41, 42, 43, 44, 45]

/-- Three one-byte writes and a 5-byte write (2 fragments) are received and
acknowledged while the reader reads nothing; then fragment 0 of write 4
arrives once more (a repetition sent for another receiver), and after it
fragment 0 of write 5. -/
def exStaleAdoption : List Event :=
  exWrite [11] 1 ++ exWrite [22] 2 ++ exWrite [33] 3 ++
    [Event.data (exFragment exFive 4 0), Event.data (exFragment exFive 4 1),
     Event.ackRequest (exAckRequest exFive 4),
     Event.data (exFragment exFive 4 0),
     Event.data (exFragment [55] 5 0)]

/-! ## Master change manager (masterCM.cpp) -/

/-- An `ObjectSlaveDeltaPacket` as far as `_cmdSlaveDelta` and the worked
inputs look at it: the commit it belongs to, its number within the commit, and
whether it is marked as the last one (the packet types are declared in
`packets.h`, which is not among the sources at hand). -/
structure SlaveDeltaPacket where
  commit : Nat
  sequence : Nat
  last : Bool
deriving DecidableEq

/-- The packet `addOldMaster` sends (lines 128-131). -/
structure ObjectVersionPacket where
  instanceID : Nat
  version : Nat
deriving DecidableEq

/-- Modelled from the spec: an `ObjectSlaveDeltaDataIStream` (the stream
classes are not among the sources at hand).  `addDataPacket` appends the
command packet to the stream, so a stream is the list of the packets added to
it, in order; a new stream is empty. -/
abbrev IStream : Type := List SlaveDeltaPacket

/-- Modelled from the spec: the queue class behind `_queuedDeltas` (not among
the sources at hand), a FIFO of completed streams: a list with its front
first.  `push` appends at the back; `pop` and `tryPop` take the front. -/
abbrev StreamQueue : Type := List IStream

/-- The members of `MasterCM` used by `sync`, `addOldMaster` and
`_cmdSlaveDelta`.  `_pendingDeltas` pairs a commit with its stream; a node
pointer is a number, and `_slavesCount` maps a node ID to a count (0 for an ID
not yet entered). -/
structure MasterCM where
  version : Nat
  pendingDeltas : List (Nat × IStream)
  queuedDeltas : StreamQueue
  slaves : List Nat
  slavesCount : Nat → Nat

/-- The master change manager with no pending or queued stream and no
subscriber, as the constructor leaves it (lines 33-42).  `_version`, which the
constructor sets to `VERSION_NONE` and the subclasses advance, is a
parameter. -/
def MasterCM.new (version : Nat) : MasterCM :=
  { version := version, pendingDeltas := [], queuedDeltas := [], slaves := [],
    slavesCount := fun _ => 0 }

/-- The search loop of `_cmdSlaveDelta` (lines 147-156): position of the first
pending stream of the commit. -/
def findPending : List (Nat × List SlaveDeltaPacket) → Nat → Option Nat
  | [], _ => none
  | pending :: rest, commit =>
    if pending.1 = commit then some 0 else (findPending rest commit).map (fun i => i + 1)

/-- Method `_cmdSlaveDelta` (lines 137-192).  `isReady` stands for
`ObjectDataIStream::isReady` as a function of the packets added to the stream
(the stream classes are not among the sources at hand).  Returns the manager
afterwards and whether `notifyNewVersion` was called.  The assertion on the
number of pending streams (line 143) changes no state and is left out. -/
def MasterCM.cmdSlaveDelta (isReady : List SlaveDeltaPacket → Bool) (m : MasterCM)
    (packet : SlaveDeltaPacket) : MasterCM × Bool :=
  match findPending m.pendingDeltas packet.commit with
  | some i =>
    let istream := ((m.pendingDeltas[i]?).map (fun p => p.2)).getD [] ++ [packet]
    if isReady istream = true then
      ({ m with pendingDeltas := m.pendingDeltas.eraseIdx i
                queuedDeltas := m.queuedDeltas ++ [istream] }, true)
    else
      ({ m with pendingDeltas := m.pendingDeltas.set i (packet.commit, istream) }, false)
  | none =>
    let istream := [packet]
    if isReady istream = true then
      ({ m with queuedDeltas := m.queuedDeltas ++ [istream] }, true)
    else
      ({ m with pendingDeltas := m.pendingDeltas ++ [(packet.commit, istream)] }, false)

/-- Successive calls of `_cmdSlaveDelta`, one per packet in arrival order,
with the number of calls of `notifyNewVersion`. -/
def MasterCM.cmdSlaveDeltas (isReady : List SlaveDeltaPacket → Bool) (m : MasterCM) :
    List SlaveDeltaPacket → MasterCM × Nat
  | [] => (m, 0)
  | packet :: packets =>
    let r := m.cmdSlaveDelta isReady packet
    let rest := MasterCM.cmdSlaveDeltas isReady r.1 packets
    (rest.1, (if r.2 = true then 1 else 0) + rest.2)

/-- The version argument of `sync`: one of the two values the assertion at
line 87 admits. -/
inductive SyncVersion where
  | next | head
deriving DecidableEq

/-- The loop of `sync` (lines 105-115): streams are popped and unpacked until
`tryPop` finds the queue empty.  Returns the streams unpacked, in order, and
the queue that is left. -/
def unpackQueued : List (List SlaveDeltaPacket) →
    List (List SlaveDeltaPacket) × List (List SlaveDeltaPacket)
  | [] => ([], [])
  | is :: rest => (is :: (unpackQueued rest).1, (unpackQueued rest).2)

/-- Method `sync` (lines 85-117): the manager afterwards, the streams handed to
`unpack` in order, and the returned version.  `none` stands for the blocking
`pop` of `VERSION_NEXT` on an empty queue, which waits for a stream to be
queued. -/
def MasterCM.sync (m : MasterCM) (version : SyncVersion) :
    Option (MasterCM × List (List SlaveDeltaPacket) × Nat) :=
  match version with
  | SyncVersion.next =>
    match m.queuedDeltas with
    | [] => none
    | is :: rest => some ({ m with queuedDeltas := rest }, [is], m.version)
  | SyncVersion.head =>
    some ({ m with queuedDeltas := (unpackQueued m.queuedDeltas).2 },
          (unpackQueued m.queuedDeltas).1, m.version)

/-- Modelled from the spec: `std::unique` with `erase`, as used by
`stde::usort` (declared outside the sources at hand): of each run of equal
neighbours the first is kept. -/
def unique : List Nat → List Nat
  | [] => []
  | [a] => [a]
  | a :: b :: rest => if a = b then unique (b :: rest) else a :: unique (b :: rest)

/-- Modelled from the spec: `stde::usort`, which keeps the subscriber list
sorted and free of duplicates: sort, then drop repeated neighbours. -/
def usort (l : List Nat) : List Nat := unique (l.insertionSort (fun a b => a ≤ b))

/-- Method `addOldMaster` (lines 119-132).  `getNodeID` gives the node ID of the
node a pointer refers to.  Returns the manager afterwards and the packets
sent, each with its destination.  The assertion on `_version` (line 121)
changes no state and is left out. -/
def MasterCM.addOldMaster (getNodeID : Nat → Nat) (m : MasterCM) (node instanceID : Nat) :
    MasterCM × List (Nat × ObjectVersionPacket) :=
  ({ m with
     slavesCount := Function.update m.slavesCount (getNodeID node)
       (m.slavesCount (getNodeID node) + 1)
     slaves := usort (m.slaves ++ [node]) },
   [(node, { instanceID := instanceID, version := m.version })])

/-- Readiness in the worked input: the packet marked as the last one has been
added to the stream. -/
def exIsReady (stream : List SlaveDeltaPacket) : Bool := stream.any (fun p => p.last)

/-- The three packets of commit 7 in the order of arrival 2, 1, 3; packet 3 is
the last one of the commit. -/
def exCommit7 : List SlaveDeltaPacket :=
  [{ commit := 7, sequence := 2, last := false },
   { commit := 7, sequence := 1, last := false },
   { commit := 7, sequence := 3, last := true }]

/-- The packets of commit `commit` held by the manager, in the order in which
they lie in the queued streams (front first) followed by the pending streams. -/
def MasterCM.packetsOf (m : MasterCM) (commit : Nat) : List SlaveDeltaPacket :=
  ((m.queuedDeltas ++ m.pendingDeltas.map Prod.snd).flatten).filter
    (fun p => decide (p.commit = commit))

/-- What holds of the manager once the packets `hist` have been handled, in
this order, by `_cmdSlaveDelta`: no two pending streams are for the same
commit; the packets of a commit lie in the streams in arrival order; a pending
stream is not empty, holds packets of its commit only and was not ready after
any of its packets; a queued stream is not empty, holds packets of one commit
only and became ready with its last packet, not before. -/
def MasterCM.Assembled (isReady : List SlaveDeltaPacket → Bool) (m : MasterCM)
    (hist : List SlaveDeltaPacket) : Prop :=
  (m.pendingDeltas.map Prod.fst).Nodup ∧
  (∀ commit, m.packetsOf commit = hist.filter (fun p => decide (p.commit = commit))) ∧
  (∀ e ∈ m.pendingDeltas, e.2 ≠ [] ∧ (∀ p ∈ e.2, p.commit = e.1) ∧
    ∀ k, 0 < k → k ≤ e.2.length → isReady (e.2.take k) = false) ∧
  (∀ st ∈ m.queuedDeltas, isReady st = true ∧ st ≠ [] ∧
    (∃ commit, ∀ p ∈ st, p.commit = commit) ∧
    ∀ k, 0 < k → k < st.length → isReady (st.take k) = false)

/-- Participant 1 during its write 1, with the readers 2 and 3 as children. -/
def exAckWriter : RSPConnection :=
  { RSPConnection.listening 1 [Conn.fresh exCfg 2, Conn.fresh exCfg 3] with sequenceID := 1 }

/-- The ACK of reader `reader` for write 1 of writer 1. -/
def exAck (reader : Nat) : DatagramAck := { readerID := reader, writerID := 1, sequenceID := 1 }

/-- The manager after the three packets of `exCommit7`. -/
def exQueued : MasterCM := ((MasterCM.new 1).cmdSlaveDeltas exIsReady exCommit7).1

/-- A manager at version 3 with the subscribers 2, 5 and 9. -/
def exSubscribed : MasterCM := { MasterCM.new 3 with slaves := [2, 5, 9] }

/-- A released slot (acknowledged and read, or reset) has no `got` bit set. -/
def Conn.ReleasedClear (c : Conn) : Prop :=
  ∀ k, (c.inBuffers k).ackSend = true → (c.inBuffers k).allRead = true →
    ∀ j, (c.inBuffers k).got.getD j false = false

/-! ## Overlap of repeat requests -/

/-- The test of lines 1342-1343: the request `old` and the candidate share at
least one fragment (for ranges with `start <= end`). -/
def overlaps (old candidate : RepeatRequest) : Bool :=
  decide (old.start ≤ candidate.end_) && decide (old.end_ ≥ candidate.start)

/-- Lines 1345-1346: `old` widened to hold the candidate as well. -/
def hull (old candidate : RepeatRequest) : RepeatRequest :=
  { old with start := min old.start candidate.start, end_ := max old.end_ candidate.end_ }

/-- No two requests of the list share a fragment. -/
def PairwiseApart (requests : List RepeatRequest) : Prop :=
  requests.Pairwise (fun a b => a.end_ < b.start ∨ b.end_ < a.start)

/-- Along the merge loop no NACK found in the queue overlaps more than one of
the requests collected before it. -/
def SingleOverlaps : List RepeatRequest → List RepeatRequest → Prop
  | _, [] => True
  | requests, candidate :: queue =>
    match candidate.type with
    | RepeatType.done => True
    | RepeatType.ackreq => SingleOverlaps requests queue
    | RepeatType.nack =>
      requests.countP (fun old => overlaps old candidate) ≤ 1 ∧
        SingleOverlaps (mergeCandidate requests candidate) queue

/-- The fragment indices sent again for the merged requests (the loops of
lines 1369-1381), in the order of sending. -/
def resendIDs (requests : List RepeatRequest) : List Nat :=
  requests.flatMap (fun r => List.range' r.start (r.end_ + 1 - r.start))

/-- The NACK request for the fragments `start..end_`. -/
def nackRequest (start end_ : Nat) : RepeatRequest :=
  { type := RepeatType.nack, start := start, end_ := end_ }

/-! ## Worked input with a wide ACK window -/

/-- Settings with the typical MTU of 1470 bytes and an ACK window of 512
fragments: 1458 payload bytes per fragment, at most 365 ranges per NACK. -/
def exWide : Config :=
  { mtu := 1470, ackFreq := 512, sizeofDatagramData := 12, sizeofDatagramNack := 8 }

/-- A buffer that fills the whole window of `exWide`: 512 fragments of 1458
bytes. -/
def exWindow : List Nat := List.replicate 746496 0

/-- The odd fragment indices of the window: 1, 3, ..., 511. -/
def exOddIDs : List Nat := (List.range 256).map (fun t => 2 * t + 1)

/-- The fragments with odd index of `exWindow`, written by participant 1 under
sequence 1, as they reach a receiver that misses every fragment with an even
index. -/
def exOddFragments : List Event :=
  exOddIDs.map (fun j =>
    Event.data (sendDatagram exWide exWindow exWindow.length (shiftedID 1 ||| 1) j))

/-- The `got` bits of a slot of 512 fragments of which those with odd index
have arrived. -/
def exAlternating : List Bool := (List.range 512).map (fun t => decide (t % 2 = 1))

/-! ## Read positions -/

/-- What a read relies on in a slot: the `got` bitset has `_ackFreq` entries,
the data size lies within the memory of the buffer and within the largest size
a fragment can give it, the read position is 0 while the slot is being filled,
and it does not pass the data size while the slot waits for the reader. -/
def InBuffer.ReadBounds (cfg : Config) (b : InBuffer) : Prop :=
  b.got.length = cfg.ackFreq ∧ b.dataSize ≤ b.data.length ∧
  b.dataSize ≤ cfg.ackFreq * cfg.payloadSize + 65535 ∧
  (b.ackSend = false → b.readPos = 0) ∧
  (b.ackSend = true → b.allRead = false → b.readPos ≤ b.dataSize)

/-- All four slots of the connection are within their read bounds. -/
def Conn.ReadBounds (cfg : Config) (c : Conn) : Prop :=
  ∀ k, (c.inBuffers k).ReadBounds cfg

/-- Both fragments of the 6-byte write `exShort` under sequence 1, then its
ACK request. -/
def exShortWrite : List Event :=
  [Event.data (exFragment exShort 1 0), Event.data (exFragment exShort 1 1),
   Event.ackRequest (exAckRequest exShort 1)]

/-- The receiver `exReceiver` after `exShortWrite`: slot 0 of its child holds
the 6 bytes and waits for the reader. -/
def exPublished : RSPConnection :=
  ((exReceiver.run exCfg exShortWrite).map (fun x => x.1)).getD exReceiver

/-- The child of `exPublished` for writer 1. -/
def exPublishedChild : Conn := exPublished.children.headD (Conn.fresh exCfg 1)

/-! ## Membership -/

/-- The datagram types of the membership protocol; `other` stands for every
other type tag (DATA, ACK, NACK, ACKREQ or an unknown value). -/
inductive NodeType where
  | hello | confirm | deny | exit | countnode | other
deriving DecidableEq

/-- A membership datagram in the read buffer.  The structs `DatagramNode`
(`type`, `connectionID`) and `DatagramCountConnection` (`type`, `clientID`,
`nbClient`) are declared in `rspConnection.h`; as in the specification
(`NODE{type, connectionID}`, `COUNT{type, connectionID, nChildren}`) the ID
follows the type tag in both, so `node->connectionID` and `countConn->clientID`
are the same field of the buffer.  `nbClient` is read for a COUNTNODE only. -/
structure DatagramNode where
  type : NodeType
  connectionID : Nat
  nbClient : Nat
deriving DecidableEq

/-- A `DatagramNode` as the code writes it: a type tag and an ID. -/
def nodeDatagram (type : NodeType) (id : Nat) : DatagramNode :=
  { type := type, connectionID := id, nbClient := 0 }

/-- Method `_sendDatagramCountNode` (lines 1426-1434): the datagrams written. -/
def RSPConnection.sendDatagramCountNode (s : RSPConnection) : List DatagramNode :=
  match s.findConnectionWithWriterID s.id with
  | none => []
  | some _ => [{ type := NodeType.countnode, connectionID := s.id, nbClient := s.children.length }]

/-- Method `_checkNewID` (lines 1115-1135): the connection afterwards and the
datagrams written. -/
def RSPConnection.checkNewID (s : RSPConnection) (id : Nat) :
    RSPConnection × List DatagramNode :=
  if id = s.id then (s, [nodeDatagram NodeType.deny s.id])
  else
    match s.findConnectionWithWriterID id with
    | some _ => (s, [nodeDatagram NodeType.deny id])
    | none => (s, [])

/-- Method `_addNewConnection` (lines 1162-1181): a newly constructed connection
with the given ID is appended unless a child has the ID.  The method always
returns `true`. -/
def RSPConnection.addNewConnection (cfg : Config) (s : RSPConnection) (id : Nat) :
    RSPConnection × List DatagramNode :=
  match s.findConnectionWithWriterID id with
  | some _ => (s, [])
  | none =>
    let s1 : RSPConnection := { s with children := s.children ++ [Conn.fresh cfg id] }
    (s1, s1.sendDatagramCountNode)

/-- The loop of lines 1187-1198: the children without the first one that has
the ID; `none` when no child has it. -/
def eraseChild : List Conn → Nat → Option (List Conn)
  | [], _ => none
  | c :: children, id =>
    if c.id = id then some children else (eraseChild children id).map (fun rest => c :: rest)

/-- Method `_acceptRemoveConnection` (lines 1183-1210).  The method always returns
`true`. -/
def RSPConnection.acceptRemoveConnection (s : RSPConnection) (id : Nat) :
    RSPConnection × List DatagramNode :=
  let s1 : RSPConnection :=
    match eraseChild s.children id with
    | some children =>
      { s with countAcceptChildren := s.countAcceptChildren - 1, children := children }
    | none => s
  if s1.children.length = 1 then
    ({ s1 with countAcceptChildren := s1.countAcceptChildren - 1, children := [] },
      s1.sendDatagramCountNode)
  else (s1, s1.sendDatagramCountNode)

/-- Method `_handleCountNode` (lines 1096-1113) on the COUNTNODE in the read buffer,
with its result. -/
def RSPConnection.handleCountNode (cfg : Config) (s : RSPConnection) (count : DatagramNode) :
    RSPConnection × List DatagramNode × Bool :=
  if s.children.length = count.nbClient then (s, [], true)
  else
    match s.findConnectionWithWriterID count.connectionID with
    | some _ => (s, [], false)
    | none =>
      let added := s.addNewConnection cfg count.connectionID
      (added.1, added.2, false)

/-- Method `_handleInitData` (lines 522-563); `none` is a read error.  The case
`COUNTNODE` has no `break` or `return`: control goes on into the case
`ID_EXIT`. -/
def RSPConnection.handleInitData (cfg : Config) (s : RSPConnection) :
    Option DatagramNode → RSPConnection × List DatagramNode × Bool
  | none => (s, [], false)
  | some node =>
    match node.type with
    | NodeType.hello =>
      let checked := ({ s with timeouts := 0 } : RSPConnection).checkNewID node.connectionID
      (checked.1, checked.2, true)
    | NodeType.confirm =>
      let added := ({ s with timeouts := 0 } : RSPConnection).addNewConnection cfg
        node.connectionID
      (added.1, added.2, true)
    | NodeType.countnode =>
      let counted := s.handleCountNode cfg node
      let s1 : RSPConnection := { counted.1 with timeouts := if counted.2.2 then 20 else 0 }
      let removed := s1.acceptRemoveConnection node.connectionID
      (removed.1, counted.2.1 ++ removed.2, true)
    | NodeType.exit =>
      let removed := s.acceptRemoveConnection node.connectionID
      (removed.1, removed.2, true)
    | _ => (s, [], true)

/-- The COUNTNODE case of `_handleData` (lines 728-730), the handler of the same
datagram once the read thread runs: `_handleCountNode(); return true;`. -/
def RSPConnection.handleDataCountNode (cfg : Config) (s : RSPConnection)
    (count : DatagramNode) : RSPConnection × List DatagramNode × Bool :=
  let counted := s.handleCountNode cfg count
  (counted.1, counted.2.1, true)

/-- Method `_handleAcceptID` (lines 447-485); `none` is a read error.  `newID` is
the value `_rng.get` returns if `_buildNewID` is called. -/
def RSPConnection.handleAcceptID (s : RSPConnection) (newID : Nat) :
    Option DatagramNode → RSPConnection × List DatagramNode × Bool
  | none => (s, [], false)
  | some node =>
    match node.type with
    | NodeType.hello =>
      let checked := s.checkNewID node.connectionID
      (checked.1, checked.2, true)
    | NodeType.deny =>
      if node.connectionID = s.id then
        ({ s with timeouts := 0, id := newID }, [nodeDatagram NodeType.hello newID], true)
      else (s, [], true)
    | NodeType.exit =>
      let removed := s.acceptRemoveConnection node.connectionID
      (removed.1, removed.2, true)
    | _ => (s, [], true)

/-- What `select` reports to the loop of `_acceptID`: a timeout, a datagram to
read (`none`: the read fails) together with the value the random number
generator would give next, or an interrupt. -/
inductive AcceptEvent where
  | timeout
  | data (datagram : Option DatagramNode) (newID : Nat)
  | interrupt
deriving DecidableEq

/-- The loop of `_acceptID` (lines 406-444) over the events reported by `select`:
the connection afterwards, the datagrams written and the result, `none` while
the loop is still waiting after the last event. -/
def RSPConnection.acceptLoop (cfg : Config) :
    RSPConnection → List AcceptEvent → RSPConnection × List DatagramNode × Option Bool
  | s, [] => (s, [], none)
  | s, AcceptEvent.timeout :: events =>
    let s1 : RSPConnection := { s with timeouts := s.timeouts + 1 }
    if s1.timeouts < 20 then
      let rest := RSPConnection.acceptLoop cfg s1 events
      (rest.1, nodeDatagram NodeType.hello s1.id :: rest.2.1, rest.2.2)
    else
      let added := s1.addNewConnection cfg s1.id
      (added.1, nodeDatagram NodeType.confirm s1.id :: added.2, some true)
  | s, AcceptEvent.data datagram newID :: events =>
    let handled := s.handleAcceptID newID datagram
    if handled.2.2 = false then (handled.1, handled.2.1, some false)
    else
      let rest := RSPConnection.acceptLoop cfg handled.1 events
      (rest.1, handled.2.1 ++ rest.2.1, rest.2.2)
  | s, AcceptEvent.interrupt :: events => RSPConnection.acceptLoop cfg s events

/-- Method `_acceptID` (lines 397-445): the own ID is announced, the timeout
counter is reset, and the loop runs. -/
def RSPConnection.acceptID (cfg : Config) (s : RSPConnection) (events : List AcceptEvent) :
    RSPConnection × List DatagramNode × Option Bool :=
  let rest := RSPConnection.acceptLoop cfg { s with timeouts := 0 } events
  (rest.1, nodeDatagram NodeType.hello s.id :: rest.2.1, rest.2.2)

/-- Method `acceptSync` (lines 328-374): the connection afterwards, the datagrams
written and the child handed out (`none`: the method returns 0).  The outer
`none` stands for an access outside `_children` at line 336. -/
def RSPConnection.acceptSync (s : RSPConnection) :
    Option (RSPConnection × List DatagramNode × Option Conn) :=
  if s.state ≠ State.listening then some (s, [], none)
  else if 0 ≤ s.countAcceptChildren then
    match s.children[s.countAcceptChildren.toNat]? with
    | none => none
    | some newConnection =>
      let accepted : Conn := { newConnection with state := State.connected }
      let s1 : RSPConnection :=
        { s with children := s.children.set s.countAcceptChildren.toNat accepted,
                 countAcceptChildren := s.countAcceptChildren + 1 }
      some (s1, s1.sendDatagramCountNode, some accepted)
  else none

/-- What changes the membership of a participant: a peer is added
(`_addNewConnection`), the application accepts a child (`acceptSync`), or an Exit
is handled (`_acceptRemoveConnection`). -/
inductive MemberEvent where
  | add (id : Nat)
  | accept
  | exit (id : Nat)
deriving DecidableEq

/-- One membership event; `none` as for `acceptSync`. -/
def RSPConnection.member (cfg : Config) (s : RSPConnection) : MemberEvent → Option RSPConnection
  | MemberEvent.add id => some (s.addNewConnection cfg id).1
  | MemberEvent.accept => s.acceptSync.map (fun x => x.1)
  | MemberEvent.exit id => some (s.acceptRemoveConnection id).1

/-- A sequence of membership events. -/
def RSPConnection.members (cfg : Config) : RSPConnection → List MemberEvent → Option RSPConnection
  | s, [] => some s
  | s, e :: events =>
    match s.member cfg e with
    | none => none
    | some s1 => RSPConnection.members cfg s1 events

/-- The IDs of the children, in list order. -/
def RSPConnection.childIDs (s : RSPConnection) : List Nat := s.children.map (fun c => c.id)

/-- Spec side of phase A: walking the events with the own ID and the number
of timeouts since the start or since the last Deny that carried the own ID,
the ID that is confirmed at the 20th such timeout, if the events get
there. -/
def specConfirmed (id timeouts : Nat) : List AcceptEvent → Option Nat
  | [] => none
  | AcceptEvent.timeout :: events =>
    if timeouts + 1 = 20 then some id else specConfirmed id (timeouts + 1) events
  | AcceptEvent.data (some node) newID :: events =>
    if node.type = NodeType.deny ∧ node.connectionID = id then specConfirmed newID 0 events
    else specConfirmed id timeouts events
  | _ :: events => specConfirmed id timeouts events

/-- A participant that knows only itself (ID 1), in phase B. -/
def exAlone : RSPConnection := RSPConnection.listening 1 [Conn.fresh exCfg 1]

/-- Participant 1 with itself and participant 2 as children, none accepted. -/
def exPair : RSPConnection := RSPConnection.listening 1 [Conn.fresh exCfg 1, Conn.fresh exCfg 2]

/-- Participant 1 of a group of two, both children accepted. -/
def exDuo : RSPConnection := { exPair with countAcceptChildren := 2 }

/-- Participant 1 of a group of three, all three children accepted. -/
def exGroup : RSPConnection :=
  { RSPConnection.listening 1 [Conn.fresh exCfg 1, Conn.fresh exCfg 2, Conn.fresh exCfg 3] with
    countAcceptChildren := 3 }

/-- A participant as constructed, with the ID 7 drawn by the constructor and
no children. -/
def exStarting : RSPConnection :=
  { RSPConnection.listening 7 [] with state := State.connecting }

/-! # Properties -/

/-! ## Packed 16-bit fields -/

theorem and_0xFFFF (x : Nat) : x &&& 0xFFFF = x % 65536 := by
  have h := Nat.and_pow_two_sub_one_eq_mod x 16
  norm_num at h
  exact h

theorem pack_eq_add (i l : Nat) (hl : l < 65536) : (i <<< 16) ||| l = 65536 * i + l := by
  have h := Nat.mul_add_lt_is_or (show l < 2 ^ 16 by norm_num; exact hl) i
  rw [Nat.shiftLeft_eq, Nat.mul_comm i (2 ^ 16), ← h]

theorem pack_index (i l : Nat) (hi : i < 65536) (hl : l < 65536) :
    (((i <<< 16) ||| l) % 2 ^ 32) >>> 16 = i := by
  rw [pack_eq_add i l hl, Nat.shiftRight_eq_div_pow]
  have h : (65536 * i + l) % 2 ^ 32 = 65536 * i + l := Nat.mod_eq_of_lt (by omega)
  rw [h]
  omega

theorem pack_length (i l : Nat) (hi : i < 65536) (hl : l < 65536) :
    (((i <<< 16) ||| l) % 2 ^ 32) &&& 0xFFFF = l := by
  rw [pack_eq_add i l hl, and_0xFFFF]
  have h : (65536 * i + l) % 2 ^ 32 = 65536 * i + l := Nat.mod_eq_of_lt (by omega)
  rw [h]
  omega

/-! ## Fragmentation arithmetic -/

theorem countDatagrams_eq_ceil (cfg : Config) (hp : 0 < cfg.payloadSize) (size : Nat) :
    countDatagrams cfg size = (size + cfg.payloadSize - 1) / cfg.payloadSize := by
  unfold countDatagrams
  generalize cfg.payloadSize = p at *
  have h1 := Nat.div_add_mod size p
  have h2 := Nat.mod_lt size hp
  have h3 : size / p * p = p * (size / p) := Nat.mul_comm _ _
  symm
  split
  · apply Nat.div_eq_of_lt_le
    · have : 0 < size % p := by
        rcases Nat.eq_zero_or_pos (size % p) with h | h
        · exfalso; rename_i hne; apply hne; rw [h3]; omega
        · exact h
      rw [Nat.add_mul, h3]; omega
    · rw [Nat.succ_mul, Nat.add_mul, h3]; omega
  · rename_i hne
    have hz : size / p * p = size := by
      by_contra h; exact hne h
    apply Nat.div_eq_of_lt_le
    · omega
    · rw [Nat.succ_mul]; omega

/-- The number of datagrams is the least count whose payloads hold `size` bytes. -/
theorem countDatagrams_bounds (cfg : Config) (hp : 0 < cfg.payloadSize) (size : Nat) :
    size ≤ countDatagrams cfg size * cfg.payloadSize ∧
      ∀ i, i < countDatagrams cfg size → i * cfg.payloadSize < size := by
  unfold countDatagrams
  generalize cfg.payloadSize = p at *
  have h1 := Nat.div_add_mod size p
  have h2 := Nat.mod_lt size hp
  have h3 : size / p * p = p * (size / p) := Nat.mul_comm _ _
  split
  · rename_i hne
    have hpos : 0 < size % p := by
      rcases Nat.eq_zero_or_pos (size % p) with h | h
      · exfalso; apply hne; rw [h3]; omega
      · exact h
    refine ⟨by rw [Nat.add_mul, h3]; omega, fun i hi => ?_⟩
    have : i * p ≤ size / p * p := Nat.mul_le_mul_right p (by omega)
    omega
  · rename_i hne
    have hz : size / p * p = size := by
      by_contra h; exact hne h
    refine ⟨by omega, fun i hi => ?_⟩
    have : (i + 1) * p ≤ size / p * p := Nat.mul_le_mul_right p (by omega)
    rw [Nat.add_mul] at this
    omega

theorem countDatagrams_le_ackFreq (cfg : Config) (hp : 0 < cfg.payloadSize) (size : Nat)
    (hsize : size ≤ cfg.payloadSize * cfg.ackFreq) : countDatagrams cfg size ≤ cfg.ackFreq := by
  by_contra h
  have h1 := (countDatagrams_bounds cfg hp size).2 cfg.ackFreq (by omega)
  rw [Nat.mul_comm] at h1
  omega

theorem bufferSize_eq (cfg : Config) (hcfg : cfg.WF) :
    cfg.bufferSize = cfg.payloadSize * cfg.ackFreq := by
  obtain ⟨_, h2, _, h4⟩ := hcfg
  unfold Config.bufferSize
  apply Nat.mod_eq_of_lt
  have h5 : cfg.payloadSize * cfg.ackFreq ≤ 65536 * cfg.ackFreq :=
    Nat.mul_le_mul_right _ (by omega)
  omega

/-- The fields of fragment `i` of a write of `size` bytes, for a fragment index
below the datagram count. -/
theorem sendDatagram_fields (cfg : Config) (hcfg : cfg.WF) (data : List Nat)
    (size writeSeqID i : Nat) (hsize : size ≤ cfg.bufferSize)
    (hi : i < countDatagrams cfg size) :
    (sendDatagram cfg data size writeSeqID i).writeSeqID = writeSeqID ∧
    (sendDatagram cfg data size writeSeqID i).dataIDlength >>> 16 = i ∧
    (sendDatagram cfg data size writeSeqID i).dataIDlength &&& 0xFFFF
      = min cfg.payloadSize (size - i * cfg.payloadSize) ∧
    (sendDatagram cfg data size writeSeqID i).payload
      = (data.drop (i * cfg.payloadSize)).take (min cfg.payloadSize (size - i * cfg.payloadSize)) := by
  have hb := bufferSize_eq cfg hcfg
  obtain ⟨hp0, hp, ha0, ha⟩ := hcfg
  have hn := countDatagrams_le_ackFreq cfg hp0 size (hb ▸ hsize)
  have hlt := (countDatagrams_bounds cfg hp0 size).2 i hi
  have hi16 : i < 65536 := by omega
  have hmod : i % 65536 = i := Nat.mod_eq_of_lt hi16
  have hsz : size < 2 ^ 32 := by
    have : cfg.bufferSize < 2 ^ 32 := Nat.mod_lt _ (by norm_num)
    omega
  have hpos : (cfg.payloadSize * i) % 2 ^ 32 = i * cfg.payloadSize := by
    rw [Nat.mul_comm]; exact Nat.mod_eq_of_lt (by omega)
  have hrem : (size + 2 ^ 64 - i * cfg.payloadSize) % 2 ^ 64 = size - i * cfg.payloadSize := by
    have : size + 2 ^ 64 - i * cfg.payloadSize = (size - i * cfg.payloadSize) + 2 ^ 64 := by omega
    rw [this, Nat.add_mod_right]
    exact Nat.mod_eq_of_lt (by omega)
  have hpk : (if size - i * cfg.payloadSize ≥ cfg.payloadSize then cfg.payloadSize
      else (size - i * cfg.payloadSize) % 2 ^ 32) = min cfg.payloadSize (size - i * cfg.payloadSize) := by
    split
    · omega
    · rw [Nat.mod_eq_of_lt (by omega)]; omega
  have hlen : min cfg.payloadSize (size - i * cfg.payloadSize) < 65536 := by omega
  simp only [sendDatagram, hmod, hpos, hrem, hpk]
  refine ⟨trivial, ?_, ?_, trivial⟩
  · rw [and_0xFFFF, Nat.mod_eq_of_lt hlen]
    exact pack_index i _ hi16 hlen
  · rw [and_0xFFFF (min _ _), Nat.mod_eq_of_lt hlen]
    exact pack_length i _ hi16 hlen

/-! ## The writer returns on `DONE` -/

theorem handleRepeat_done (cfg : Config) (s : RSPConnection) (data : List Nat) (size : Nat)
    (request : RepeatRequest) (hdone : request.type = RepeatType.done)
    (post : List (Option RepeatRequest)) :
    ∀ (pre : List (Option RepeatRequest)) (requests : List RepeatRequest) (nRepeats : Nat),
      (handleRepeat cfg s data size requests nRepeats (pre ++ some request :: post)).isSome
        = true := by
  intro pre
  induction pre with
  | nil =>
    intro requests nRepeats
    cases requests <;> simp [handleRepeat, hdone]
  | cons tok pre ih =>
    intro requests nRepeats
    cases tok with
    | none =>
      cases requests with
      | nil => simpa [handleRepeat] using ih [] nRepeats
      | cons old rest =>
        simp only [List.cons_append, handleRepeat, Option.isSome_map']
        exact ih [] _
    | some r =>
      cases requests with
      | nil =>
        cases hr : r.type with
        | done => simp [handleRepeat, hr]
        | ackreq =>
          simp only [List.cons_append, handleRepeat, hr, Option.isSome_map']
          exact ih [] _
        | nack =>
          simp only [List.cons_append, handleRepeat, hr]
          exact ih _ _
      | cons old rest =>
        cases hr : r.type with
        | done => simp [handleRepeat, hr]
        | ackreq =>
          simp only [List.cons_append, handleRepeat, hr]
          exact ih _ _
        | nack =>
          simp only [List.cons_append, handleRepeat, hr]
          exact ih _ _

/-- The connection during the repeat phase of a write of `size` bytes. -/
theorem write_unfold (cfg : Config) (s : RSPConnection) (hp : cfg.payloadSize ≠ 0)
    (hstate : s.state = State.listening ∨ s.state = State.connected)
    (hconn : s.connectionValid = true) (buffer : List Nat) (bytes : Nat)
    (queue : List (Option RepeatRequest)) :
    ∃ s2 : RSPConnection, s2.id = s.id ∧ s2.sequenceID = (s.sequenceID + 1) % 65536 ∧
      s2.nDatagrams = countDatagrams cfg (min bytes cfg.bufferSize) ∧
      s.write cfg buffer bytes queue =
        (handleRepeat cfg s2 buffer (min bytes cfg.bufferSize) [] 0 queue).map
          (fun x =>
            { ret := ((min bytes cfg.bufferSize : Nat) : Int)
              conn := { s2 with writing := false }
              sent := (List.range s2.nDatagrams).map
                  (fun i => Emit.data (sendDatagram cfg buffer (min bytes cfg.bufferSize)
                    (shiftedID s2.id ||| s2.sequenceID) i)) ++
                Emit.ackRequest s2.ackRequest :: x.2 ++ [Emit.adaptSendRate x.1] }) := by
  have hst : ¬ (s.state ≠ State.connected ∧ s.state ≠ State.listening) := by
    rcases hstate with h1 | h1 <;> simp [h1]
  refine ⟨{ s with timeouts := 0, numWriteAcks := 0, sequenceID := (s.sequenceID + 1) % 65536,
                   nDatagrams := countDatagrams cfg (min bytes cfg.bufferSize), writing := true },
          rfl, rfl, rfl, ?_⟩
  unfold RSPConnection.write
  rw [if_neg hst]
  simp only [hconn, hp, if_false, Bool.true_eq_false]
  cases handleRepeat cfg _ buffer (min bytes cfg.bufferSize) [] 0 queue <;> rfl

/-- What `write` does once it is past its checks. -/
theorem write_eq (cfg : Config) (s : RSPConnection) (hp : cfg.payloadSize ≠ 0)
    (hstate : s.state = State.listening ∨ s.state = State.connected)
    (hconn : s.connectionValid = true) (buffer : List Nat) (bytes : Nat)
    (queue : List (Option RepeatRequest)) (res : WriteResult)
    (h : s.write cfg buffer bytes queue = some res) :
    res.ret = ((min bytes cfg.bufferSize : Nat) : Int) ∧
    ∃ rest, res.sent =
      (List.range (countDatagrams cfg (min bytes cfg.bufferSize))).map
        (fun i => Emit.data (sendDatagram cfg buffer (min bytes cfg.bufferSize)
          (shiftedID s.id ||| (s.sequenceID + 1) % 65536) i)) ++
      Emit.ackRequest
        { writerID := s.id
          lastDatagramID := (countDatagrams cfg (min bytes cfg.bufferSize) + 65535) % 65536
          sequenceID := (s.sequenceID + 1) % 65536 } :: rest := by
  obtain ⟨s2, hid, hseq, hn, hw⟩ := write_unfold cfg s hp hstate hconn buffer bytes queue
  rw [hw] at h
  cases hr : handleRepeat cfg s2 buffer (min bytes cfg.bufferSize) [] 0 queue with
  | none => rw [hr] at h; cases h
  | some x =>
    rw [hr] at h
    simp only [Option.map_some', Option.some.injEq] at h
    subst h
    refine ⟨rfl, x.2 ++ [Emit.adaptSendRate x.1], ?_⟩
    simp only [RSPConnection.ackRequest, hid, hseq, hn, List.append_assoc, List.cons_append]

theorem write_returns (cfg : Config) (s : RSPConnection) (hp : cfg.payloadSize ≠ 0)
    (hstate : s.state = State.listening ∨ s.state = State.connected)
    (hconn : s.connectionValid = true) (buffer : List Nat) (bytes : Nat)
    (pre post : List (Option RepeatRequest)) (request : RepeatRequest)
    (hdone : request.type = RepeatType.done) :
    (s.write cfg buffer bytes (pre ++ some request :: post)).isSome = true := by
  obtain ⟨s2, -, -, -, hw⟩ := write_unfold cfg s hp hstate hconn buffer bytes
    (pre ++ some request :: post)
  rw [hw, Option.isSome_map']
  exact handleRepeat_done cfg s2 buffer _ request hdone post pre [] 0

theorem sum_fragment_lengths (p size : Nat) :
    ∀ m, ((List.range m).map (fun i => min p (size - i * p))).sum = min size (m * p) := by
  intro m
  induction m with
  | zero => simp
  | succ m ih =>
    rw [List.range_succ, List.map_append, List.sum_append, ih, Nat.add_mul]
    simp only [List.map_cons, List.map_nil, List.sum_cons, List.sum_nil]
    omega

/-! ## C4 and C5: what `write` returns and what it sends first -/

/-- C4: `write` on a listening or connected root connection with a valid
socket returns whenever a `DONE` reaches the writer; it then returns the size
clamped to `payloadSize * ackFreq`, and what it sends starts with exactly
`ceil(size / payloadSize)` DATA fragments followed by the ACK request.
Fragment `i` carries index `i`, its length field is the length of its payload,
every fragment but the last carries `payloadSize` bytes, and the lengths sum to
the clamped size. -/
theorem write_clamps_and_fragments (cfg : Config) (hcfg : cfg.WF) (s : RSPConnection)
    (hstate : s.state = State.listening ∨ s.state = State.connected)
    (hconn : s.connectionValid = true) (buffer : List Nat) (bytes : Nat)
    (hbuf : bytes ≤ buffer.length) :
    (∀ pre request post, request.type = RepeatType.done →
      (s.write cfg buffer bytes (pre ++ some request :: post)).isSome = true) ∧
    ∀ queue res, s.write cfg buffer bytes queue = some res →
      ∃ (fragments : List DatagramData) (rest : List Emit),
        res.ret = ((min bytes (cfg.payloadSize * cfg.ackFreq) : Nat) : Int) ∧
        res.sent = fragments.map Emit.data ++
          Emit.ackRequest
            { writerID := s.id
              lastDatagramID := (fragments.length + 65535) % 65536
              sequenceID := (s.sequenceID + 1) % 65536 } :: rest ∧
        fragments.length =
          (min bytes (cfg.payloadSize * cfg.ackFreq) + cfg.payloadSize - 1) / cfg.payloadSize ∧
        (∀ i (h : i < fragments.length),
          fragments[i].dataIDlength >>> 16 = i ∧
          fragments[i].dataIDlength &&& 0xFFFF = fragments[i].payload.length ∧
          fragments[i].payload =
            (buffer.drop (i * cfg.payloadSize)).take fragments[i].payload.length ∧
          (i + 1 < fragments.length → fragments[i].payload.length = cfg.payloadSize)) ∧
        (fragments.map (fun d => d.payload.length)).sum
          = min bytes (cfg.payloadSize * cfg.ackFreq) := by
  have hp0 : 0 < cfg.payloadSize := hcfg.1
  have hp : cfg.payloadSize ≠ 0 := by omega
  have hb := bufferSize_eq cfg hcfg
  refine ⟨fun pre request post hdone =>
    write_returns cfg s hp hstate hconn buffer bytes pre post request hdone, ?_⟩
  intro queue res hres
  obtain ⟨hret, rest, hsent⟩ := write_eq cfg s hp hstate hconn buffer bytes queue res hres
  rw [hb] at hret hsent
  generalize hsize : min bytes (cfg.payloadSize * cfg.ackFreq) = size at *
  have hsz : size ≤ cfg.bufferSize := by rw [hb]; omega
  have hszb : size ≤ buffer.length := by omega
  have hfield := sendDatagram_fields cfg hcfg buffer size
    (shiftedID s.id ||| (s.sequenceID + 1) % 65536)
  have hbound := countDatagrams_bounds cfg hp0 size
  have hlen : ∀ i, i < countDatagrams cfg size →
      (sendDatagram cfg buffer size (shiftedID s.id ||| (s.sequenceID + 1) % 65536) i).payload.length
        = min cfg.payloadSize (size - i * cfg.payloadSize) := by
    intro i hi
    have h1 := hbound.2 i hi
    rw [(hfield i hsz hi).2.2.2, List.length_take, List.length_drop]
    omega
  refine ⟨(List.range (countDatagrams cfg size)).map
      (fun i => sendDatagram cfg buffer size (shiftedID s.id ||| (s.sequenceID + 1) % 65536) i),
    rest, hret, ?_, ?_, ?_, ?_⟩
  · rw [hsent]; simp [List.map_map, Function.comp_def]
  · simp [countDatagrams_eq_ceil cfg hp0 size]
  · intro i h
    have hi : i < countDatagrams cfg size := by simpa using h
    simp only [List.getElem_map, List.getElem_range]
    obtain ⟨-, h2, h3, h4⟩ := hfield i hsz hi
    refine ⟨h2, by rw [h3, hlen i hi], by rw [hlen i hi]; exact h4, ?_⟩
    intro hnext
    have hnext1 : i + 1 < countDatagrams cfg size := by simpa using hnext
    have h5 := hbound.2 (i + 1) hnext1
    rw [hlen i hi, Nat.add_mul] at *
    omega
  · rw [List.map_map]
    have hsum := sum_fragment_lengths cfg.payloadSize size (countDatagrams cfg size)
    have : (List.map ((fun d : DatagramData => d.payload.length) ∘ fun i =>
          sendDatagram cfg buffer size (shiftedID s.id ||| (s.sequenceID + 1) % 65536) i)
        (List.range (countDatagrams cfg size)))
        = (List.range (countDatagrams cfg size)).map
            (fun i => min cfg.payloadSize (size - i * cfg.payloadSize)) := by
      apply List.map_congr_left
      intro i hi
      exact hlen i (List.mem_range.mp hi)
    rw [this, hsum]
    have := hbound.1
    omega

/-- Witness for C4: a 9-byte write with 4-byte payloads. -/
theorem write_clamps_and_fragments_witness :
    (∀ pre request post, request.type = RepeatType.done →
      (exWriter.write exCfg exLong 9 (pre ++ some request :: post)).isSome = true) ∧
    ∀ queue res, exWriter.write exCfg exLong 9 queue = some res →
      ∃ (fragments : List DatagramData) (rest : List Emit),
        res.ret = ((min 9 (exCfg.payloadSize * exCfg.ackFreq) : Nat) : Int) ∧
        res.sent = fragments.map Emit.data ++
          Emit.ackRequest
            { writerID := exWriter.id
              lastDatagramID := (fragments.length + 65535) % 65536
              sequenceID := (exWriter.sequenceID + 1) % 65536 } :: rest ∧
        fragments.length =
          (min 9 (exCfg.payloadSize * exCfg.ackFreq) + exCfg.payloadSize - 1) / exCfg.payloadSize ∧
        (∀ i (h : i < fragments.length),
          fragments[i].dataIDlength >>> 16 = i ∧
          fragments[i].dataIDlength &&& 0xFFFF = fragments[i].payload.length ∧
          fragments[i].payload =
            (exLong.drop (i * exCfg.payloadSize)).take fragments[i].payload.length ∧
          (i + 1 < fragments.length → fragments[i].payload.length = exCfg.payloadSize)) ∧
        (fragments.map (fun d => d.payload.length)).sum
          = min 9 (exCfg.payloadSize * exCfg.ackFreq) :=
  write_clamps_and_fragments exCfg (by decide) exWriter (Or.inl rfl) rfl exLong 9 (by decide)

/-- C5, as the code has it: when the timeout counter reaches the maximum, the
request pushed by the I/O thread is `DONE`, and a `write` that finds it in its
queue (after whatever it found before) returns the clamped byte count, as it
does after a successful write. -/
theorem write_returns_size_on_timeout (cfg : Config) (s : RSPConnection)
    (hp : cfg.payloadSize ≠ 0)
    (hstate : s.state = State.listening ∨ s.state = State.connected)
    (hconn : s.connectionValid = true) (buffer : List Nat) (bytes : Nat)
    (maxTimeouts timeouts : Nat) (hmax : maxTimeouts ≤ timeouts + 1)
    (pre post : List (Option RepeatRequest)) :
    (timeoutRequest maxTimeouts timeouts).type = RepeatType.done ∧
    ∃ res, s.write cfg buffer bytes (pre ++ some (timeoutRequest maxTimeouts timeouts) :: post)
        = some res ∧
      res.ret = ((min bytes cfg.bufferSize : Nat) : Int) := by
  have hdone : (timeoutRequest maxTimeouts timeouts).type = RepeatType.done := by
    unfold timeoutRequest
    rw [if_pos (by omega)]
  refine ⟨hdone, ?_⟩
  have hsome := write_returns cfg s hp hstate hconn buffer bytes pre post _ hdone
  cases hw : s.write cfg buffer bytes (pre ++ some (timeoutRequest maxTimeouts timeouts) :: post) with
  | none => rw [hw] at hsome; cases hsome
  | some res => exact ⟨res, rfl, (write_eq cfg s hp hstate hconn buffer bytes _ res hw).1⟩

/-- Witness for C5 as amended: the third timeout with a maximum of 3. -/
theorem write_returns_size_on_timeout_witness :
    (timeoutRequest 3 2).type = RepeatType.done ∧
    ∃ res, exWriter.write exCfg exShort 6 ([] ++ some (timeoutRequest 3 2) :: []) = some res ∧
      res.ret = ((min 6 exCfg.bufferSize : Nat) : Int) :=
  write_returns_size_on_timeout exCfg exWriter (by decide) (Or.inl rfl) rfl exShort 6 3 2
    (by decide) [] []

/-- C5 fails as stated: with a maximum of 3 timeouts the I/O thread pushes two
ACK requests and then `DONE`; the 6-byte write that finds them in its queue
returns 6, not -1. -/
theorem write_timeout_returns_count :
    (timeoutRequests 3 3 0).map (fun r => r.type)
      = [RepeatType.ackreq, RepeatType.ackreq, RepeatType.done] ∧
    (exWriter.write exCfg exShort 6 ((timeoutRequests 3 3 0).map some)).map (fun r => r.ret)
      = some 6 ∧
    (exWriter.write exCfg exShort 6 ((timeoutRequests 3 3 0).map some)).map (fun r => r.ret)
      ≠ some (-1) := by
  decide

/-! ## C6: reading after `close` -/

/-- C6, as the code has it: after `close` has reset the slots of a connection
that was not closed, every slot has `ackSend` and `allRead` set, so a
`readSync` for any byte count does not get past its wait for
`allRead == false`: it returns nothing, in particular not 0. -/
theorem readSync_after_close_waits (cfg : Config) (c : Conn) (hopen : c.state ≠ State.closed)
    (bytes : Nat) :
    (∀ k, ((c.close cfg).inBuffers k).ackSend = true ∧ ((c.close cfg).inBuffers k).allRead = true) ∧
    (c.close cfg).readSync cfg bytes = none := by
  constructor
  · intro k
    simp [Conn.close, hopen, InBuffer.reset]
  · simp [Conn.readSync, Conn.close, hopen, InBuffer.reset]

/-- Witness for C6 as amended: a connected child is closed and read from. -/
theorem readSync_after_close_waits_witness :
    (∀ k, ((exConn.close exCfg).inBuffers k).ackSend = true ∧
      ((exConn.close exCfg).inBuffers k).allRead = true) ∧
    (exConn.close exCfg).readSync exCfg 5 = none :=
  readSync_after_close_waits exCfg exConn (by decide) 5

/-- C6 fails as stated: `readSync` of 5 bytes on the closed child does not
return 0; it waits.  The reset slot it waits on has a data size of
`bufferSize`, so the copy routine behind the wait would hand out 5 bytes. -/
theorem readSync_after_close_not_zero :
    ((exConn.close exCfg).readSync exCfg 5).map (fun r => r.ret) ≠ some 0 ∧
    ((exConn.close exCfg).readSync exCfg 5).isNone = true ∧
    ((exConn.close exCfg).readSyncSlot (exConn.close exCfg).readBufferIndex 5).ret = 5 := by
  decide

/-! ## C9: merging NACK requests -/

theorem covered_iff (requests : List RepeatRequest) (k : Nat) :
    covered requests k = true ↔ ∃ r ∈ requests, r.start ≤ k ∧ k ≤ r.end_ := by
  simp [covered, List.any_eq_true]

theorem mergeCandidate_valid (candidate : RepeatRequest) (hc : candidate.start ≤ candidate.end_) :
    ∀ requests : List RepeatRequest, (∀ r ∈ requests, r.start ≤ r.end_) →
      ∀ r ∈ mergeCandidate requests candidate, r.start ≤ r.end_ := by
  intro requests
  induction requests with
  | nil =>
    intro _ r hr
    simp only [mergeCandidate, List.mem_singleton] at hr
    subst hr; exact hc
  | cons old rest ih =>
    intro hreq r hr
    have hold := hreq old (List.mem_cons_self _ _)
    have hrest : ∀ r ∈ rest, r.start ≤ r.end_ := fun r h => hreq r (List.mem_cons_of_mem _ h)
    unfold mergeCandidate at hr
    split at hr
    · rcases List.mem_cons.mp hr with h | h
      · subst h; simp only; omega
      · exact hrest r h
    · rcases List.mem_cons.mp hr with h | h
      · subst h; exact hold
      · exact ih hrest r h

theorem mergeCandidate_covered (candidate : RepeatRequest) (k : Nat) :
    ∀ requests : List RepeatRequest, (∀ r ∈ requests, r.start ≤ r.end_) →
      (covered (mergeCandidate requests candidate) k = true ↔
        covered requests k = true ∨ (candidate.start ≤ k ∧ k ≤ candidate.end_)) := by
  intro requests
  induction requests with
  | nil =>
    intro _
    simp [mergeCandidate, covered]
  | cons old rest ih =>
    intro hreq
    have hold := hreq old (List.mem_cons_self _ _)
    have hrest : ∀ r ∈ rest, r.start ≤ r.end_ := fun r h => hreq r (List.mem_cons_of_mem _ h)
    have ih1 := ih hrest
    unfold mergeCandidate
    split
    · rename_i hov
      simp only [covered, List.any_cons, Bool.or_eq_true, Bool.and_eq_true, decide_eq_true_eq]
      constructor
      · rintro (h | h)
        · by_cases h1 : old.start ≤ k ∧ k ≤ old.end_
          · exact Or.inl (Or.inl h1)
          · right; omega
        · exact Or.inl (Or.inr h)
      · rintro ((h | h) | h)
        · left; omega
        · exact Or.inr h
        · left; omega
    · simp only [covered, List.any_cons, Bool.or_eq_true, Bool.and_eq_true, decide_eq_true_eq]
      simp only [covered] at ih1
      rw [ih1]
      tauto

theorem mergeRequests_spec :
    ∀ (queue requests : List RepeatRequest),
      (∀ r ∈ queue, r.type ≠ RepeatType.done) →
      (∀ r ∈ requests, r.start ≤ r.end_) →
      (∀ r ∈ queue, r.type = RepeatType.nack → r.start ≤ r.end_) →
      ∃ merged, mergeRequests requests queue = some merged ∧
        (∀ r ∈ merged, r.start ≤ r.end_) ∧
        ∀ k, covered merged k = true ↔
          covered requests k = true ∨
            covered (queue.filter (fun r => decide (r.type = RepeatType.nack))) k = true := by
  intro queue
  induction queue with
  | nil =>
    intro requests _ hreq _
    exact ⟨requests, rfl, hreq, fun k => by simp [covered]⟩
  | cons candidate queue ih =>
    intro requests hnodone hreq hq
    have hnd : ∀ r ∈ queue, r.type ≠ RepeatType.done :=
      fun r h => hnodone r (List.mem_cons_of_mem _ h)
    have hq1 : ∀ r ∈ queue, r.type = RepeatType.nack → r.start ≤ r.end_ :=
      fun r h => hq r (List.mem_cons_of_mem _ h)
    cases ht : candidate.type with
    | done => exact absurd ht (hnodone candidate (List.mem_cons_self _ _))
    | ackreq =>
      obtain ⟨merged, hm, hv, hcov⟩ := ih requests hnd hreq hq1
      refine ⟨merged, by simp [mergeRequests, ht, hm], hv, fun k => ?_⟩
      rw [hcov k]
      simp [List.filter_cons, ht]
    | nack =>
      have hc := hq candidate (List.mem_cons_self _ _) ht
      obtain ⟨merged, hm, hv, hcov⟩ := ih (mergeCandidate requests candidate) hnd
        (mergeCandidate_valid candidate hc requests hreq) hq1
      refine ⟨merged, by simp [mergeRequests, ht, hm], hv, fun k => ?_⟩
      rw [hcov k, mergeCandidate_covered candidate k requests hreq]
      simp only [List.filter_cons, ht, decide_True, if_true]
      simp only [covered, List.any_cons, Bool.or_eq_true, Bool.and_eq_true, decide_eq_true_eq]
      tauto

/-- C9: for requests already collected and the requests then found in the
queue (no `DONE` among them, every NACK range with `start <= end`), the merge
loop yields a merged list, and a fragment index is covered by the merged list
exactly when it is covered by one of the NACK requests that went in. -/
theorem merge_preserves_coverage (requests queue : List RepeatRequest)
    (hnodone : ∀ r ∈ queue, r.type ≠ RepeatType.done)
    (hreq : ∀ r ∈ requests, r.start ≤ r.end_)
    (hq : ∀ r ∈ queue, r.type = RepeatType.nack → r.start ≤ r.end_) :
    ∃ merged, mergeRequests requests queue = some merged ∧
      ∀ k, covered merged k
        = covered (requests ++ queue.filter (fun r => decide (r.type = RepeatType.nack))) k := by
  obtain ⟨merged, hm, -, hcov⟩ := mergeRequests_spec queue requests hnodone hreq hq
  refine ⟨merged, hm, fun k => ?_⟩
  rw [Bool.eq_iff_iff, hcov k]
  simp [covered, List.any_append]

/-- Witness for C9: the ranges 1..1, 2..2 and 0..1 found together. -/
theorem merge_preserves_coverage_witness :
    ∃ merged, mergeRequests [⟨RepeatType.nack, 1, 1⟩]
        [⟨RepeatType.nack, 2, 2⟩, ⟨RepeatType.ackreq, 0, 0⟩, ⟨RepeatType.nack, 0, 1⟩]
        = some merged ∧
      ∀ k, covered merged k
        = covered ([⟨RepeatType.nack, 1, 1⟩] ++
            ([⟨RepeatType.nack, 2, 2⟩, ⟨RepeatType.ackreq, 0, 0⟩, ⟨RepeatType.nack, 0, 1⟩] :
              List RepeatRequest).filter (fun r => decide (r.type = RepeatType.nack))) k :=
  merge_preserves_coverage _ _ (by decide) (by decide) (by decide)

/-- The merge loop inside `handleRepeat` is `mergeRequests`: with a batch under
way, the requests found in the queue are merged, and a `DONE` among them ends
the function. -/
theorem handleRepeat_merge (cfg : Config) (s : RSPConnection) (data : List Nat) (size : Nat)
    (nRepeats : Nat) (tail : List (Option RepeatRequest)) :
    ∀ (queue : List RepeatRequest) (old : RepeatRequest) (rest : List RepeatRequest),
      handleRepeat cfg s data size (old :: rest) nRepeats (queue.map some ++ none :: tail) =
        match mergeRequests (old :: rest) queue with
        | none => some (nRepeats, [])
        | some merged => handleRepeat cfg s data size merged nRepeats (none :: tail) := by
  intro queue
  induction queue with
  | nil => intro old rest; simp [mergeRequests]
  | cons candidate queue ih =>
    intro old rest
    cases ht : candidate.type with
    | done => simp [handleRepeat, mergeRequests, ht]
    | ackreq =>
      simp only [List.map_cons, List.cons_append, handleRepeat, mergeRequests, ht]
      exact ih old rest
    | nack =>
      simp only [List.map_cons, List.cons_append, handleRepeat, mergeRequests, ht]
      cases hm : mergeCandidate (old :: rest) candidate with
      | nil =>
        unfold mergeCandidate at hm
        split at hm <;> cases hm
      | cons o r => exact ih o r

/-! ## C10: rate adaptation -/

/-- C10 fails on the code: with a base rate of 50, an upscale of 5 and a
maximum of 10, a batch without errors gives `error = -50` and
`delta = -250`; `EQ_MIN( 10, -250 )` leaves it at -250 and the send rate is
changed by 250 percent. -/
theorem adaptSendRate_exceeds_max :
    adaptSendRate exRates 1 0 = 250 ∧ exRates.errorMax = 10 := by
  refine ⟨?_, rfl⟩
  have h : ⌈(-250 : ℚ)⌉ = -250 := by
    rw [show (-250 : ℚ) = ((-250 : ℤ) : ℚ) by norm_num, Int.ceil_intCast]
  norm_num [adaptSendRate, truncate, exRates, h]

/-! ## C2, C3 and C7: traces on which the receiver goes wrong -/

/-- C2 fails on the code.  After `exSlotReuse` all four slots are published
and unread (`ackSend` set, `allRead` clear), and the repeated fragment of
write 4 has left `_recvBuffer` at slot 3, the result of the sequence lookup on
the drop path.  The first fragment of write 5 then starts a new sequence in
slot 3 (sequence ID 5, read position 0, no data, `ackSend` clear) although its
`allRead` flag is false; the unread byte 44 of write 4 is gone. -/
theorem slot_reused_while_unread :
    exReceiver.viewAfter exCfg exSlotReuse
      = some [([(1, true, false, 0, [true, false, false, false, false], [11]),
                (2, true, false, 0, [true, false, false, false, false], [22]),
                (3, true, false, 0, [true, false, false, false, false], [33]),
                (4, true, false, 0, [true, false, false, false, false], [44])],
               some 3, 0, 0, 4)] ∧
    exReceiver.viewAfter exCfg (exSlotReuse ++ [Event.data (exFragment [55] 5 0)])
      = some [([(1, true, false, 0, [true, false, false, false, false], [11]),
                (2, true, false, 0, [true, false, false, false, false], [22]),
                (3, true, false, 0, [true, false, false, false, false], [33]),
                (5, false, false, 0, [true, false, false, false, false], [])],
               some 3, 0, 0, 4)] := by
  constructor <;> rfl

set_option maxRecDepth 100000 in
/-- C3 fails on the code.  Five one-byte writes are received and each is
acknowledged; the fragment of write 4 arrives a second time before write 5.
The reader then gets the bytes of writes 1, 2 and 3 and after them an empty
read; a further read waits.  The payloads of the acknowledged writes 4 and 5
are never returned. -/
theorem acknowledged_writes_lost :
    (exReceiver.run exCfg
        (exSlotReuse ++ exWrite [55] 5 ++
          [Event.read 0 8, Event.read 0 8, Event.read 0 8, Event.read 0 8])).map
        (fun x => x.2)
      = some ([Out.ack 2 1 1, Out.ack 2 1 2, Out.ack 2 1 3, Out.ack 2 1 4, Out.ack 2 1 5],
              [[11], [22], [33], []]) ∧
    (exReceiver.run exCfg
        (exSlotReuse ++ exWrite [55] 5 ++
          [Event.read 0 8, Event.read 0 8, Event.read 0 8, Event.read 0 8,
           Event.read 0 8])).isNone = true := by
  constructor <;> decide!

/-- C7 fails on the code.  In `exStaleFragment` the slot filled for write 2
(2 fragments, last fragment ID 1) has got fragment 0 and, from the late copy
of fragment 4 of write 1, bit 4.  The ACK request of write 2 is answered with
a NACK whose range is 1..3: its end is above the last fragment ID 1 and above
the writer's datagram count 2. -/
theorem nack_range_beyond_last_fragment :
    (exAckRequest exShort 2).lastDatagramID = 1 ∧
    countDatagrams exCfg exShort.length = 2 ∧
    (exReceiver.run exCfg (exStaleFragment ++ [Event.ackRequest (exAckRequest exShort 2)])).map
        (fun x => x.2.1)
      = some [Out.ack 2 1 1, Out.nack 2 1 1 1 [65539], Out.nack 2 1 2 1 [65539]] ∧
    rangeStart 65539 = 1 ∧ rangeEnd 65539 = 3 := by
  refine ⟨rfl, rfl, rfl, rfl, rfl⟩

/-! ## The slot being filled is the current receive buffer -/

theorem findReceiver_some (c : Conn) (sequenceID : Nat) (k : Fin 4)
    (h : c.findReceiverWithSequenceID sequenceID = some k) :
    (c.inBuffers k).sequenceID = sequenceID := by
  unfold Conn.findReceiverWithSequenceID at h
  have := List.find?_some h
  simpa using this

theorem firstDatagram_ackSend (lastSequenceIDAck : Int) (b receive : InBuffer)
    (sequenceID : Nat) (h : firstDatagram lastSequenceIDAck b sequenceID = some receive) :
    receive.ackSend = false ∧ receive.got = b.got ∧ receive.data = b.data ∧
      firstDatagram lastSequenceIDAck receive sequenceID = some receive := by
  unfold firstDatagram at h
  by_cases hack : b.ackSend = true
  · rw [if_pos hack] at h
    split at h
    · cases h
    · split at h
      · cases h
      · cases h
        simp [InBuffer.startSequence, firstDatagram]
  · rw [if_neg hack] at h
    cases h
    have : b.ackSend = false := by simpa using hack
    simp [firstDatagram, this]

theorem fillSlot_eq (cfg : Config) (selfID : Nat) (c : Conn) (r : Fin 4) (d : DatagramData) :
    c.fillSlot cfg selfID r d =
      match firstDatagram c.lastSequenceIDAck (c.inBuffers r) (d.writeSeqID &&& 0xFFFF) with
      | none => some (c, [])
      | some receive =>
        if d.dataIDlength >>> 16 < receive.got.length then
          if receive.got.getD (d.dataIDlength >>> 16) false = true then
            some ({ c with inBuffers := Function.update c.inBuffers r receive }, [])
          else if d.dataIDlength &&& 0xFFFF ≤ d.payload.length then
            some ({ c with
                    inBuffers := Function.update c.inBuffers r
                      (receive.store cfg (d.dataIDlength >>> 16) (d.dataIDlength &&& 0xFFFF)
                        d.payload) },
                  earlyNack selfID (d.writeSeqID >>> 16) (d.writeSeqID &&& 0xFFFF)
                    (receive.store cfg (d.dataIDlength >>> 16) (d.dataIDlength &&& 0xFFFF)
                      d.payload).got (d.dataIDlength >>> 16))
          else none
        else none := rfl

theorem handleDataDatagram_eq (cfg : Config) (selfID : Nat) (c : Conn) (d : DatagramData) :
    c.handleDataDatagram cfg selfID d =
      match c.recvBuffer with
      | some r => c.fillSlot cfg selfID r d
      | none =>
        if (c.inBuffers c.recvBufferIndex).allRead = true then
          ({ c with recvBuffer := some c.recvBufferIndex } : Conn).fillSlot cfg selfID
            c.recvBufferIndex d
        else
          some ({ c with recvBuffer := c.findReceiverWithSequenceID (d.writeSeqID &&& 0xFFFF) },
                []) := by
  unfold Conn.handleDataDatagram Conn.acquireRecvBuffer
  cases c.recvBuffer with
  | some r => rfl
  | none =>
    by_cases h : (c.inBuffers c.recvBufferIndex).allRead = true
    · simp only []
      rw [if_pos h, if_pos h]
    · simp only []
      rw [if_neg h, if_neg h]

/-- What `fillSlot` leaves behind: all members but the slots are kept, and only
slot `r` can change. -/
theorem fillSlot_frame (cfg : Config) (selfID : Nat) (c c1 : Conn) (r : Fin 4)
    (d : DatagramData) (out : List Out) (h : c.fillSlot cfg selfID r d = some (c1, out)) :
    c1.id = c.id ∧ c1.state = c.state ∧ c1.recvBuffer = c.recvBuffer ∧
      c1.recvBufferIndex = c.recvBufferIndex ∧ c1.readBufferIndex = c.readBufferIndex ∧
      c1.lastSequenceIDAck = c.lastSequenceIDAck ∧
      (∀ k, k ≠ r → c1.inBuffers k = c.inBuffers k) ∧
      ((c1.inBuffers r).ackSend = false ∨ c1 = c) := by
  rw [fillSlot_eq] at h
  cases hf : firstDatagram c.lastSequenceIDAck (c.inBuffers r) (d.writeSeqID &&& 0xFFFF) with
  | none =>
    rw [hf] at h
    cases h
    exact ⟨rfl, rfl, rfl, rfl, rfl, rfl, fun _ _ => rfl, Or.inr rfl⟩
  | some receive =>
    rw [hf] at h
    have hrec := (firstDatagram_ackSend _ _ _ _ hf).1
    try simp only at h
    split at h
    · split at h
      · cases h
        refine ⟨rfl, rfl, rfl, rfl, rfl, rfl, fun k hk => ?_, Or.inl ?_⟩
        · simp [Function.update_noteq hk]
        · simpa using hrec
      · split at h
        · cases h
          refine ⟨rfl, rfl, rfl, rfl, rfl, rfl, fun k hk => ?_, Or.inl ?_⟩
          · simp [Function.update_noteq hk]
          · simpa [InBuffer.store] using hrec
        · cases h
    · cases h

/-- Taking the same datagram into the same slot again changes nothing and
sends nothing. -/
theorem fillSlot_again (cfg : Config) (selfID : Nat) (c c1 : Conn) (r : Fin 4)
    (d : DatagramData) (out : List Out) (h : c.fillSlot cfg selfID r d = some (c1, out)) :
    c1.fillSlot cfg selfID r d = some (c1, []) := by
  rw [fillSlot_eq] at h
  cases hf : firstDatagram c.lastSequenceIDAck (c.inBuffers r) (d.writeSeqID &&& 0xFFFF) with
  | none =>
    rw [hf] at h
    cases h
    rw [fillSlot_eq]
    rw [hf]
  | some receive =>
    rw [hf] at h
    obtain ⟨hack, -, -, hagain⟩ := firstDatagram_ackSend _ _ _ _ hf
    try simp only at h
    split at h
    · rename_i hidx
      split at h
      · rename_i hgot
        cases h
        rw [fillSlot_eq]
        simp only [Function.update_same, hagain, hidx, hgot, if_true, Function.update_idem]
      · split at h
        · rename_i hlen
          cases h
          have hst : firstDatagram c.lastSequenceIDAck
              (receive.store cfg (d.dataIDlength >>> 16) (d.dataIDlength &&& 0xFFFF) d.payload)
              (d.writeSeqID &&& 0xFFFF)
              = some (receive.store cfg (d.dataIDlength >>> 16) (d.dataIDlength &&& 0xFFFF)
                  d.payload) := by
            simp [firstDatagram, InBuffer.store, hack]
          have hlen2 : d.dataIDlength >>> 16 <
              (receive.store cfg (d.dataIDlength >>> 16) (d.dataIDlength &&& 0xFFFF)
                d.payload).got.length := by
            simpa [InBuffer.store] using hidx
          have hgot2 : (receive.store cfg (d.dataIDlength >>> 16) (d.dataIDlength &&& 0xFFFF)
                d.payload).got.getD (d.dataIDlength >>> 16) false = true := by
            simp [InBuffer.store, List.getD_eq_getElem?_getD, List.getElem?_set, hidx]
          rw [fillSlot_eq]
          simp only [Function.update_same, hst, hlen2, hgot2, if_true, Function.update_idem]
        · cases h
    · cases h

/-- A fragment whose bit is already set in a slot leaves the memory of that
slot alone. -/
theorem fillSlot_data (cfg : Config) (selfID : Nat) (c c1 : Conn) (r : Fin 4)
    (d : DatagramData) (out : List Out) (h : c.fillSlot cfg selfID r d = some (c1, out))
    (k : Fin 4) (hgot : (c.inBuffers k).got.getD (d.dataIDlength >>> 16) false = true) :
    (c1.inBuffers k).data = (c.inBuffers k).data := by
  by_cases hk : k = r
  · subst hk
    rw [fillSlot_eq] at h
    cases hf : firstDatagram c.lastSequenceIDAck (c.inBuffers k) (d.writeSeqID &&& 0xFFFF) with
    | none => rw [hf] at h; cases h; rfl
    | some receive =>
      rw [hf] at h
      obtain ⟨-, hg, hd, -⟩ := firstDatagram_ackSend _ _ _ _ hf
      try simp only at h
      split at h
      · split at h
        · cases h; simpa using hd
        · rename_i hn
          rw [hg] at hn
          exact absurd hgot hn
      · cases h
  · rw [(fillSlot_frame cfg selfID c c1 r d out h).2.2.2.2.2.2.1 k hk]

theorem handleDataDatagram_singleFill (cfg : Config) (selfID : Nat) (c c1 : Conn)
    (d : DatagramData) (out : List Out) (hinv : c.SingleFill)
    (h : c.handleDataDatagram cfg selfID d = some (c1, out)) : c1.SingleFill := by
  rw [handleDataDatagram_eq] at h
  cases hr : c.recvBuffer with
  | some r =>
    rw [hr] at h
    try simp only at h
    obtain ⟨-, -, hrb, -, -, -, hothers, hself⟩ := fillSlot_frame cfg selfID c c1 r d out h
    intro k hk
    by_cases hkr : k = r
    · rw [hrb, hr, hkr]
    · rw [hothers k hkr] at hk
      have := hinv k hk
      rw [hr] at this
      exact absurd (Option.some.inj this).symm hkr
  | none =>
    rw [hr] at h
    try simp only at h
    have hall : ∀ k, (c.inBuffers k).ackSend = true := by
      intro k
      by_contra hk
      have := hinv k (by simpa using hk)
      rw [hr] at this
      cases this
    split at h
    · try simp only at h
      obtain ⟨-, -, hrb, -, -, -, hothers, hself⟩ :=
        fillSlot_frame cfg selfID _ c1 c.recvBufferIndex d out h
      intro k hk
      by_cases hkr : k = c.recvBufferIndex
      · rw [hrb, hkr]
      · rw [hothers k hkr] at hk
        simp only at hk
        rw [hall k] at hk
        cases hk
    · cases h
      intro k hk
      simp only at hk
      rw [hall k] at hk
      cases hk

/-- C8 on one connection: handling the same datagram again changes nothing and
sends nothing. -/
theorem Conn.handleDataDatagram_again (cfg : Config) (selfID : Nat) (c c1 : Conn)
    (d : DatagramData) (out : List Out) (hinv : c.SingleFill)
    (h : c.handleDataDatagram cfg selfID d = some (c1, out)) :
    c1.handleDataDatagram cfg selfID d = some (c1, []) := by
  rw [handleDataDatagram_eq] at h
  cases hr : c.recvBuffer with
  | some r =>
    rw [hr] at h
    try simp only at h
    have hrb := (fillSlot_frame cfg selfID c c1 r d out h).2.2.1
    rw [handleDataDatagram_eq]
    rw [hrb, hr]
    exact fillSlot_again cfg selfID c c1 r d out h
  | none =>
    rw [hr] at h
    try simp only at h
    have hall : ∀ k, (c.inBuffers k).ackSend = true := by
      intro k
      by_contra hk
      have := hinv k (by simpa using hk)
      rw [hr] at this
      cases this
    split at h
    · try simp only at h
      have hrb := (fillSlot_frame cfg selfID _ c1 c.recvBufferIndex d out h).2.2.1
      rw [handleDataDatagram_eq]
      rw [hrb]
      exact fillSlot_again cfg selfID _ c1 _ d out h
    · rename_i hnot
      cases h
      rw [handleDataDatagram_eq]
      cases hfind : c.findReceiverWithSequenceID (d.writeSeqID &&& 0xFFFF) with
      | none =>
        have : ({ c with recvBuffer := none } : Conn).findReceiverWithSequenceID
            (d.writeSeqID &&& 0xFFFF) = none := hfind
        dsimp only
        rw [if_neg hnot, this]
      | some k =>
        have hseq := findReceiver_some c _ k hfind
        simp [Conn.fillSlot, firstDatagram, hall k, hseq]

theorem handleDataDatagram_data (cfg : Config) (selfID : Nat) (c c1 : Conn)
    (d : DatagramData) (out : List Out)
    (h : c.handleDataDatagram cfg selfID d = some (c1, out))
    (k : Fin 4) (hgot : (c.inBuffers k).got.getD (d.dataIDlength >>> 16) false = true) :
    (c1.inBuffers k).data = (c.inBuffers k).data := by
  rw [handleDataDatagram_eq] at h
  cases hr : c.recvBuffer with
  | some r =>
    rw [hr] at h
    exact fillSlot_data cfg selfID c c1 r d out h k hgot
  | none =>
    rw [hr] at h
    try simp only at h
    split at h
    · exact fillSlot_data cfg selfID _ c1 _ d out h k hgot
    · cases h; rfl

theorem handleDataDatagram_id (cfg : Config) (selfID : Nat) (c c1 : Conn)
    (d : DatagramData) (out : List Out)
    (h : c.handleDataDatagram cfg selfID d = some (c1, out)) : c1.id = c.id := by
  rw [handleDataDatagram_eq] at h
  cases hr : c.recvBuffer with
  | some r =>
    rw [hr] at h
    exact (fillSlot_frame cfg selfID c c1 r d out h).1
  | none =>
    rw [hr] at h
    try simp only at h
    split at h
    · exact (fillSlot_frame cfg selfID _ c1 _ d out h).1
    · cases h; rfl

theorem handleAckRequest_found (cfg : Config) (c : Conn) (r : DatagramAckRequest) (k : Fin 4)
    (selfID : Nat) (hfind : c.findReceiverWithSequenceID r.sequenceID = some k) :
    c.handleAckRequest cfg selfID r =
      if (c.inBuffers k).ackSend = true then some (c, [sendAck selfID r.writerID r.sequenceID])
      else
        match scanLost cfg (c.inBuffers k).got r.lastDatagramID (r.lastDatagramID + 1) 0 [] with
        | none => none
        | some bufferRepeatID =>
          if bufferRepeatID.length > 0 then
            some (c, [sendNack selfID c.id r.sequenceID bufferRepeatID.length bufferRepeatID])
          else
            some ({ c with
                    recvBuffer :=
                      if (c.inBuffers (nextIndex c.recvBufferIndex)).allRead = true then
                        some (nextIndex c.recvBufferIndex)
                      else none
                    recvBufferIndex := nextIndex c.recvBufferIndex
                    lastSequenceIDAck := ((c.inBuffers k).sequenceID : Int)
                    inBuffers := Function.update c.inBuffers k
                      { c.inBuffers k with ackSend := true, allRead := false } },
                  [sendAck selfID c.id (c.inBuffers k).sequenceID]) := by
  unfold Conn.handleAckRequest
  rw [hfind]

theorem handleAckRequest_singleFill (cfg : Config) (selfID : Nat) (c c1 : Conn)
    (r : DatagramAckRequest) (out : List Out) (hinv : c.SingleFill)
    (h : c.handleAckRequest cfg selfID r = some (c1, out)) : c1.SingleFill := by
  cases hfind : c.findReceiverWithSequenceID r.sequenceID with
  | none =>
    unfold Conn.handleAckRequest at h
    rw [hfind] at h
    cases h
    exact hinv
  | some k =>
    rw [handleAckRequest_found cfg c r k selfID hfind] at h
    split at h
    · cases h; exact hinv
    · rename_i hack
      split at h
      · cases h
      · split at h
        · cases h; exact hinv
        · cases h
          have hk := hinv k (by simpa using hack)
          intro j hj
          exfalso
          by_cases hjk : j = k
          · subst hjk
            simp at hj
          · simp only [Function.update_noteq hjk] at hj
            have := hinv j hj
            rw [hk] at this
            exact hjk (Option.some.inj this).symm

theorem readSync_singleFill (cfg : Config) (c : Conn) (bytes : Nat) (res : ReadResult)
    (hinv : c.SingleFill) (h : c.readSync cfg bytes = some res) : res.conn.SingleFill := by
  unfold Conn.readSync at h
  simp only at h
  split at h
  · rename_i hpub
    cases h
    unfold Conn.readSyncSlot
    simp only
    split
    · intro j hj
      by_cases hjk : j = c.readBufferIndex
      · subst hjk
        simp [hpub.1] at hj
      · simp only [Function.update_noteq hjk] at hj
        exact hinv j hj
    · intro j hj
      by_cases hjk : j = c.readBufferIndex
      · subst hjk
        simp [hpub.1] at hj
      · simp only [Function.update_noteq hjk] at hj
        exact hinv j hj
  · cases h

theorem close_singleFill (cfg : Config) (c : Conn) (hinv : c.SingleFill) :
    (c.close cfg).SingleFill := by
  unfold Conn.close
  split
  · exact hinv
  · intro j hj
    simp [InBuffer.reset] at hj

theorem fresh_singleFill (cfg : Config) (id : Nat) : (Conn.fresh cfg id).SingleFill := by
  intro j hj
  simp [Conn.fresh, InBuffer.fresh, InBuffer.reset] at hj

/-- In every reachable state, a slot of a child that is being filled is the
child's current receive buffer. -/
theorem reachable_singleFill (cfg : Config) (s : RSPConnection) (hs : Reachable cfg s) :
    ∀ c ∈ s.children, c.SingleFill := by
  induction hs with
  | init id ids =>
    intro c hc
    simp only [RSPConnection.listening, List.mem_map] at hc
    obtain ⟨i, -, rfl⟩ := hc
    exact fresh_singleFill cfg i
  | @step s s1 out bytes e _ hstep ih =>
    intro c hc
    cases e with
    | data d =>
      simp only [RSPConnection.step, RSPConnection.handleDataDatagram] at hstep
      split at hstep
      · cases hstep; exact ih c hc
      · split at hstep
        · cases hstep; exact ih c hc
        · rename_i i c0 hc0
          split at hstep
          · cases hstep
          · rename_i c1 out1 hh
            cases hstep
            rcases List.mem_or_eq_of_mem_set hc with h | h
            · exact ih c h
            · subst h
              exact handleDataDatagram_singleFill cfg s.id c0 c d out1
                (ih c0 (List.getElem?_mem hc0)) hh
    | ackRequest r =>
      simp only [RSPConnection.step, RSPConnection.handleAckRequest] at hstep
      split at hstep
      · cases hstep; exact ih c hc
      · split at hstep
        · cases hstep; exact ih c hc
        · rename_i i c0 hc0
          split at hstep
          · cases hstep
          · rename_i c1 out1 hh
            cases hstep
            rcases List.mem_or_eq_of_mem_set hc with h | h
            · exact ih c h
            · subst h
              exact handleAckRequest_singleFill cfg s.id c0 c r out1
                (ih c0 (List.getElem?_mem hc0)) hh
    | read i n =>
      simp only [RSPConnection.step, RSPConnection.readChild] at hstep
      split at hstep
      · cases hstep
      · rename_i c0 hc0
        split at hstep
        · cases hstep
        · rename_i res hh
          cases hstep
          rcases List.mem_or_eq_of_mem_set hc with h | h
          · exact ih c h
          · subst h
            exact readSync_singleFill cfg c0 n res (ih c0 (List.getElem?_mem hc0)) hh
    | close i =>
      simp only [RSPConnection.step, RSPConnection.closeChild] at hstep
      cases hstep
      split at hc
      · exact ih c hc
      · rename_i c0 hc0
        rcases List.mem_or_eq_of_mem_set hc with h | h
        · exact ih c h
        · subst h
          exact close_singleFill cfg c0 (ih c0 (List.getElem?_mem hc0))

theorem findChild_set (writerID : Nat) (c c1 : Conn) (hid : c1.id = c.id) :
    ∀ (children : List Conn) (i : Nat), children[i]? = some c →
      findChild (children.set i c1) writerID = findChild children writerID := by
  intro children
  induction children with
  | nil => intro i h; simp at h
  | cons x xs ih =>
    intro i h
    cases i with
    | zero =>
      simp only [List.getElem?_cons_zero, Option.some.injEq] at h
      subst h
      simp [findChild, hid]
    | succ i =>
      simp only [List.getElem?_cons_succ] at h
      simp [findChild, ih i h]

/-- C8: in every reachable state of a receiver, handling a DATA datagram a
second time right after the first leaves the whole receiver state (with it
every slot's sequence ID, `got` bits, data and length, read position and flags
and the receive index) exactly as the first handling left it, and sends
nothing; and a datagram whose `got` bit is already set in a slot leaves the
data memory of that slot untouched. -/
theorem handleDataDatagram_twice (cfg : Config) (s : RSPConnection) (hs : Reachable cfg s)
    (d : DatagramData) (s1 : RSPConnection) (out : List Out) (ok : Bool)
    (h : s.handleDataDatagram cfg d = some (s1, out, ok)) :
    s1.handleDataDatagram cfg d = some (s1, [], ok) ∧
    ∀ (i : Nat) (c c1 : Conn), s.children[i]? = some c → s1.children[i]? = some c1 →
      ∀ k, (c.inBuffers k).got.getD (d.dataIDlength >>> 16) false = true →
        (c1.inBuffers k).data = (c.inBuffers k).data := by
  have hinv := reachable_singleFill cfg s hs
  unfold RSPConnection.handleDataDatagram at h
  cases hfind : s.findConnectionWithWriterID (d.writeSeqID >>> 16) with
  | none =>
    rw [hfind] at h
    simp only [Option.some.injEq, Prod.mk.injEq] at h
    obtain ⟨hs1, hout, hok⟩ := h
    subst hs1 hout hok
    refine ⟨by simp only [RSPConnection.handleDataDatagram, hfind], ?_⟩
    intro i c c1 h1 h2 k _
    rw [Option.some.inj (h1.symm.trans h2)]
  | some i =>
    rw [hfind] at h
    dsimp only at h
    cases hc : s.children[i]? with
    | none =>
      rw [hc] at h
      simp only [Option.some.injEq, Prod.mk.injEq] at h
      obtain ⟨hs1, hout, hok⟩ := h
      subst hs1 hout hok
      refine ⟨by simp only [RSPConnection.handleDataDatagram, hfind, hc], ?_⟩
      intro i c c1 h1 h2 k _
      rw [Option.some.inj (h1.symm.trans h2)]
    | some c =>
      rw [hc] at h
      dsimp only at h
      cases hh : c.handleDataDatagram cfg s.id d with
      | none => rw [hh] at h; cases h
      | some res =>
        obtain ⟨c1, out1⟩ := res
        rw [hh] at h
        simp only [Option.some.injEq, Prod.mk.injEq] at h
        obtain ⟨hs1, hout, hok⟩ := h
        subst hs1 hout hok
        have hilt : i < s.children.length := (List.getElem?_eq_some_iff.mp hc).1
        constructor
        · have hid := handleDataDatagram_id cfg s.id c c1 d out1 hh
          have hagain := Conn.handleDataDatagram_again cfg s.id c c1 d out1
            (hinv c (List.getElem?_mem hc)) hh
          unfold RSPConnection.findConnectionWithWriterID at hfind
          simp only [RSPConnection.handleDataDatagram, RSPConnection.findConnectionWithWriterID,
            findChild_set (d.writeSeqID >>> 16) c c1 hid s.children i hc, hfind,
            List.getElem?_set_self hilt, hagain, List.set_set]
        · intro j c0 c2 h1 h2 k hgot
          dsimp only at h2
          by_cases hji : i = j
          · subst hji
            have e1 : c = c0 := Option.some.inj (hc.symm.trans h1)
            rw [List.getElem?_set_self hilt] at h2
            have e2 : c1 = c2 := Option.some.inj h2
            rw [← e1, ← e2]
            exact handleDataDatagram_data cfg s.id c c1 d out1 hh k (e1 ▸ hgot)
          · rw [List.getElem?_set_ne hji] at h2
            rw [Option.some.inj (h1.symm.trans h2)]

/-- Witness for C8: the fragment of the one-byte write 1 handled twice by a
new receiver. -/
theorem handleDataDatagram_twice_witness :
    exOnce.1.handleDataDatagram exCfg (exFragment [11] 1 0) = some (exOnce.1, [], exOnce.2.2) ∧
    ∀ (i : Nat) (c c1 : Conn), exReceiver.children[i]? = some c →
      exOnce.1.children[i]? = some c1 →
      ∀ k, (c.inBuffers k).got.getD ((exFragment [11] 1 0).dataIDlength >>> 16) false = true →
        (c1.inBuffers k).data = (c.inBuffers k).data :=
  handleDataDatagram_twice exCfg exReceiver (Reachable.init 2 [1]) (exFragment [11] 1 0)
    exOnce.1 exOnce.2.1 exOnce.2.2 (by rfl)

/-! ## C1: reassembly of a write -/

theorem writeAt_length (mem : List Nat) (pos : Nat) (bytes : List Nat) :
    (writeAt mem pos bytes).length = max mem.length (pos + bytes.length) := by
  simp [writeAt]

theorem writeAt_getD (mem : List Nat) (pos : Nat) (bytes : List Nat) (j : Nat) :
    (writeAt mem pos bytes).getD j 0 =
      if pos ≤ j ∧ j < pos + bytes.length then bytes.getD (j - pos) 0 else mem.getD j 0 := by
  by_cases hj : j < max mem.length (pos + bytes.length)
  · simp [writeAt, List.getD_eq_getElem?_getD, List.getElem?_map, List.getElem?_range hj]
  · have h1 : (writeAt mem pos bytes).length ≤ j := by rw [writeAt_length]; omega
    rw [List.getD_eq_default _ _ h1]
    have h2 : ¬ (pos ≤ j ∧ j < pos + bytes.length) := by omega
    rw [if_neg h2, List.getD_eq_default _ _ (by omega)]

theorem shiftedID_or (id seq : Nat) (hid : id < 65536) (hseq : seq < 65536) :
    (shiftedID id ||| seq) >>> 16 = id ∧ (shiftedID id ||| seq) &&& 0xFFFF = seq := by
  have h1 : shiftedID id = id <<< 16 := by
    unfold shiftedID
    rw [Nat.shiftLeft_eq]
    exact Nat.mod_eq_of_lt (by omega)
  rw [h1, pack_eq_add id seq hseq, Nat.shiftRight_eq_div_pow, and_0xFFFF]
  omega

theorem find_finRange4 (p : Fin 4 → Bool) :
    (List.finRange 4).find? p =
      if p 0 = true then some 0 else if p 1 = true then some 1
      else if p 2 = true then some 2 else if p 3 = true then some 3 else none := by
  have hl : List.finRange 4 = [0, 1, 2, 3] := by decide
  rw [hl]
  simp only [List.find?]
  cases p 0 <;> cases p 1 <;> cases p 2 <;> cases p 3 <;> rfl

theorem findReceiver_unique (c : Conn) (sequenceID : Nat) (r : Fin 4)
    (hr : (c.inBuffers r).sequenceID = sequenceID)
    (hothers : ∀ k, k ≠ r → (c.inBuffers k).sequenceID ≠ sequenceID) :
    c.findReceiverWithSequenceID sequenceID = some r := by
  have hne : ∀ k, k ≠ r → ¬ (((c.inBuffers k).sequenceID == sequenceID) = true) := by
    intro k hk
    simpa using hothers k hk
  have heq : ((c.inBuffers r).sequenceID == sequenceID) = true := by simpa using hr
  unfold Conn.findReceiverWithSequenceID
  rw [find_finRange4]
  by_cases h0 : r = 0
  · subst h0; rw [if_pos heq]
  · rw [if_neg (hne 0 (Ne.symm h0))]
    by_cases h1 : r = 1
    · subst h1; rw [if_pos heq]
    · rw [if_neg (hne 1 (Ne.symm h1))]
      by_cases h2 : r = 2
      · subst h2; rw [if_pos heq]
      · rw [if_neg (hne 2 (Ne.symm h2))]
        have h3 : r = 3 := by
          apply Fin.ext
          have := r.isLt
          have := Fin.val_ne_of_ne h0
          have := Fin.val_ne_of_ne h1
          have := Fin.val_ne_of_ne h2
          simp only [Fin.val_zero, Fin.val_one, Fin.val_two] at *
          show r.val = 3
          omega
        subst h3; rw [if_pos heq]

theorem scanLost_complete (cfg : Config) (got : List Bool) (lastDatagramID : Nat)
    (hlast : lastDatagramID < got.length)
    (hgot : ∀ j, j ≤ lastDatagramID → got.getD j false = true) :
    ∀ fuel i, scanLost cfg got lastDatagramID fuel i [] = some [] := by
  intro fuel
  induction fuel with
  | zero => intro i; rfl
  | succ fuel ih =>
    intro i
    unfold scanLost
    by_cases h1 : lastDatagramID < i
    · rw [if_pos h1]
    · rw [if_neg h1]
      by_cases h2 : cfg.maxNAck ≤ ([] : List Nat).length
      · rw [if_pos h2]
      · rw [if_neg h2, if_pos (by omega), if_pos (hgot i (by omega))]
        exact ih (i + 1)

theorem div_eq_iff_range (p t j : Nat) (hp : 0 < p) :
    t / p = j ↔ j * p ≤ t ∧ t < j * p + p := by
  have h1 := Nat.div_mul_le_self t p
  have h2 := Nat.lt_mul_div_succ t hp
  rw [Nat.mul_add, Nat.mul_one, Nat.mul_comm] at h2
  constructor
  · intro h; subst h; exact ⟨h1, h2⟩
  · rintro ⟨h3, h4⟩
    rcases Nat.lt_trichotomy (t / p) j with h | h | h
    · have : (t / p + 1) * p ≤ j * p := Nat.mul_le_mul_right p h
      rw [Nat.add_mul, Nat.one_mul] at this
      omega
    · exact h
    · have : (j + 1) * p ≤ t / p * p := Nat.mul_le_mul_right p h
      rw [Nat.add_mul, Nat.one_mul] at this
      omega

/-- Storing fragment `j` of the buffer keeps a slot assembling. -/
theorem store_assembling (cfg : Config) (hcfg : cfg.WF) (buffer : List Nat) (seq : Nat)
    (b : InBuffer) (hb : b.Assembling cfg buffer seq) (j : Nat)
    (hj : j < countDatagrams cfg buffer.length) :
    (b.store cfg j (min cfg.payloadSize (buffer.length - j * cfg.payloadSize))
      ((buffer.drop (j * cfg.payloadSize)).take
        (min cfg.payloadSize (buffer.length - j * cfg.payloadSize)))).Assembling cfg buffer seq := by
  obtain ⟨h1, h2, h3, h4, h5, h6, h7, h8, h9⟩ := hb
  have hp0 : 0 < cfg.payloadSize := hcfg.1
  have hbound := countDatagrams_bounds cfg hp0 buffer.length
  have hjlt := hbound.2 j hj
  have hpay : cfg.mtu - cfg.sizeofDatagramData = cfg.payloadSize := rfl
  generalize hlen : min cfg.payloadSize (buffer.length - j * cfg.payloadSize) = len at *
  have hbytes : (List.take len (List.take len (List.drop (j * cfg.payloadSize) buffer))).length
      = len := by
    simp only [List.length_take, List.length_drop]
    omega
  have hend : j * cfg.payloadSize + len ≤ buffer.length := by omega
  refine ⟨h1, h2, h3, h4, ?_, ?_, ?_, ?_, ?_⟩
  · simpa [InBuffer.store] using h5
  · simp only [InBuffer.store, growSize, hpay, writeAt_length, hbytes]
    split <;> omega
  · simp only [InBuffer.store, growSize]
    split <;> omega
  · intro hlast
    simp only [InBuffer.store, growSize] at hlast ⊢
    by_cases hjl : j = countDatagrams cfg buffer.length - 1
    · have hN := hbound.1
      have : countDatagrams cfg buffer.length = j + 1 := by omega
      rw [this, Nat.add_mul, Nat.one_mul] at hN
      split <;> omega
    · rw [List.getD_eq_getElem?_getD, List.getElem?_set_ne hjl,
        ← List.getD_eq_getElem?_getD] at hlast
      have := h8 hlast
      split <;> omega
  · intro t ht hgot
    simp only [InBuffer.store, hpay] at hgot ⊢
    rw [writeAt_getD, hbytes]
    by_cases htj : t / cfg.payloadSize = j
    · have hr := (div_eq_iff_range cfg.payloadSize t j hp0).mp htj
      have hin : j * cfg.payloadSize ≤ t ∧ t < j * cfg.payloadSize + len := by omega
      rw [if_pos hin]
      have hlt : t - j * cfg.payloadSize < len := by omega
      rw [List.getD_eq_getElem?_getD, List.getElem?_take_of_lt hlt,
        List.getElem?_take_of_lt hlt, List.getElem?_drop, List.getD_eq_getElem?_getD]
      congr 2
      omega
    · have hout : ¬ (j * cfg.payloadSize ≤ t ∧ t < j * cfg.payloadSize + len) := by
        intro hin
        apply htj
        exact (div_eq_iff_range cfg.payloadSize t j hp0).mpr ⟨hin.1, by omega⟩
      rw [if_neg hout]
      rw [List.getD_eq_getElem?_getD, List.getElem?_set_ne (Ne.symm htj),
        ← List.getD_eq_getElem?_getD] at hgot
      exact h9 t ht hgot

theorem store_got (cfg : Config) (b : InBuffer) (j len : Nat) (payload : List Nat)
    (hj : j < b.got.length) :
    (b.store cfg j len payload).got.getD j false = true ∧
    ∀ t, b.got.getD t false = true → (b.store cfg j len payload).got.getD t false = true := by
  constructor
  · simp [InBuffer.store, List.getD_eq_getElem?_getD, List.getElem?_set, hj]
  · intro t ht
    simp only [InBuffer.store, List.getD_eq_getElem?_getD, List.getElem?_set] at ht ⊢
    split
    · rfl
    · exact ht

theorem adopt_assembling (cfg : Config) (buffer : List Nat) (seq : Nat) (r : Fin 4) (c : Conn)
    (hfree : c.FreeFor cfg seq r) : (c.adopt r seq).Assembling cfg buffer seq r c.id := by
  obtain ⟨-, hread, hall, -, hgot, hnew, -⟩ := hfree
  refine ⟨rfl, rfl, hread, fun k hk => ?_, ?_⟩
  · simp only [Conn.adopt, Function.update_noteq hk]
    exact hnew k
  · simp only [Conn.adopt, Function.update_same, InBuffer.Assembling, InBuffer.startSequence,
      hgot, hall]
    simp

/-- The first fragment of the new sequence is handled as if the slot had
already been taken over. -/
theorem handleDataDatagram_adopt (cfg : Config) (selfID : Nat) (seq : Nat) (r : Fin 4)
    (c : Conn) (hfree : c.FreeFor cfg seq r) (d : DatagramData)
    (hd : d.writeSeqID &&& 0xFFFF = seq) :
    c.handleDataDatagram cfg selfID d = (c.adopt r seq).handleDataDatagram cfg selfID d := by
  obtain ⟨hslot, -, hall, hack, -, hnew, hlast⟩ := hfree
  have hf1 : firstDatagram c.lastSequenceIDAck (c.inBuffers r) seq
      = some ((c.inBuffers r).startSequence seq) := by
    unfold firstDatagram
    rw [if_pos hack, if_neg (fun h => hnew r h.symm), if_neg (fun h => hlast h.1)]
  have hf2 : firstDatagram c.lastSequenceIDAck ((c.inBuffers r).startSequence seq) seq
      = some ((c.inBuffers r).startSequence seq) := by
    simp [firstDatagram, InBuffer.startSequence]
  have hright : (c.adopt r seq).handleDataDatagram cfg selfID d
      = (c.adopt r seq).fillSlot cfg selfID r d := by
    rw [handleDataDatagram_eq]
    rfl
  rw [hright, fillSlot_eq, hd]
  simp only [Conn.adopt, Function.update_same, hf2, Function.update_idem]
  rw [handleDataDatagram_eq]
  rcases hslot with h | ⟨h1, h2⟩
  · rw [h]
    simp only []
    rw [fillSlot_eq, hd, hf1]
    simp only [h]
  · rw [h1]
    simp only []
    rw [h2, if_pos hall, fillSlot_eq, hd]
    simp only [hf1]

/-- Fragment `j` of the buffer, handled by a connection that is assembling it. -/
theorem handleDataDatagram_assembling (cfg : Config) (hcfg : cfg.WF) (selfID : Nat)
    (buffer : List Nat) (hsize : buffer.length ≤ cfg.bufferSize) (seq id : Nat)
    (hseq : seq < 65536) (hid : id < 65536) (r : Fin 4) (c : Conn)
    (hc : c.Assembling cfg buffer seq r id) (j : Nat)
    (hj : j < countDatagrams cfg buffer.length) :
    ∃ c1 out,
      c.handleDataDatagram cfg selfID
        (sendDatagram cfg buffer buffer.length (shiftedID id ||| seq) j) = some (c1, out) ∧
      c1.Assembling cfg buffer seq r id ∧
      (c1.inBuffers r).got.getD j false = true ∧
      ∀ t, (c.inBuffers r).got.getD t false = true → (c1.inBuffers r).got.getD t false = true := by
  obtain ⟨hcid, hrb, hread, hothers, hslot⟩ := hc
  have hslot1 := hslot
  obtain ⟨h1, h2, h3, h4, h5, h6, h7, h8, h9⟩ := hslot1
  obtain ⟨hw, hidx, hlen, hpl⟩ :=
    sendDatagram_fields cfg hcfg buffer buffer.length (shiftedID id ||| seq) j hsize hj
  have hb := bufferSize_eq cfg hcfg
  have hn := countDatagrams_le_ackFreq cfg hcfg.1 buffer.length (hb ▸ hsize)
  have hjlt := (countDatagrams_bounds cfg hcfg.1 buffer.length).2 j hj
  have hf : firstDatagram c.lastSequenceIDAck (c.inBuffers r) seq = some (c.inBuffers r) := by
    simp [firstDatagram, h1]
  rw [handleDataDatagram_eq, hrb]
  simp only []
  rw [fillSlot_eq, hw, (shiftedID_or id seq hid hseq).2, hf, hidx, hlen, hpl]
  simp only []
  rw [if_pos (by omega)]
  by_cases hgot : (c.inBuffers r).got.getD j false = true
  · rw [if_pos hgot]
    refine ⟨_, _, rfl, ⟨hcid, hrb, hread, ?_, ?_⟩, ?_, ?_⟩
    · intro k hk
      simp only [Function.update_noteq hk]
      exact hothers k hk
    · simpa using hslot
    · simpa using hgot
    · intro t ht
      simpa using ht
  · rw [if_neg hgot]
    have hle : min cfg.payloadSize (buffer.length - j * cfg.payloadSize)
        ≤ (List.take (min cfg.payloadSize (buffer.length - j * cfg.payloadSize))
            (List.drop (j * cfg.payloadSize) buffer)).length := by
      simp only [List.length_take, List.length_drop]
      omega
    rw [if_pos hle]
    have hst := store_assembling cfg hcfg buffer seq (c.inBuffers r) hslot j hj
    have hg := store_got cfg (c.inBuffers r) j
      (min cfg.payloadSize (buffer.length - j * cfg.payloadSize))
      (List.take (min cfg.payloadSize (buffer.length - j * cfg.payloadSize))
        (List.drop (j * cfg.payloadSize) buffer)) (by omega)
    refine ⟨_, _, rfl, ⟨hcid, hrb, hread, ?_, ?_⟩, ?_, ?_⟩
    · intro k hk
      simp only [Function.update_noteq hk]
      exact hothers k hk
    · simpa using hst
    · simpa using hg.1
    · intro t ht
      simpa using hg.2 t ht

theorem root_handleDataDatagram (cfg : Config) (s : RSPConnection) (i : Nat) (c c1 : Conn)
    (d : DatagramData) (out : List Out)
    (hfind : findChild s.children (d.writeSeqID >>> 16) = some i)
    (hchild : s.children[i]? = some c)
    (h : c.handleDataDatagram cfg s.id d = some (c1, out)) :
    s.handleDataDatagram cfg d = some ({ s with children := s.children.set i c1 }, out, true) := by
  simp only [RSPConnection.handleDataDatagram, RSPConnection.findConnectionWithWriterID, hfind,
    hchild, h]

/-- All fragments of the buffer, in any order, handled by a receiver whose
child for the writer is assembling the buffer. -/
theorem run_assembling (cfg : Config) (hcfg : cfg.WF) (buffer : List Nat)
    (hsize : buffer.length ≤ cfg.bufferSize) (seq id : Nat) (hseq : seq < 65536)
    (hid : id < 65536) (r : Fin 4) (i : Nat) :
    ∀ (order : List Nat) (s : RSPConnection) (c : Conn),
      findChild s.children id = some i → s.children[i]? = some c →
      c.Assembling cfg buffer seq r id →
      (∀ j ∈ order, j < countDatagrams cfg buffer.length) →
      ∃ s1 out c1,
        s.run cfg (order.map (fun j =>
          Event.data (sendDatagram cfg buffer buffer.length (shiftedID id ||| seq) j)))
          = some (s1, out, []) ∧
        s1.id = s.id ∧ findChild s1.children id = some i ∧ s1.children[i]? = some c1 ∧
        c1.Assembling cfg buffer seq r id ∧
        (∀ j ∈ order, (c1.inBuffers r).got.getD j false = true) ∧
        ∀ t, (c.inBuffers r).got.getD t false = true →
          (c1.inBuffers r).got.getD t false = true := by
  intro order
  induction order with
  | nil =>
    intro s c hfind hchild hc _
    exact ⟨s, [], c, rfl, rfl, hfind, hchild, hc, fun j hj => absurd hj (List.not_mem_nil j),
      fun t ht => ht⟩
  | cons j order ih =>
    intro s c hfind hchild hc hin
    have hj := hin j (List.mem_cons_self _ _)
    obtain ⟨c1, out1, hh, hc1, hgj, hmono⟩ :=
      handleDataDatagram_assembling cfg hcfg s.id buffer hsize seq id hseq hid r c hc j hj
    have hw : (sendDatagram cfg buffer buffer.length (shiftedID id ||| seq) j).writeSeqID >>> 16
        = id := by
      rw [(sendDatagram_fields cfg hcfg buffer buffer.length _ j hsize hj).1]
      exact (shiftedID_or id seq hid hseq).1
    have hfind1 : findChild s.children
        ((sendDatagram cfg buffer buffer.length (shiftedID id ||| seq) j).writeSeqID >>> 16)
        = some i := by
      rw [hw]; exact hfind
    have hroot := root_handleDataDatagram cfg s i c c1 _ out1 hfind1 hchild hh
    have hilt : i < s.children.length := (List.getElem?_eq_some_iff.mp hchild).1
    have hid1 : c1.id = c.id := by rw [hc1.1, hc.1]
    obtain ⟨s2, out2, c2, hrun, hsid, hfind2, hchild2, hc2, hgot2, hmono2⟩ :=
      ih { s with children := s.children.set i c1 } c1
        (by simp only [findChild_set id c c1 hid1 s.children i hchild, hfind])
        (by simp only [List.getElem?_set_self hilt])
        hc1 (fun t ht => hin t (List.mem_cons_of_mem _ ht))
    refine ⟨s2, out1 ++ out2, c2, ?_, hsid, hfind2, hchild2, hc2, ?_, fun t ht => hmono2 t (hmono t ht)⟩
    · simp only [List.map_cons, RSPConnection.run, RSPConnection.step, hroot, Option.map_some',
        hrun]
    · intro t ht
      rcases List.mem_cons.mp ht with h | h
      · subst h; exact hmono2 t hgj
      · exact hgot2 t h

/-- The first fragment finds the slot free; from then on the receiver is the
one whose slot has been taken over. -/
theorem run_adopt (cfg : Config) (hcfg : cfg.WF) (buffer : List Nat)
    (hsize : buffer.length ≤ cfg.bufferSize) (seq : Nat) (hseq : seq < 65536) (r : Fin 4)
    (i : Nat) (s : RSPConnection) (c : Conn) (hid : c.id < 65536)
    (hfind : findChild s.children c.id = some i) (hchild : s.children[i]? = some c)
    (hfree : c.FreeFor cfg seq r) (j : Nat) (hj : j < countDatagrams cfg buffer.length)
    (events : List Event) :
    s.run cfg (Event.data (sendDatagram cfg buffer buffer.length (shiftedID c.id ||| seq) j)
        :: events)
      = RSPConnection.run cfg { s with children := s.children.set i (c.adopt r seq) }
          (Event.data (sendDatagram cfg buffer buffer.length (shiftedID c.id ||| seq) j)
            :: events) := by
  have hf := sendDatagram_fields cfg hcfg buffer buffer.length (shiftedID c.id ||| seq) j hsize hj
  have hw := (shiftedID_or c.id seq hid hseq)
  have hilt : i < s.children.length := (List.getElem?_eq_some_iff.mp hchild).1
  have hseqd : (sendDatagram cfg buffer buffer.length (shiftedID c.id ||| seq) j).writeSeqID
      &&& 0xFFFF = seq := by
    rw [hf.1]; exact hw.2
  have hstep : s.handleDataDatagram cfg
        (sendDatagram cfg buffer buffer.length (shiftedID c.id ||| seq) j)
      = RSPConnection.handleDataDatagram cfg
          { s with children := s.children.set i (c.adopt r seq) }
          (sendDatagram cfg buffer buffer.length (shiftedID c.id ||| seq) j) := by
    simp only [RSPConnection.handleDataDatagram, RSPConnection.findConnectionWithWriterID,
      hf.1, hw.1, hfind, hchild,
      findChild_set c.id c (c.adopt r seq) rfl s.children i hchild,
      List.getElem?_set_self hilt,
      handleDataDatagram_adopt cfg s.id seq r c hfree _ hseqd, List.set_set]
  simp only [RSPConnection.run, RSPConnection.step, hstep]

/-- A connection that has got every fragment of the buffer holds exactly the
buffer in the slot, acknowledges the ACK request of the write and then hands
the buffer to the reader. -/
theorem complete_ack_read (cfg : Config) (hcfg : cfg.WF) (selfID : Nat) (buffer : List Nat)
    (hpos : 0 < buffer.length) (hsize : buffer.length ≤ cfg.bufferSize) (seq id : Nat)
    (r : Fin 4) (c : Conn) (hc : c.Assembling cfg buffer seq r id)
    (hgot : ∀ j, j < countDatagrams cfg buffer.length →
      (c.inBuffers r).got.getD j false = true) :
    (c.inBuffers r).dataSize = buffer.length ∧ (c.inBuffers r).bytes = buffer ∧
    ∃ c2 res,
      c.handleAckRequest cfg selfID
          { writerID := id
            lastDatagramID := (countDatagrams cfg buffer.length + 65535) % 65536
            sequenceID := seq }
        = some (c2, [sendAck selfID id seq]) ∧
      c2.id = c.id ∧
      c2.readSync cfg buffer.length = some res ∧ res.bytes = buffer ∧ res.ret = buffer.length := by
  obtain ⟨hcid, hrb, hread, hothers, h1, h2, h3, h4, h5, h6, h7, h8, h9⟩ := hc
  subst hcid
  have hp0 : 0 < cfg.payloadSize := hcfg.1
  have hb := bufferSize_eq cfg hcfg
  have hbound := countDatagrams_bounds cfg hp0 buffer.length
  have hn := countDatagrams_le_ackFreq cfg hp0 buffer.length (hb ▸ hsize)
  have hn1 : 1 ≤ countDatagrams cfg buffer.length := by
    rcases Nat.eq_zero_or_pos (countDatagrams cfg buffer.length) with h | h
    · have := hbound.1
      rw [h] at this
      omega
    · exact h
  have hlast : (countDatagrams cfg buffer.length + 65535) % 65536
      = countDatagrams cfg buffer.length - 1 := by
    have := hcfg.2.2.2
    omega
  have hds : (c.inBuffers r).dataSize = buffer.length := h8 (hgot _ (by omega))
  have hbytes : (c.inBuffers r).bytes = buffer := by
    unfold InBuffer.bytes
    rw [hds]
    apply List.ext_getElem?
    intro t
    by_cases ht : t < buffer.length
    · rw [List.getElem?_take_of_lt ht]
      have hq : t / cfg.payloadSize < countDatagrams cfg buffer.length := by
        apply Nat.div_lt_of_lt_mul
        have := hbound.1
        rw [Nat.mul_comm]
        omega
      have hd := h9 t ht (hgot _ hq)
      rw [List.getD_eq_getElem?_getD, List.getD_eq_getElem?_getD,
        List.getElem?_eq_getElem (by omega), List.getElem?_eq_getElem ht] at hd
      rw [List.getElem?_eq_getElem (by omega), List.getElem?_eq_getElem ht]
      simpa using hd
    · rw [List.getElem?_eq_none (by simp only [List.length_take]; omega),
        List.getElem?_eq_none (by omega)]
  refine ⟨hds, hbytes, ?_⟩
  have hfind := findReceiver_unique c seq r h3 hothers
  have hscan := scanLost_complete cfg (c.inBuffers r).got
    (countDatagrams cfg buffer.length - 1) (by omega)
    (fun j hj => hgot j (by omega)) (countDatagrams cfg buffer.length - 1 + 1) 0
  have hack : ¬ ((c.inBuffers r).ackSend = true) := by simp [h1]
  rw [handleAckRequest_found cfg c _ r selfID hfind, if_neg hack]
  simp only [hlast, hscan, List.length_nil, gt_iff_lt, Nat.lt_irrefl, if_false, h3]
  have hsz : (min buffer.length cfg.bufferSize) % 2 ^ 32 = buffer.length := by
    have : cfg.bufferSize < 2 ^ 32 := Nat.mod_lt _ (by norm_num)
    rw [Nat.min_eq_left hsize]
    exact Nat.mod_eq_of_lt (by omega)
  have hsz2 : min buffer.length ((buffer.length + 2 ^ 64 - 0) % 2 ^ 64) = buffer.length := by
    have : cfg.bufferSize < 2 ^ 32 := Nat.mod_lt _ (by norm_num)
    omega
  unfold InBuffer.bytes at hbytes
  rw [hds] at hbytes
  obtain ⟨c2, hc2⟩ : ∃ c2 : Conn, c2 =
      { c with
        recvBuffer :=
          if (c.inBuffers (nextIndex c.recvBufferIndex)).allRead = true then
            some (nextIndex c.recvBufferIndex)
          else none
        recvBufferIndex := nextIndex c.recvBufferIndex
        lastSequenceIDAck := (seq : Int)
        inBuffers := Function.update c.inBuffers r
          { c.inBuffers r with sequenceID := seq, ackSend := true, allRead := false } } :=
    ⟨_, rfl⟩
  refine ⟨c2, c2.readSyncSlot r buffer.length, by rw [hc2], by rw [hc2], ?_, ?_, ?_⟩
  · have hpub : (c2.inBuffers c2.readBufferIndex).ackSend = true ∧
        (c2.inBuffers c2.readBufferIndex).allRead = false := by
      rw [hc2]
      dsimp only
      rw [hread]
      simp
    have hri : c2.readBufferIndex = r := by rw [hc2]; exact hread
    unfold Conn.readSync
    simp only [hsz]
    rw [if_pos hpub, hri]
  · have hslot : c2.inBuffers r =
        { c.inBuffers r with sequenceID := seq, ackSend := true, allRead := false } := by
      rw [hc2]; simp
    unfold Conn.readSyncSlot
    simp only [hslot, h4, hds, hsz2, List.drop_zero, hbytes]
    split <;> rfl
  · have hslot : c2.inBuffers r =
        { c.inBuffers r with sequenceID := seq, ackSend := true, allRead := false } := by
      rw [hc2]; simp
    unfold Conn.readSyncSlot
    simp only [hslot, h4, hds, hsz2]
    split <;> rfl

/-- C1, as the code has it.  Let slot `r` of the connection for a writer be
free and empty for the new sequence `seq` (`Conn.FreeFor`: it is the slot
`_handleDataDatagram` fills and the reader's next slot, it is acknowledged and
read with no `got` bit set, and `seq` is neither recorded in a slot of the
connection nor its last acknowledged sequence).  If the fragments built by
`_sendDatagram` for a buffer of `0 < N <= bufferSize` bytes are handled in any
order, every index at least once, then the slot's data has length `N` and is
the buffer; the ACK request of the write is then answered by one ACK, and a
`readSync` of `N` bytes returns those `N` bytes. -/
theorem reassembly_round_trip (cfg : Config) (hcfg : cfg.WF) (s : RSPConnection) (i : Nat)
    (c : Conn) (r : Fin 4) (buffer : List Nat) (seq : Nat) (order : List Nat)
    (hpos : 0 < buffer.length) (hsize : buffer.length ≤ cfg.bufferSize)
    (hseq : seq < 65536) (hid : c.id < 65536)
    (hfind : s.findConnectionWithWriterID c.id = some i) (hchild : s.children[i]? = some c)
    (hfree : c.FreeFor cfg seq r)
    (hall : ∀ j, j < countDatagrams cfg buffer.length → j ∈ order)
    (hin : ∀ j ∈ order, j < countDatagrams cfg buffer.length) :
    ∃ s1 out c1,
      s.run cfg (order.map (fun j =>
          Event.data (sendDatagram cfg buffer buffer.length (shiftedID c.id ||| seq) j)))
        = some (s1, out, []) ∧
      s1.children[i]? = some c1 ∧
      (c1.inBuffers r).dataSize = buffer.length ∧ (c1.inBuffers r).bytes = buffer ∧
      ∃ s2 s3 res,
        s1.handleAckRequest cfg
            { writerID := c.id
              lastDatagramID := (countDatagrams cfg buffer.length + 65535) % 65536
              sequenceID := seq }
          = some (s2, [sendAck s.id c.id seq], true) ∧
        s2.readChild cfg i buffer.length = some (s3, res) ∧
        res.bytes = buffer ∧ res.ret = buffer.length := by
  unfold RSPConnection.findConnectionWithWriterID at hfind
  have hp0 : 0 < cfg.payloadSize := hcfg.1
  have hbound := countDatagrams_bounds cfg hp0 buffer.length
  have hn1 : 0 < countDatagrams cfg buffer.length := by
    rcases Nat.eq_zero_or_pos (countDatagrams cfg buffer.length) with h | h
    · have := hbound.1
      rw [h] at this
      omega
    · exact h
  have hilt : i < s.children.length := (List.getElem?_eq_some_iff.mp hchild).1
  obtain ⟨j0, rest, horder⟩ : ∃ j0 rest, order = j0 :: rest := by
    cases order with
    | nil => exact absurd (hall 0 hn1) (List.not_mem_nil 0)
    | cons j0 rest => exact ⟨j0, rest, rfl⟩
  have hj0 : j0 < countDatagrams cfg buffer.length := hin j0 (horder ▸ List.mem_cons_self _ _)
  have hadopt := run_adopt cfg hcfg buffer hsize seq hseq r i s c hid hfind hchild hfree j0 hj0
    (rest.map (fun j =>
      Event.data (sendDatagram cfg buffer buffer.length (shiftedID c.id ||| seq) j)))
  obtain ⟨s1, out, c1, hrun, hsid, hfind1, hchild1, hc1, hgot1, -⟩ :=
    run_assembling cfg hcfg buffer hsize seq c.id hseq hid r i order
      { s with children := s.children.set i (c.adopt r seq) } (c.adopt r seq)
      (by simp only [findChild_set c.id c (c.adopt r seq) rfl s.children i hchild, hfind])
      (by simp only [List.getElem?_set_self hilt])
      (adopt_assembling cfg buffer seq r c hfree) hin
  have hsid1 : s1.id = s.id := hsid
  obtain ⟨hds, hbytes, c2, res, hack, hid2, hread, hrb, hret⟩ :=
    complete_ack_read cfg hcfg s1.id buffer hpos hsize seq c.id r c1 hc1
      (fun j hj => hgot1 j (hall j hj))
  have hilt1 : i < s1.children.length := (List.getElem?_eq_some_iff.mp hchild1).1
  refine ⟨s1, out, c1, ?_, hchild1, hds, hbytes,
    { s1 with children := s1.children.set i c2 },
    { s1 with children := (s1.children.set i c2).set i res.conn }, res, ?_, ?_, hrb, hret⟩
  · rw [horder, List.map_cons] at hrun ⊢
    rw [hadopt]
    exact hrun
  · rw [hsid1] at hack
    simp only [RSPConnection.handleAckRequest, RSPConnection.findConnectionWithWriterID, hfind1,
      hchild1, hsid1, hack]
  · simp only [RSPConnection.readChild, List.getElem?_set_self hilt1, hread]

/-- Witness for C1 as amended: the two fragments of a 6-byte write under
sequence 1 reach a new receiver in the order 1, 0, 1. -/
theorem reassembly_round_trip_witness :
    ∃ s1 out c1,
      exReceiver.run exCfg ([1, 0, 1].map (fun j =>
          Event.data (sendDatagram exCfg exShort exShort.length
            (shiftedID (Conn.fresh exCfg 1).id ||| 1) j)))
        = some (s1, out, []) ∧
      s1.children[0]? = some c1 ∧
      (c1.inBuffers 0).dataSize = exShort.length ∧ (c1.inBuffers 0).bytes = exShort ∧
      ∃ s2 s3 res,
        s1.handleAckRequest exCfg
            { writerID := (Conn.fresh exCfg 1).id
              lastDatagramID := (countDatagrams exCfg exShort.length + 65535) % 65536
              sequenceID := 1 }
          = some (s2, [sendAck exReceiver.id (Conn.fresh exCfg 1).id 1], true) ∧
        s2.readChild exCfg 0 exShort.length = some (s3, res) ∧
        res.bytes = exShort ∧ res.ret = exShort.length :=
  reassembly_round_trip exCfg (by decide) exReceiver 0 (Conn.fresh exCfg 1) 0 exShort 1 [1, 0, 1]
    (by decide) (by decide) (by decide) (by decide) (by rfl) (by rfl)
    ⟨Or.inl rfl, rfl, rfl, rfl, rfl, by decide, by decide⟩
    (by decide) (by decide)

/-- C1 fails as stated: the slots of a new receiver are free and empty, but
they record sequence 0.  The two fragments of a 6-byte write under sequence 0
are dropped: slot 0 keeps its 20 bytes of reset data, the ACK request of the
write is nevertheless answered by an ACK, and a `readSync` of 6 bytes
waits. -/
theorem reassembly_sequence_zero_dropped :
    exReceiver.viewAfter exCfg []
      = some [([(0, true, true, 0, [false, false, false, false, false], List.replicate 20 0),
                (0, true, true, 0, [false, false, false, false, false], List.replicate 20 0),
                (0, true, true, 0, [false, false, false, false, false], List.replicate 20 0),
                (0, true, true, 0, [false, false, false, false, false], List.replicate 20 0)],
               some 0, 0, 0, -1)] ∧
    exReceiver.viewAfter exCfg
        [Event.data (exFragment exShort 0 0), Event.data (exFragment exShort 0 1)]
      = exReceiver.viewAfter exCfg [] ∧
    (exReceiver.run exCfg
        [Event.data (exFragment exShort 0 0), Event.data (exFragment exShort 0 1),
         Event.ackRequest (exAckRequest exShort 0)]).map (fun x => x.2.1)
      = some [Out.ack 2 1 0] ∧
    (exReceiver.run exCfg
        [Event.data (exFragment exShort 0 0), Event.data (exFragment exShort 0 1),
         Event.ackRequest (exAckRequest exShort 0), Event.read 0 6]).isNone = true := by
  refine ⟨by rfl, by rfl, by rfl, by rfl⟩

/-! ## C17 and C18: one slot is filled at a time; completion on an ACK request -/

/-- C17: in every state reachable from a newly constructed (reset)
participant by handling DATA datagrams and ACK requests, reads and closes, at
most one of the four receive slots of a child has `ackSend = false`, and such
a slot is the one `_recvBuffer` refers to. -/
theorem single_slot_fill (cfg : Config) (s : RSPConnection) (hs : Reachable cfg s)
    (c : Conn) (hc : c ∈ s.children) :
    (∀ k1 k2, (c.inBuffers k1).ackSend = false → (c.inBuffers k2).ackSend = false → k1 = k2) ∧
    ∀ k, (c.inBuffers k).ackSend = false → c.recvBuffer = some k := by
  have h := reachable_singleFill cfg s hs c hc
  refine ⟨fun k1 k2 h1 h2 => ?_, h⟩
  have e1 := h k1 h1
  have e2 := h k2 h2
  exact Option.some.inj (e1.symm.trans e2)

/-- Witness for C17: the receiver of the worked traces after the first
fragment of a write; slot 0 of its child is being filled and is the current
receive buffer. -/
theorem single_slot_fill_witness :
    (exFilling.inBuffers 0).ackSend = false ∧
    ((∀ k1 k2, (exFilling.inBuffers k1).ackSend = false →
        (exFilling.inBuffers k2).ackSend = false → k1 = k2) ∧
     ∀ k, (exFilling.inBuffers k).ackSend = false → exFilling.recvBuffer = some k) :=
  ⟨rfl, single_slot_fill exCfg exOnce.1
    (Reachable.step (Event.data (exFragment [11] 1 0)) (Reachable.init 2 [1])
      (rfl : exReceiver.step exCfg (Event.data (exFragment [11] 1 0))
        = some (exOnce.1, exOnce.2.1, [])))
    exFilling (List.mem_singleton.2 rfl : exFilling ∈ [exFilling])⟩

/-- C18: when the slot found for the sequence of an ACK request is being
filled (`ackSend = false`) and every fragment `0..lastDatagramID` has arrived,
`_handleAckRequest` sends one ACK for the sequence to the writer and nothing
else, sets the slot's `ackSend` and clears its `allRead`, advances
`_recvBufferIndex` to `(index + 1) mod 4`, makes the slot at the new index the
current receive buffer if its `allRead` flag was set when the request arrived
and leaves no current receive buffer otherwise, and records the sequence as
`_lastSequenceIDAck`.  The slot's data, data size, `got` bits, read position
and sequence ID, the other slots and the read index are unchanged. -/
theorem ackRequest_completion (cfg : Config) (selfID : Nat) (c : Conn)
    (r : DatagramAckRequest) (k : Fin 4)
    (hfind : c.findReceiverWithSequenceID r.sequenceID = some k)
    (hack : (c.inBuffers k).ackSend = false)
    (hgot : ∀ i, i ≤ r.lastDatagramID → (c.inBuffers k).got.getD i false = true) :
    ∃ c1, c.handleAckRequest cfg selfID r = some (c1, [Out.ack selfID c.id r.sequenceID]) ∧
      (c1.inBuffers k).ackSend = true ∧ (c1.inBuffers k).allRead = false ∧
      c1.recvBufferIndex = nextIndex c.recvBufferIndex ∧
      c1.recvBufferIndex.val = (c.recvBufferIndex.val + 1) % 4 ∧
      c1.recvBuffer =
        (if (c.inBuffers (nextIndex c.recvBufferIndex)).allRead = true then
          some (nextIndex c.recvBufferIndex)
        else none) ∧
      c1.lastSequenceIDAck = (r.sequenceID : Int) ∧
      (c1.inBuffers k).data = (c.inBuffers k).data ∧
      (c1.inBuffers k).dataSize = (c.inBuffers k).dataSize ∧
      (c1.inBuffers k).got = (c.inBuffers k).got ∧
      (c1.inBuffers k).readPos = (c.inBuffers k).readPos ∧
      (c1.inBuffers k).sequenceID = r.sequenceID ∧
      (∀ j, j ≠ k → c1.inBuffers j = c.inBuffers j) ∧
      c1.readBufferIndex = c.readBufferIndex ∧ c1.id = c.id := by
  have hlast : r.lastDatagramID < (c.inBuffers k).got.length := by
    by_contra hn
    have h1 := hgot r.lastDatagramID (Nat.le_refl _)
    rw [List.getD_eq_default _ _ (by omega)] at h1
    exact Bool.false_ne_true h1
  have hseq := findReceiver_some c r.sequenceID k hfind
  have hscan := scanLost_complete cfg (c.inBuffers k).got r.lastDatagramID hlast hgot
    (r.lastDatagramID + 1) 0
  rw [handleAckRequest_found cfg c r k selfID hfind, if_neg (by rw [hack]; exact Bool.false_ne_true),
    hscan]
  dsimp only
  rw [if_neg (by simp), hseq]
  refine ⟨_, rfl, ?_⟩
  simp only [Function.update_same]
  exact ⟨trivial, trivial, trivial, rfl, trivial, trivial, trivial, trivial, trivial, trivial, trivial,
    fun j hj => Function.update_noteq hj _ _, trivial, trivial⟩

/-- Witness for C18: both fragments of a 6-byte write have arrived in slot 0
of a new child when the ACK request of the write is handled. -/
theorem ackRequest_completion_witness :
    ∃ c1, exComplete.handleAckRequest exCfg 2 (exAckRequest exShort 1)
        = some (c1, [Out.ack 2 exComplete.id (exAckRequest exShort 1).sequenceID]) ∧
      (c1.inBuffers 0).ackSend = true ∧ (c1.inBuffers 0).allRead = false ∧
      c1.recvBufferIndex = nextIndex exComplete.recvBufferIndex ∧
      c1.recvBufferIndex.val = (exComplete.recvBufferIndex.val + 1) % 4 ∧
      c1.recvBuffer =
        (if (exComplete.inBuffers (nextIndex exComplete.recvBufferIndex)).allRead = true then
          some (nextIndex exComplete.recvBufferIndex)
        else none) ∧
      c1.lastSequenceIDAck = ((exAckRequest exShort 1).sequenceID : Int) ∧
      (c1.inBuffers 0).data = (exComplete.inBuffers 0).data ∧
      (c1.inBuffers 0).dataSize = (exComplete.inBuffers 0).dataSize ∧
      (c1.inBuffers 0).got = (exComplete.inBuffers 0).got ∧
      (c1.inBuffers 0).readPos = (exComplete.inBuffers 0).readPos ∧
      (c1.inBuffers 0).sequenceID = (exAckRequest exShort 1).sequenceID ∧
      (∀ j, j ≠ 0 → c1.inBuffers j = exComplete.inBuffers j) ∧
      c1.readBufferIndex = exComplete.readBufferIndex ∧ c1.id = exComplete.id :=
  ackRequest_completion exCfg 2 exComplete (exAckRequest exShort 1) 0 (by decide!) (by decide!)
    (by
      intro i hi
      have h2 : (exAckRequest exShort 1).lastDatagramID = 1 := by decide
      rw [h2] at hi
      have h3 : (exComplete.inBuffers 0).got = [true, true, false, false, false] := by decide!
      rw [h3]
      interval_cases i <;> rfl)

/-! ## C12: the early NACK -/

theorem rangeStart_eq_shift (x : Nat) (hx : x < 2 ^ 32) : rangeStart x = x >>> 16 := by
  unfold rangeStart
  apply Nat.eq_of_testBit_eq
  intro j
  rw [Nat.testBit_shiftRight, Nat.testBit_shiftRight, Nat.testBit_and]
  by_cases hj : j < 16
  · have hm : (0xFFFF0000 : Nat).testBit (16 + j) = true := by
      rw [show (0xFFFF0000 : Nat) = (2 ^ 16 - 1) <<< 16 by decide, Nat.testBit_shiftLeft,
        Nat.testBit_two_pow_sub_one]
      simp
      omega
    rw [hm, Bool.and_true]
  · have hlt : x < 2 ^ (16 + j) :=
      Nat.lt_of_lt_of_le hx (Nat.pow_le_pow_right (by decide) (by omega))
    rw [Nat.testBit_lt_two_pow hlt, Bool.false_and]

theorem range_decode (start end_ : Nat) (hs : start < 65536) (he : end_ < 65536) :
    rangeStart ((end_ ||| (start <<< 16)) % 2 ^ 32) = start ∧
    rangeEnd ((end_ ||| (start <<< 16)) % 2 ^ 32) = end_ := by
  rw [Nat.lor_comm]
  refine ⟨?_, pack_length start end_ hs he⟩
  rw [rangeStart_eq_shift _ (Nat.mod_lt _ (by decide))]
  exact pack_index start end_ hs he

theorem earlyNackMin_spec (got : List Bool) (m : Nat) :
    earlyNackMin got m ≤ m ∧
    (∀ j, earlyNackMin got m ≤ j → j < m → got.getD j false = false) ∧
    (earlyNackMin got m = 0 ∨ got.getD (earlyNackMin got m - 1) false = true) := by
  induction m with
  | zero => exact ⟨Nat.le_refl _, fun j _ hj => absurd hj (Nat.not_lt_zero _), Or.inl rfl⟩
  | succ m ih =>
    unfold earlyNackMin
    by_cases h : got.getD m false = false
    · rw [if_pos h]
      obtain ⟨h1, h2, h3⟩ := ih
      refine ⟨by omega, fun j hj hjm => ?_, h3⟩
      by_cases hjm2 : j = m
      · rw [hjm2]; exact h
      · exact h2 j hj (by omega)
    · rw [if_neg h]
      refine ⟨Nat.le_refl _, fun j hj hjm => by omega, Or.inr ?_⟩
      rw [Nat.add_sub_cancel]
      cases hb : got.getD m false with
      | true => rfl
      | false => exact absurd hb h

/-- What `earlyNack` emits for a fragment index below 2^16: nothing for index
0 or when the fragment below has arrived, otherwise one NACK with one range
that decodes to the maximal run of missing fragments ending at `index - 1`. -/
theorem earlyNack_spec (selfID writerID sequenceID : Nat) (got : List Bool) (index : Nat)
    (hindex : index < 65536) :
    ((index = 0 ∨ got.getD (index - 1) false = true) →
      earlyNack selfID writerID sequenceID got index = []) ∧
    ((0 < index ∧ got.getD (index - 1) false = false) →
      ∃ range, earlyNack selfID writerID sequenceID got index
          = [Out.nack selfID writerID sequenceID 1 [range]] ∧
        rangeEnd range = index - 1 ∧ rangeStart range ≤ index - 1 ∧
        (∀ j, rangeStart range ≤ j → j ≤ index - 1 → got.getD j false = false) ∧
        (rangeStart range = 0 ∨ got.getD (rangeStart range - 1) false = true)) := by
  constructor
  · intro h
    unfold earlyNack
    rcases h with h | h
    · rw [if_pos (by omega)]
    · by_cases h0 : index ≤ 0
      · rw [if_pos h0]
      · rw [if_neg h0, if_pos h]
  · rintro ⟨hpos, hgot⟩
    have hmod : (index - 1) % 65536 = index - 1 := Nat.mod_eq_of_lt (by omega)
    obtain ⟨h1, h2, h3⟩ := earlyNackMin_spec got (index - 1)
    obtain ⟨d1, d2⟩ := range_decode (earlyNackMin got (index - 1)) (index - 1) (by omega) (by omega)
    refine ⟨((index - 1) ||| (earlyNackMin got (index - 1) <<< 16)) % 2 ^ 32, ?_, d2, ?_, ?_, ?_⟩
    · unfold earlyNack
      rw [if_neg (by omega), if_neg (by rw [hgot]; exact Bool.false_ne_true)]
      simp only [hmod]
      rfl
    · rw [d1]; exact h1
    · rw [d1]
      intro j hj hj2
      by_cases hj3 : j = index - 1
      · rw [hj3]; exact hgot
      · exact h2 j hj (by omega)
    · rw [d1]; exact h3

theorem fillSlot_accepted (cfg : Config) (selfID : Nat) (c c1 : Conn) (r : Fin 4)
    (d : DatagramData) (out : List Out) (receive : InBuffer)
    (hfirst : firstDatagram c.lastSequenceIDAck (c.inBuffers r) (d.writeSeqID &&& 0xFFFF)
      = some receive)
    (hnew : receive.got.getD (d.dataIDlength >>> 16) false = false)
    (h : c.fillSlot cfg selfID r d = some (c1, out)) :
    c1.recvBuffer = c.recvBuffer ∧
    (c1.inBuffers r).got.getD (d.dataIDlength >>> 16) false = true ∧
    out = earlyNack selfID (d.writeSeqID >>> 16) (d.writeSeqID &&& 0xFFFF) (c1.inBuffers r).got
      (d.dataIDlength >>> 16) := by
  rw [fillSlot_eq, hfirst] at h
  dsimp only at h
  by_cases hlen : d.dataIDlength >>> 16 < receive.got.length
  · rw [if_pos hlen, if_neg (by rw [hnew]; exact Bool.false_ne_true)] at h
    by_cases hpay : d.dataIDlength &&& 0xFFFF ≤ d.payload.length
    · rw [if_pos hpay] at h
      simp only [Option.some.injEq, Prod.mk.injEq] at h
      obtain ⟨hc1, hout⟩ := h
      subst hc1
      simp only [Function.update_same]
      exact ⟨trivial, (store_got cfg receive _ _ d.payload hlen).1, hout.symm⟩
    · rw [if_neg hpay] at h
      cases h
  · rw [if_neg hlen] at h
    cases h

theorem acquireRecvBuffer_inBuffers (c c0 : Conn) (sequenceID : Nat) (ro : Option (Fin 4))
    (h : c.acquireRecvBuffer sequenceID = (c0, ro)) :
    c0.inBuffers = c.inBuffers ∧ c0.lastSequenceIDAck = c.lastSequenceIDAck := by
  unfold Conn.acquireRecvBuffer at h
  split at h
  · simp only [Prod.mk.injEq] at h
    rw [← h.1]
    exact ⟨rfl, rfl⟩
  · split at h
    · simp only [Prod.mk.injEq] at h
      rw [← h.1]
      exact ⟨rfl, rfl⟩
    · simp only [Prod.mk.injEq] at h
      rw [← h.1]
      exact ⟨rfl, rfl⟩

/-- What a DATA datagram that is taken in leaves behind and sends, given the
result of `_handleDataDatagram`. -/
theorem earlyNack_of_accepted (cfg : Config) (selfID : Nat) (c : Conn) (d : DatagramData)
    (hd : d.dataIDlength < 2 ^ 32) (hacc : c.accepts d = true) (r : Fin 4)
    (hslot : (c.acquireRecvBuffer (d.writeSeqID &&& 0xFFFF)).2 = some r)
    (c1 : Conn) (out : List Out) (h : c.handleDataDatagram cfg selfID d = some (c1, out)) :
    c1.recvBuffer = some r ∧
    (c1.inBuffers r).got.getD (d.dataIDlength >>> 16) false = true ∧
    ((d.dataIDlength >>> 16 = 0 ∨
        (c1.inBuffers r).got.getD (d.dataIDlength >>> 16 - 1) false = true) → out = []) ∧
    ((0 < d.dataIDlength >>> 16 ∧
        (c1.inBuffers r).got.getD (d.dataIDlength >>> 16 - 1) false = false) →
      ∃ range,
        out = [Out.nack selfID (d.writeSeqID >>> 16) (d.writeSeqID &&& 0xFFFF) 1 [range]] ∧
        rangeEnd range = d.dataIDlength >>> 16 - 1 ∧
        rangeStart range ≤ d.dataIDlength >>> 16 - 1 ∧
        (∀ j, rangeStart range ≤ j → j ≤ d.dataIDlength >>> 16 - 1 →
          (c1.inBuffers r).got.getD j false = false) ∧
        (rangeStart range = 0 ∨
          (c1.inBuffers r).got.getD (rangeStart range - 1) false = true)) := by
  have hindex : d.dataIDlength >>> 16 < 65536 := by
    rw [Nat.shiftRight_eq_div_pow]
    exact Nat.div_lt_of_lt_mul (by norm_num at hd ⊢; exact hd)
  unfold Conn.handleDataDatagram at h
  unfold Conn.accepts at hacc
  cases hq : c.acquireRecvBuffer (d.writeSeqID &&& 0xFFFF) with
  | mk c0 ro =>
    rw [hq] at h hacc hslot
    dsimp only at hslot
    subst hslot
    dsimp only at h hacc
    have hrecv : c0.recvBuffer = some r := by
      unfold Conn.acquireRecvBuffer at hq
      split at hq
      · rename_i r0 hr0
        simp only [Prod.mk.injEq, Option.some.injEq] at hq
        rw [← hq.1, hr0, hq.2]
      · split at hq
        · simp only [Prod.mk.injEq, Option.some.injEq] at hq
          rw [← hq.1, ← hq.2]
        · simp only [Prod.mk.injEq] at hq
          exact absurd hq.2 (by simp)
    cases hf : firstDatagram c0.lastSequenceIDAck (c0.inBuffers r) (d.writeSeqID &&& 0xFFFF) with
    | none => rw [hf] at hacc; exact absurd hacc Bool.false_ne_true
    | some receive =>
      rw [hf] at hacc
      dsimp only at hacc
      have hnew : receive.got.getD (d.dataIDlength >>> 16) false = false := by
        cases hb : receive.got.getD (d.dataIDlength >>> 16) false with
        | false => rfl
        | true => rw [hb] at hacc; exact absurd hacc Bool.false_ne_true
      obtain ⟨e1, e2, e3⟩ := fillSlot_accepted cfg selfID c0 c1 r d out receive hf hnew h
      obtain ⟨s1, s2⟩ := earlyNack_spec selfID (d.writeSeqID >>> 16) (d.writeSeqID &&& 0xFFFF)
        (c1.inBuffers r).got (d.dataIDlength >>> 16) hindex
      refine ⟨e1.trans hrecv, e2, fun h0 => e3.trans (s1 h0), fun h0 => ?_⟩
      obtain ⟨range, p1, p2⟩ := s2 h0
      exact ⟨range, e3.trans p1, p2⟩

/-- A DATA datagram whose fragment index lies within the `got` bitset of the
slot it goes to and whose payload holds the announced number of bytes is
handled without a read outside the buffers. -/
theorem handleDataDatagram_returns (cfg : Config) (selfID : Nat) (c : Conn) (d : DatagramData)
    (r : Fin 4) (hslot : (c.acquireRecvBuffer (d.writeSeqID &&& 0xFFFF)).2 = some r)
    (hindex : d.dataIDlength >>> 16 < (c.inBuffers r).got.length)
    (hpay : d.dataIDlength &&& 0xFFFF ≤ d.payload.length) :
    ∃ c1 out, c.handleDataDatagram cfg selfID d = some (c1, out) := by
  unfold Conn.handleDataDatagram
  cases hq : c.acquireRecvBuffer (d.writeSeqID &&& 0xFFFF) with
  | mk c0 ro =>
    rw [hq] at hslot
    dsimp only at hslot
    subst hslot
    dsimp only
    obtain ⟨hb, -⟩ := acquireRecvBuffer_inBuffers c c0 _ _ hq
    rw [fillSlot_eq]
    cases hf : firstDatagram c0.lastSequenceIDAck (c0.inBuffers r) (d.writeSeqID &&& 0xFFFF) with
    | none => exact ⟨_, _, rfl⟩
    | some receive =>
      dsimp only
      have hgot : receive.got = (c.inBuffers r).got := by
        rw [(firstDatagram_ackSend _ _ _ _ hf).2.1, hb]
      rw [hgot, if_pos hindex]
      by_cases hb2 : (c.inBuffers r).got.getD (d.dataIDlength >>> 16) false = true
      · rw [if_pos hb2]
        exact ⟨_, _, rfl⟩
      · rw [if_neg hb2, if_pos hpay]
        exact ⟨_, _, rfl⟩

/-- C12: a DATA datagram that `_handleDataDatagram` takes in (it is not dropped
as a repetition; its fragment index lies within the `got` bitset and its
payload holds the announced bytes) is handled, and then: with index 0, or with
the fragment below already there, no NACK is sent; with index above 0 and the
fragment below missing, exactly one NACK is sent, to the writer and for the
sequence of the datagram, with exactly one range `[min, index - 1]` in which
every fragment is missing and where `min` is 0 or the fragment below `min` has
arrived. -/
theorem early_nack (cfg : Config) (selfID : Nat) (c : Conn) (d : DatagramData)
    (hd : d.dataIDlength < 2 ^ 32) (hacc : c.accepts d = true) (r : Fin 4)
    (hslot : (c.acquireRecvBuffer (d.writeSeqID &&& 0xFFFF)).2 = some r)
    (hindex : d.dataIDlength >>> 16 < (c.inBuffers r).got.length)
    (hpay : d.dataIDlength &&& 0xFFFF ≤ d.payload.length) :
    ∃ c1 out, c.handleDataDatagram cfg selfID d = some (c1, out) ∧
      c1.recvBuffer = some r ∧
      (c1.inBuffers r).got.getD (d.dataIDlength >>> 16) false = true ∧
      ((d.dataIDlength >>> 16 = 0 ∨
          (c1.inBuffers r).got.getD (d.dataIDlength >>> 16 - 1) false = true) → out = []) ∧
      ((0 < d.dataIDlength >>> 16 ∧
          (c1.inBuffers r).got.getD (d.dataIDlength >>> 16 - 1) false = false) →
        ∃ range,
          out = [Out.nack selfID (d.writeSeqID >>> 16) (d.writeSeqID &&& 0xFFFF) 1 [range]] ∧
          rangeEnd range = d.dataIDlength >>> 16 - 1 ∧
          rangeStart range ≤ d.dataIDlength >>> 16 - 1 ∧
          (∀ j, rangeStart range ≤ j → j ≤ d.dataIDlength >>> 16 - 1 →
            (c1.inBuffers r).got.getD j false = false) ∧
          (rangeStart range = 0 ∨
            (c1.inBuffers r).got.getD (rangeStart range - 1) false = true)) := by
  obtain ⟨c1, out, h⟩ := handleDataDatagram_returns cfg selfID c d r hslot hindex hpay
  exact ⟨c1, out, h, earlyNack_of_accepted cfg selfID c d hd hacc r hslot c1 out h⟩

/-- Witness for C12: of a 4-fragment write, fragments 0 and 1 have arrived and
fragment 2 was dropped; the arrival of fragment 3 yields one NACK for the
range 2..2. -/
theorem early_nack_witness :
    exThree.2 = [Out.nack 2 1 1 1 [0x00020002]] ∧
    rangeStart 0x00020002 = 2 ∧ rangeEnd 0x00020002 = 2 ∧
    ∃ c1 out,
      exTwoOfFour.handleDataDatagram exCfg 2 (exFragment (exLong.take 16) 1 3) = some (c1, out) ∧
      c1.recvBuffer = some 0 ∧
      (c1.inBuffers 0).got.getD ((exFragment (exLong.take 16) 1 3).dataIDlength >>> 16)
        false = true ∧
      (((exFragment (exLong.take 16) 1 3).dataIDlength >>> 16 = 0 ∨
          (c1.inBuffers 0).got.getD
            ((exFragment (exLong.take 16) 1 3).dataIDlength >>> 16 - 1) false = true) →
        out = []) ∧
      ((0 < (exFragment (exLong.take 16) 1 3).dataIDlength >>> 16 ∧
          (c1.inBuffers 0).got.getD
            ((exFragment (exLong.take 16) 1 3).dataIDlength >>> 16 - 1) false = false) →
        ∃ range,
          out = [Out.nack 2 ((exFragment (exLong.take 16) 1 3).writeSeqID >>> 16)
            ((exFragment (exLong.take 16) 1 3).writeSeqID &&& 0xFFFF) 1 [range]] ∧
          rangeEnd range = (exFragment (exLong.take 16) 1 3).dataIDlength >>> 16 - 1 ∧
          rangeStart range ≤ (exFragment (exLong.take 16) 1 3).dataIDlength >>> 16 - 1 ∧
          (∀ j, rangeStart range ≤ j →
            j ≤ (exFragment (exLong.take 16) 1 3).dataIDlength >>> 16 - 1 →
            (c1.inBuffers 0).got.getD j false = false) ∧
          (rangeStart range = 0 ∨
            (c1.inBuffers 0).got.getD (rangeStart range - 1) false = true)) :=
  ⟨by decide!, by decide, by decide,
    early_nack exCfg 2 exTwoOfFour (exFragment (exLong.take 16) 1 3) (by decide!) (by decide!) 0
      (by decide!) (by decide!) (by decide!)⟩

/-! ## C16: a NACK fits the MTU -/

theorem scanLost_length (cfg : Config) (got : List Bool) (lastDatagramID : Nat) :
    ∀ (fuel i : Nat) (acc ranges : List Nat),
      scanLost cfg got lastDatagramID fuel i acc = some ranges →
      ranges.length ≤ max acc.length cfg.maxNAck := by
  intro fuel
  induction fuel with
  | zero =>
    intro i acc ranges h
    simp only [scanLost, Option.some.injEq] at h
    subst h
    exact Nat.le_max_left _ _
  | succ fuel ih =>
    intro i acc ranges h
    unfold scanLost at h
    by_cases h1 : lastDatagramID < i
    · rw [if_pos h1, Option.some.injEq] at h
      subst h
      exact Nat.le_max_left _ _
    · rw [if_neg h1] at h
      by_cases h2 : cfg.maxNAck ≤ acc.length
      · rw [if_pos h2, Option.some.injEq] at h
        subst h
        exact Nat.le_max_left _ _
      · rw [if_neg h2] at h
        by_cases h3 : i < got.length
        · rw [if_pos h3] at h
          by_cases h4 : got.getD i false = true
          · rw [if_pos h4] at h
            exact ih _ _ _ h
          · rw [if_neg h4] at h
            dsimp only at h
            split at h
            · have := ih _ _ _ h
              rw [List.length_append, List.length_singleton] at this
              omega
            · have := ih _ _ _ h
              rw [List.length_append, List.length_singleton] at this
              omega
        · rw [if_neg h3] at h
          cases h

/-- C16: `_maxNAck` is `(MTU - sizeof(DatagramNack)) / 4`; the scan of
`_handleAckRequest` never collects more than `_maxNAck` ranges; and when the
header fits the MTU, every NACK that `_handleAckRequest` builds from the scan
of a slot that is being filled carries as many ranges as its count field says
and has the size `count * 4 + sizeof(DatagramNack) <= MTU`. -/
theorem nack_fits_mtu (cfg : Config) (hmtu : cfg.sizeofDatagramNack ≤ cfg.mtu) (selfID : Nat)
    (c : Conn) (r : DatagramAckRequest) (k : Fin 4)
    (hfind : c.findReceiverWithSequenceID r.sequenceID = some k)
    (hack : (c.inBuffers k).ackSend = false)
    (c1 : Conn) (out : List Out) (h : c.handleAckRequest cfg selfID r = some (c1, out)) :
    cfg.maxNAck = (cfg.mtu - cfg.sizeofDatagramNack) / 4 ∧
    (∀ got lastDatagramID fuel i ranges,
      scanLost cfg got lastDatagramID fuel i [] = some ranges → ranges.length ≤ cfg.maxNAck) ∧
    ∀ readerID writerID sequenceID count ranges,
      Out.nack readerID writerID sequenceID count ranges ∈ out →
      ranges.length = count ∧ count ≤ cfg.maxNAck ∧ nackSize cfg count ≤ cfg.mtu := by
  have hscan : ∀ got lastDatagramID fuel i ranges,
      scanLost cfg got lastDatagramID fuel i [] = some ranges → ranges.length ≤ cfg.maxNAck := by
    intro got lastDatagramID fuel i ranges hs
    have := scanLost_length cfg got lastDatagramID fuel i [] ranges hs
    rw [List.length_nil, Nat.zero_max] at this
    exact this
  refine ⟨rfl, hscan, ?_⟩
  intro readerID writerID sequenceID count ranges hmem
  rw [handleAckRequest_found cfg c r k selfID hfind,
    if_neg (by rw [hack]; exact Bool.false_ne_true)] at h
  cases hs : scanLost cfg (c.inBuffers k).got r.lastDatagramID (r.lastDatagramID + 1) 0 [] with
  | none => rw [hs] at h; cases h
  | some bufferRepeatID =>
    rw [hs] at h
    dsimp only at h
    have hlen := hscan _ _ _ _ _ hs
    by_cases hpos : bufferRepeatID.length > 0
    · rw [if_pos hpos] at h
      simp only [Option.some.injEq, Prod.mk.injEq] at h
      rw [← h.2, List.mem_singleton] at hmem
      simp only [sendNack, Out.nack.injEq] at hmem
      obtain ⟨-, -, -, hcount, hranges⟩ := hmem
      have hmod : bufferRepeatID.length % 256 ≤ bufferRepeatID.length := Nat.mod_le _ _
      have hdiv : (cfg.mtu - cfg.sizeofDatagramNack) / 4 * 4 ≤ cfg.mtu - cfg.sizeofDatagramNack :=
        Nat.div_mul_le_self _ _
      have hmax : cfg.maxNAck = (cfg.mtu - cfg.sizeofDatagramNack) / 4 := rfl
      refine ⟨?_, by omega, ?_⟩
      · rw [hranges, hcount, List.length_take]
        omega
      · unfold nackSize
        omega
    · rw [if_neg hpos] at h
      simp only [Option.some.injEq, Prod.mk.injEq] at h
      rw [← h.2, List.mem_singleton] at hmem
      simp only [sendAck] at hmem
      cases hmem

/-- Witness for C16: fragment 1 of a 2-fragment write is missing when the ACK
request arrives; the NACK has one range and 12 bytes, with an MTU of 16. -/
theorem nack_fits_mtu_witness :
    (exOneOfTwo.handleAckRequest exCfg 2 (exAckRequest exShort 1)).map Prod.snd
      = some [Out.nack 2 1 1 1 [0x00010001]] ∧
    nackSize exCfg 1 = 12 ∧ exCfg.mtu = 16 ∧
    (exCfg.maxNAck = (exCfg.mtu - exCfg.sizeofDatagramNack) / 4 ∧
     (∀ got lastDatagramID fuel i ranges,
       scanLost exCfg got lastDatagramID fuel i [] = some ranges →
       ranges.length ≤ exCfg.maxNAck) ∧
     ∀ readerID writerID sequenceID count ranges,
       Out.nack readerID writerID sequenceID count ranges ∈ [Out.nack 2 1 1 1 [0x00010001]] →
       ranges.length = count ∧ count ≤ exCfg.maxNAck ∧ nackSize exCfg count ≤ exCfg.mtu) :=
  ⟨by decide!, by decide, by decide,
    nack_fits_mtu exCfg (by decide) 2 exOneOfTwo (exAckRequest exShort 1) 0 (by decide!)
      (by decide!) exOneOfTwo [Out.nack 2 1 1 1 [0x00010001]] (by rfl)⟩

/-! ## C19: counting ACKs -/

theorem findChild_lt (writerID : Nat) :
    ∀ (children : List Conn) (i : Nat), findChild children writerID = some i →
      i < children.length := by
  intro children
  induction children with
  | nil => intro i h; simp [findChild] at h
  | cons x xs ih =>
    intro i h
    unfold findChild at h
    by_cases hx : x.id = writerID
    · rw [if_pos hx, Option.some.injEq] at h
      subst h
      simp
    · rw [if_neg hx] at h
      cases hf : findChild xs writerID with
      | none => rw [hf] at h; cases h
      | some j =>
        rw [hf, Option.map_some', Option.some.injEq] at h
        subst h
        have := ih j hf
        simp only [List.length_cons]
        omega

theorem countP_set {α : Type} (p : α → Bool) :
    ∀ (l : List α) (i : Nat) (a b : α), l[i]? = some b →
      (l.set i a).countP p + (if p b = true then 1 else 0)
        = l.countP p + (if p a = true then 1 else 0) := by
  intro l
  induction l with
  | nil => intro i a b h; simp at h
  | cons x xs ih =>
    intro i a b h
    cases i with
    | zero =>
      simp only [List.getElem?_cons_zero, Option.some.injEq] at h
      subst h
      simp only [List.set_cons_zero, List.countP_cons]
      omega
    | succ i =>
      simp only [List.getElem?_cons_succ] at h
      have := ih i a b h
      simp only [List.set_cons_succ, List.countP_cons]
      omega

/-- The four ways through `_handleAck`. -/
theorem handleAck_cases (s : RSPConnection) (ack : DatagramAck) :
    ((ack.writerID ≠ s.id ∨ ack.sequenceID ≠ s.sequenceID) ∧ s.handleAck ack = (s, [], true)) ∨
    (ack.writerID = s.id ∧ ack.sequenceID = s.sequenceID ∧
      s.findConnectionWithWriterID ack.readerID = none ∧ s.handleAck ack = (s, [], false)) ∨
    (ack.writerID = s.id ∧ ack.sequenceID = s.sequenceID ∧
      ∃ i c, s.findConnectionWithWriterID ack.readerID = some i ∧ s.children[i]? = some c ∧
        c.ackReceived = ack.sequenceID ∧ s.handleAck ack = (s, [], true)) ∨
    (ack.writerID = s.id ∧ ack.sequenceID = s.sequenceID ∧
      ∃ i c, s.findConnectionWithWriterID ack.readerID = some i ∧ s.children[i]? = some c ∧
        c.ackReceived ≠ ack.sequenceID ∧
        s.handleAck ack =
          ({ s with
             children := s.children.set i { c with ackReceived := ack.sequenceID }
             numWriteAcks := s.numWriteAcks + 1
             timeouts := 0 },
           (if s.numWriteAcks + 1 = s.children.length then
              [{ type := RepeatType.done, start := 0, end_ := 0 }]
            else []),
           true)) := by
  unfold RSPConnection.handleAck
  by_cases hcur : s.isCurrentSequence ack.sequenceID ack.writerID = false
  · left
    rw [if_pos hcur]
    refine ⟨?_, rfl⟩
    simp only [RSPConnection.isCurrentSequence, Bool.and_eq_false_imp, decide_eq_true_eq,
      decide_eq_false_iff_not] at hcur
    by_cases hseq : ack.sequenceID = s.sequenceID
    · exact Or.inl (hcur hseq)
    · exact Or.inr hseq
  · right
    rw [if_neg hcur]
    simp only [RSPConnection.isCurrentSequence, Bool.not_eq_false, Bool.and_eq_true,
      decide_eq_true_eq] at hcur
    obtain ⟨hseq, hw⟩ := hcur
    cases hfind : s.findConnectionWithWriterID ack.readerID with
    | none => exact Or.inl ⟨hw, hseq, rfl, rfl⟩
    | some i =>
      right
      dsimp only
      have hlt : i < s.children.length := findChild_lt ack.readerID s.children i hfind
      have hget : s.children[i]? = some (s.children.get ⟨i, hlt⟩) := by
        rw [List.getElem?_eq_getElem hlt]; rfl
      rw [hget]
      dsimp only
      by_cases hrec : (s.children.get ⟨i, hlt⟩).ackReceived = ack.sequenceID
      · left
        rw [if_pos hrec]
        exact ⟨hw, hseq, i, _, rfl, hget, hrec, rfl⟩
      · right
        rw [if_neg hrec]
        refine ⟨hw, hseq, i, _, rfl, hget, hrec, ?_⟩
        simp only [List.length_set, ne_eq, ite_not]
        split <;> rfl

theorem handleAcks_conserve (acks : List DatagramAck) :
    ∀ s : RSPConnection,
      (s.handleAcks acks).1.numWriteAcks + (s.handleAcks acks).1.uncounted
        = s.numWriteAcks + s.uncounted := by
  induction acks with
  | nil => intro s; rfl
  | cons ack acks ih =>
    intro s
    have hstep : (s.handleAck ack).1.numWriteAcks + (s.handleAck ack).1.uncounted
        = s.numWriteAcks + s.uncounted := by
      rcases handleAck_cases s ack with ⟨-, h⟩ | ⟨-, -, -, h⟩ | ⟨-, -, i, c, -, -, -, h⟩ |
          ⟨-, hseq, i, c, -, hget, hrec, h⟩
      · rw [h]
      · rw [h]
      · rw [h]
      · rw [h]
        have hc := countP_set (fun c : Conn => decide (c.ackReceived ≠ s.sequenceID)) s.children i
          { c with ackReceived := ack.sequenceID } c hget
        have h1 : decide (c.ackReceived ≠ s.sequenceID) = true :=
          decide_eq_true (by rw [← hseq]; exact hrec)
        have h2 : decide (ack.sequenceID ≠ s.sequenceID) = true ↔ False := by
          simp [hseq]
        dsimp only at hc
        rw [if_pos h1, if_neg h2.1] at hc
        unfold RSPConnection.uncounted
        dsimp only
        omega
    show ((s.handleAck ack).1.handleAcks acks).1.numWriteAcks
        + ((s.handleAck ack).1.handleAcks acks).1.uncounted = _
    rw [ih (s.handleAck ack).1, hstep]

/-- C19: `_handleAck` counts an ACK only if it names the writer's own ID and
current sequence, comes from a known child, and that child's last counted ACK
was not for this sequence; counting adds one to `_numWriteAcks`, clears the
timeout counter and records the sequence in the child.  An ACK that is not
counted (another writer, another sequence, unknown reader, or a child already
counted) changes nothing and queues nothing; handling the same ACK again
changes nothing; over any run of ACKs the count rises by exactly the number of
children that become counted, so no child is counted twice for a sequence.
`DONE` is queued exactly when the handled ACK is counted and brings
`_numWriteAcks` to the number of children. -/
theorem ack_counting (s : RSPConnection) (ack : DatagramAck) :
    ((ack.writerID ≠ s.id ∨ ack.sequenceID ≠ s.sequenceID) →
      s.handleAck ack = (s, [], true)) ∧
    ((s.handleAck ack).1.numWriteAcks ≠ s.numWriteAcks →
      ack.writerID = s.id ∧ ack.sequenceID = s.sequenceID ∧
      (s.handleAck ack).1.numWriteAcks = s.numWriteAcks + 1 ∧
      (s.handleAck ack).1.timeouts = 0 ∧
      ∃ i c, s.findConnectionWithWriterID ack.readerID = some i ∧ s.children[i]? = some c ∧
        c.ackReceived ≠ ack.sequenceID ∧
        (s.handleAck ack).1.children
          = s.children.set i { c with ackReceived := ack.sequenceID }) ∧
    ((s.handleAck ack).1.numWriteAcks = s.numWriteAcks →
      (s.handleAck ack).1 = s ∧ (s.handleAck ack).2.1 = []) ∧
    ((s.handleAck ack).2.1 =
      if (s.handleAck ack).1.numWriteAcks ≠ s.numWriteAcks ∧
          (s.handleAck ack).1.numWriteAcks = s.children.length then
        [{ type := RepeatType.done, start := 0, end_ := 0 }]
      else []) ∧
    ((s.handleAck ack).1.handleAck ack = ((s.handleAck ack).1, [], (s.handleAck ack).2.2)) ∧
    (∀ i c, s.findConnectionWithWriterID ack.readerID = some i → s.children[i]? = some c →
      c.ackReceived = ack.sequenceID → s.handleAck ack = (s, [], true)) ∧
    (∀ acks, (s.handleAcks acks).1.numWriteAcks + (s.handleAcks acks).1.uncounted
      = s.numWriteAcks + s.uncounted) := by
  refine ⟨?_, ?_, ?_, ?_, ?_, ?_, fun acks => handleAcks_conserve acks s⟩
  · intro hne
    rcases handleAck_cases s ack with ⟨-, h⟩ | ⟨hw, hseq, -⟩ | ⟨hw, hseq, -⟩ | ⟨hw, hseq, -⟩
    · exact h
    all_goals exact absurd hseq (hne.resolve_left (fun hn => hn hw))
  · intro hne
    rcases handleAck_cases s ack with ⟨-, h⟩ | ⟨-, -, -, h⟩ | ⟨-, -, i, c, -, -, -, h⟩ |
        ⟨hw, hseq, i, c, hfind, hget, hrec, h⟩
    · rw [h] at hne; exact absurd rfl hne
    · rw [h] at hne; exact absurd rfl hne
    · rw [h] at hne; exact absurd rfl hne
    · rw [h]
      exact ⟨hw, hseq, rfl, rfl, i, c, hfind, hget, hrec, rfl⟩
  · intro heq
    rcases handleAck_cases s ack with ⟨-, h⟩ | ⟨-, -, -, h⟩ | ⟨-, -, i, c, -, -, -, h⟩ |
        ⟨-, -, i, c, -, -, -, h⟩
    · rw [h]; exact ⟨rfl, rfl⟩
    · rw [h]; exact ⟨rfl, rfl⟩
    · rw [h]; exact ⟨rfl, rfl⟩
    · rw [h] at heq
      dsimp only at heq
      omega
  · rcases handleAck_cases s ack with ⟨-, h⟩ | ⟨-, -, -, h⟩ | ⟨-, -, i, c, -, -, -, h⟩ |
        ⟨-, -, i, c, -, -, -, h⟩
    · rw [h]; simp
    · rw [h]; simp
    · rw [h]; simp
    · rw [h]
      dsimp only
      by_cases hall : s.numWriteAcks + 1 = s.children.length
      · rw [if_pos hall, if_pos ⟨by omega, hall⟩]
      · rw [if_neg hall, if_neg (fun hn => hall hn.2)]
  · rcases handleAck_cases s ack with ⟨-, h⟩ | ⟨-, -, -, h⟩ | ⟨-, -, i, c, -, -, -, h⟩ |
        ⟨hw, hseq, i, c, hfind, hget, hrec, h⟩
    · rw [h]; exact h
    · rw [h]; exact h
    · rw [h]; exact h
    · rw [h]
      dsimp only
      obtain ⟨s1, hs1⟩ : ∃ s1 : RSPConnection, s1 =
          { s with
            children := s.children.set i { c with ackReceived := ack.sequenceID }
            numWriteAcks := s.numWriteAcks + 1
            timeouts := 0 } := ⟨_, rfl⟩
      rw [← hs1]
      have hid : s1.id = s.id := by rw [hs1]
      have hsq : s1.sequenceID = s.sequenceID := by rw [hs1]
      have hch : s1.children = s.children.set i { c with ackReceived := ack.sequenceID } := by
        rw [hs1]
      have hfind1 : s1.findConnectionWithWriterID ack.readerID = some i := by
        unfold RSPConnection.findConnectionWithWriterID
        rw [hch, findChild_set ack.readerID c { c with ackReceived := ack.sequenceID } rfl
          s.children i hget]
        exact hfind
      have hlt : i < s.children.length := findChild_lt ack.readerID s.children i hfind
      have hget1 : s1.children[i]? = some { c with ackReceived := ack.sequenceID } := by
        rw [hch, List.getElem?_set_self hlt]
      rcases handleAck_cases s1 ack with ⟨hne, -⟩ | ⟨-, -, hnone, -⟩ | ⟨-, -, j, c2, -, -, -, h2⟩ |
          ⟨-, -, j, c2, hf2, hg2, hr2, -⟩
      · rw [hid, hsq] at hne
        exact absurd hseq (hne.resolve_left (fun hn => hn hw))
      · rw [hfind1] at hnone; cases hnone
      · exact h2
      · rw [hfind1, Option.some.injEq] at hf2
        subst hf2
        rw [hget1, Option.some.injEq] at hg2
        subst hg2
        exact absurd rfl hr2
  · intro i c hfind hget hrec
    rcases handleAck_cases s ack with ⟨-, h⟩ | ⟨-, -, hnone, -⟩ | ⟨-, -, j, c2, -, -, -, h⟩ |
        ⟨-, -, j, c2, hf2, hg2, hr2, -⟩
    · exact h
    · rw [hfind] at hnone; cases hnone
    · exact h
    · rw [hfind, Option.some.injEq] at hf2
      subst hf2
      rw [hget, Option.some.injEq] at hg2
      subst hg2
      exact absurd hrec hr2

/-- Witness for C19: writer 1 with the readers 2 and 3 gets the ACK of reader
2, the same ACK again and then the ACK of reader 3: two ACKs are counted and
`DONE` is queued once, with the last one. -/
theorem ack_counting_witness :
    (exAckWriter.handleAcks [exAck 2, exAck 2, exAck 3]).2
      = [{ type := RepeatType.done, start := 0, end_ := 0 }] ∧
    (exAckWriter.handleAcks [exAck 2, exAck 2, exAck 3]).1.numWriteAcks = 2 ∧
    (exAckWriter.handleAck (exAck 2)).2.1 = [] ∧
    (exAckWriter.handleAcks [exAck 2, exAck 2, exAck 3]).1.numWriteAcks
        + (exAckWriter.handleAcks [exAck 2, exAck 2, exAck 3]).1.uncounted
      = exAckWriter.numWriteAcks + exAckWriter.uncounted :=
  ⟨by decide, by decide, by decide,
    (ack_counting exAckWriter (exAck 2)).2.2.2.2.2.2 [exAck 2, exAck 2, exAck 3]⟩

/-! ## C11 and C20: stale `got` bits -/

set_option maxRecDepth 100000 in
/-- C11 fails on the code.  In the example of the claim (fragments 1 and 3 of
a 5-fragment write missing) the NACK holds the ranges 1..1 and 3..3, the runs
of missing fragments.  After `exStaleFragment` the slot filled for write 2
(2 fragments, last fragment ID 1) has got fragment 0 and, from a late copy of
fragment 4 of write 1, bit 4: the only run of missing fragments among the
fragments 0..1 is 1..1, but the NACK that answers the ACK request holds the
range 1..3. -/
theorem nack_ranges_not_missing_runs :
    (exGaps.inBuffers 0).got = [true, false, true, false, true] ∧
    (exGaps.handleAckRequest exCfg 2 (exAckRequest exLong 1)).map (fun x => x.2.map Out.ranges)
      = some [[(1, 1), (3, 3)]] ∧
    specMissingRuns (exGaps.inBuffers 0).got (exAckRequest exLong 1).lastDatagramID
      = [(1, 1), (3, 3)] ∧
    (exStale.inBuffers 1).sequenceID = 2 ∧ (exStale.inBuffers 1).ackSend = false ∧
    (exStale.inBuffers 1).got = [true, false, false, false, true] ∧
    (exAckRequest exShort 2).lastDatagramID = 1 ∧
    specMissingRuns (exStale.inBuffers 1).got (exAckRequest exShort 2).lastDatagramID
      = [(1, 1)] ∧
    (exStale.handleAckRequest exCfg 2 (exAckRequest exShort 2)).map (fun x => x.2.map Out.ranges)
      = some [[(1, 3)]] := by
  refine ⟨?_, ?_, ?_, ?_, ?_, ?_, ?_, ?_, ?_⟩ <;> decide!

set_option maxRecDepth 100000 in
/-- C20 fails on the code.  In `exStaleAdoption` the four slots are published
and unread when the repeated fragment of write 4 leaves `_recvBuffer` at
slot 3.  Fragment 0 of write 5 then starts a new sequence in slot 3: the slot
gets sequence ID 5, read position 0 and `ackSend = false`, but its `got` bits
are those of write 4, bits 0 and 1; bit 1 is set although only fragment 0 of
write 5 has been handled, and that fragment is dropped as a repetition (no
data is stored). -/
theorem adopted_slot_keeps_got_bits :
    exReceiver.viewAfter exCfg (exStaleAdoption.take 10)
      = some [([(1, true, false, 0, [true, false, false, false, false], [11]),
                (2, true, false, 0, [true, false, false, false, false], [22]),
                (3, true, false, 0, [true, false, false, false, false], [33]),
                (4, true, false, 0, [true, true, false, false, false], [41, 42, 43, 44, 45])],
               some 3, 0, 0, 4)] ∧
    (exFragment [55] 5 0).dataIDlength >>> 16 = 0 ∧
    exReceiver.viewAfter exCfg exStaleAdoption
      = some [([(1, true, false, 0, [true, false, false, false, false], [11]),
                (2, true, false, 0, [true, false, false, false, false], [22]),
                (3, true, false, 0, [true, false, false, false, false], [33]),
                (5, false, false, 0, [true, true, false, false, false], [])],
               some 3, 0, 0, 4)] := by
  refine ⟨?_, ?_, ?_⟩ <;> rfl

/-! ## C13: reassembly of slave commits -/

theorem findPending_some :
    ∀ (l : List (Nat × List SlaveDeltaPacket)) (commit i : Nat),
      findPending l commit = some i →
      ∃ pre st post, l = pre ++ (commit, st) :: post ∧ pre.length = i ∧
        ∀ e ∈ pre, e.1 ≠ commit := by
  intro l
  induction l with
  | nil => intro commit i h; simp [findPending] at h
  | cons x xs ih =>
    intro commit i h
    unfold findPending at h
    by_cases hx : x.1 = commit
    · rw [if_pos hx, Option.some.injEq] at h
      subst h
      refine ⟨[], x.2, xs, ?_, rfl, fun e he => absurd he (List.not_mem_nil e)⟩
      rw [← hx]
      rfl
    · rw [if_neg hx] at h
      cases hf : findPending xs commit with
      | none => rw [hf] at h; cases h
      | some j =>
        rw [hf, Option.map_some', Option.some.injEq] at h
        subst h
        obtain ⟨pre, st, post, h1, h2, h3⟩ := ih commit j hf
        refine ⟨x :: pre, st, post, by rw [h1]; rfl, by rw [List.length_cons, h2], ?_⟩
        intro e he
        rcases List.mem_cons.1 he with he | he
        · rw [he]; exact hx
        · exact h3 e he

theorem findPending_none :
    ∀ (l : List (Nat × List SlaveDeltaPacket)) (commit : Nat),
      findPending l commit = none → ∀ e ∈ l, e.1 ≠ commit := by
  intro l
  induction l with
  | nil => intro commit _ e he; exact absurd he (List.not_mem_nil e)
  | cons x xs ih =>
    intro commit h e he
    unfold findPending at h
    by_cases hx : x.1 = commit
    · rw [if_pos hx] at h; cases h
    · rw [if_neg hx] at h
      cases hf : findPending xs commit with
      | some j => rw [hf] at h; cases h
      | none =>
        rcases List.mem_cons.1 he with he | he
        · rw [he]; exact hx
        · exact ih commit hf e he

theorem split_at_length {α : Type} (pre : List α) (x y : α) (post : List α) :
    (pre ++ x :: post)[pre.length]? = some x ∧
    (pre ++ x :: post).eraseIdx pre.length = pre ++ post ∧
    (pre ++ x :: post).set pre.length y = pre ++ y :: post := by
  induction pre with
  | nil => exact ⟨by simp, rfl, rfl⟩
  | cons a pre ih =>
    obtain ⟨h1, h2, h3⟩ := ih
    refine ⟨?_, ?_, ?_⟩
    · rw [List.cons_append, List.length_cons, List.getElem?_cons_succ]
      exact h1
    · rw [List.cons_append, List.length_cons, List.eraseIdx_cons_succ, h2]
      rfl
    · rw [List.cons_append, List.length_cons, List.set_cons_succ, h3]
      rfl

theorem filter_commit_nil (st : List SlaveDeltaPacket) (c1 c2 : Nat) (hne : c1 ≠ c2)
    (h : ∀ p ∈ st, p.commit = c1) :
    st.filter (fun p => decide (p.commit = c2)) = [] := by
  rw [List.filter_eq_nil_iff]
  intro p hp
  rw [h p hp]
  simpa using hne

theorem filter_commit_self (st : List SlaveDeltaPacket) (c1 : Nat)
    (h : ∀ p ∈ st, p.commit = c1) :
    st.filter (fun p => decide (p.commit = c1)) = st := by
  rw [List.filter_eq_self]
  intro p hp
  simpa using h p hp

theorem filter_streams_nil (l : List (Nat × List SlaveDeltaPacket)) (commit : Nat)
    (hne : ∀ e ∈ l, e.1 ≠ commit) (hc : ∀ e ∈ l, ∀ p ∈ e.2, p.commit = e.1) :
    ((l.map Prod.snd).flatten).filter (fun p => decide (p.commit = commit)) = [] := by
  rw [List.filter_eq_nil_iff]
  intro p hp
  rw [List.mem_flatten] at hp
  obtain ⟨st, hst, hp⟩ := hp
  rw [List.mem_map] at hst
  obtain ⟨e, he, rfl⟩ := hst
  rw [hc e he p hp]
  simpa using hne e he

theorem packetsOf_eq (m : MasterCM) (commit : Nat) :
    m.packetsOf commit =
      (m.queuedDeltas.flatten).filter (fun p => decide (p.commit = commit)) ++
      ((m.pendingDeltas.map Prod.snd).flatten).filter (fun p => decide (p.commit = commit)) := by
  unfold MasterCM.packetsOf
  rw [List.flatten_append, List.filter_append]

theorem filter_split (pre post : List (Nat × List SlaveDeltaPacket))
    (e : Nat × List SlaveDeltaPacket) (commit : Nat) :
    (((pre ++ e :: post).map Prod.snd).flatten).filter (fun p => decide (p.commit = commit)) =
      ((pre.map Prod.snd).flatten).filter (fun p => decide (p.commit = commit)) ++
      (e.2.filter (fun p => decide (p.commit = commit)) ++
       ((post.map Prod.snd).flatten).filter (fun p => decide (p.commit = commit))) := by
  rw [List.map_append, List.flatten_append, List.filter_append, List.map_cons, List.flatten_cons,
    List.filter_append]

theorem filter_last (hist : List SlaveDeltaPacket) (packet : SlaveDeltaPacket) (commit : Nat) :
    (hist ++ [packet]).filter (fun p => decide (p.commit = commit)) =
      hist.filter (fun p => decide (p.commit = commit)) ++
        (if packet.commit = commit then [packet] else []) := by
  rw [List.filter_append]
  by_cases h : packet.commit = commit
  · rw [if_pos h, List.filter_cons_of_pos (by simpa using h), List.filter_nil]
  · rw [if_neg h, List.filter_cons_of_neg (by simpa using h), List.filter_nil]

/-- The step of `_cmdSlaveDelta` when a pending stream of the commit exists. -/
theorem cmdSlaveDelta_found (isReady : List SlaveDeltaPacket → Bool) (m : MasterCM)
    (packet : SlaveDeltaPacket) (pre post : List (Nat × List SlaveDeltaPacket))
    (st : List SlaveDeltaPacket)
    (hp : m.pendingDeltas = pre ++ (packet.commit, st) :: post)
    (hpre : ∀ e ∈ pre, e.1 ≠ packet.commit) :
    m.cmdSlaveDelta isReady packet =
      if isReady (st ++ [packet]) = true then
        ({ m with pendingDeltas := pre ++ post
                  queuedDeltas := m.queuedDeltas ++ [st ++ [packet]] }, true)
      else
        ({ m with pendingDeltas := pre ++ (packet.commit, st ++ [packet]) :: post }, false) := by
  have hfind : findPending m.pendingDeltas packet.commit = some pre.length := by
    rw [hp]
    clear hp
    induction pre with
    | nil => simp [findPending]
    | cons a pre ih =>
      have ha : a.1 ≠ packet.commit := hpre a (List.mem_cons_self _ _)
      have := ih (fun e he => hpre e (List.mem_cons_of_mem _ he))
      rw [List.cons_append]
      unfold findPending
      rw [if_neg ha, this]
      rfl
  obtain ⟨h1, h2, h3⟩ := split_at_length pre (packet.commit, st)
    (packet.commit, st ++ [packet]) post
  unfold MasterCM.cmdSlaveDelta
  rw [hfind]
  dsimp only
  rw [hp, h1, h2]
  simp only [Option.map_some', Option.getD_some]
  rw [h3]

/-- The step of `_cmdSlaveDelta` when no pending stream of the commit exists. -/
theorem cmdSlaveDelta_new (isReady : List SlaveDeltaPacket → Bool) (m : MasterCM)
    (packet : SlaveDeltaPacket) (hnone : findPending m.pendingDeltas packet.commit = none) :
    m.cmdSlaveDelta isReady packet =
      if isReady [packet] = true then
        ({ m with queuedDeltas := m.queuedDeltas ++ [[packet]] }, true)
      else
        ({ m with pendingDeltas := m.pendingDeltas ++ [(packet.commit, [packet])] }, false) := by
  unfold MasterCM.cmdSlaveDelta
  rw [hnone]

theorem take_snoc_le (st : List SlaveDeltaPacket) (packet : SlaveDeltaPacket) (k : Nat)
    (hk : k ≤ st.length) : (st ++ [packet]).take k = st.take k := by
  rw [List.take_append_of_le_length hk]

theorem take_snoc_all (st : List SlaveDeltaPacket) (packet : SlaveDeltaPacket) :
    (st ++ [packet]).take (st.length + 1) = st ++ [packet] := by
  rw [List.take_of_length_le (by simp)]

theorem mem_snoc_commit (st : List SlaveDeltaPacket) (packet : SlaveDeltaPacket)
    (h : ∀ p ∈ st, p.commit = packet.commit) : ∀ p ∈ st ++ [packet], p.commit = packet.commit := by
  intro p hp
  rcases List.mem_append.1 hp with hp | hp
  · exact h p hp
  · rw [List.mem_singleton.1 hp]

/-- One call of `_cmdSlaveDelta` keeps `Assembled` and touches neither the
version nor the subscribers; when it notifies, the stream of the commit, with
the packet as its last, has become ready, is at the back of the queue and no
pending stream is left for the commit; when it does not, the queue is as
before and the stream of the commit is pending, with the packet as its last. -/
theorem cmdSlaveDelta_assembled (isReady : List SlaveDeltaPacket → Bool) (m : MasterCM)
    (hist : List SlaveDeltaPacket) (packet : SlaveDeltaPacket) (h : m.Assembled isReady hist) :
    (m.cmdSlaveDelta isReady packet).1.Assembled isReady (hist ++ [packet]) ∧
    (m.cmdSlaveDelta isReady packet).1.version = m.version ∧
    (m.cmdSlaveDelta isReady packet).1.slaves = m.slaves ∧
    (m.cmdSlaveDelta isReady packet).1.slavesCount = m.slavesCount ∧
    ((m.cmdSlaveDelta isReady packet).2 = true →
      ∃ st, isReady (st ++ [packet]) = true ∧
        (m.cmdSlaveDelta isReady packet).1.queuedDeltas = m.queuedDeltas ++ [st ++ [packet]] ∧
        ∀ e ∈ (m.cmdSlaveDelta isReady packet).1.pendingDeltas, e.1 ≠ packet.commit) ∧
    ((m.cmdSlaveDelta isReady packet).2 = false →
      (m.cmdSlaveDelta isReady packet).1.queuedDeltas = m.queuedDeltas ∧
      ∃ st, isReady (st ++ [packet]) = false ∧
        (packet.commit, st ++ [packet]) ∈ (m.cmdSlaveDelta isReady packet).1.pendingDeltas) := by
  obtain ⟨hnodup, hpk, hpend, hqueued⟩ := h
  cases hfind : findPending m.pendingDeltas packet.commit with
  | some i =>
    obtain ⟨pre, st, post, hp, -, hpre⟩ := findPending_some m.pendingDeltas packet.commit i hfind
    rw [cmdSlaveDelta_found isReady m packet pre post st hp hpre]
    rw [hp, List.map_append, List.map_cons] at hnodup
    have hnd2 : (pre.map Prod.fst ++ post.map Prod.fst).Nodup :=
      hnodup.sublist (List.Sublist.append_left (List.sublist_cons_self _ _) _)
    have hpost : ∀ e ∈ post, e.1 ≠ packet.commit := by
      intro e he heq
      have h1 := (List.nodup_append.1 hnodup).2.1
      have h2 := (List.nodup_cons.1 h1).1
      have h3 : e.1 ∈ post.map Prod.fst := List.mem_map_of_mem Prod.fst he
      rw [heq] at h3
      exact h2 h3
    have hmem : ∀ e, e ∈ pre ++ post → e ∈ m.pendingDeltas := by
      intro e he
      rw [hp]
      rcases List.mem_append.1 he with he | he
      · exact List.mem_append_left _ he
      · exact List.mem_append_right _ (List.mem_cons_of_mem _ he)
    have hst := hpend (packet.commit, st) (by rw [hp]; simp)
    obtain ⟨hst1, hst2, hst3⟩ := hst
    dsimp only at hst1 hst2 hst3
    have hcpre : ∀ e ∈ pre, ∀ p ∈ e.2, p.commit = e.1 :=
      fun e he => (hpend e (hmem e (List.mem_append_left _ he))).2.1
    have hcpost : ∀ e ∈ post, ∀ p ∈ e.2, p.commit = e.1 :=
      fun e he => (hpend e (hmem e (List.mem_append_right _ he))).2.1
    have hsnoc := mem_snoc_commit st packet hst2
    have hold : ∀ commit,
        (m.queuedDeltas.flatten).filter (fun p => decide (p.commit = commit)) ++
          (((pre.map Prod.snd).flatten).filter (fun p => decide (p.commit = commit)) ++
            (st.filter (fun p => decide (p.commit = commit)) ++
              ((post.map Prod.snd).flatten).filter (fun p => decide (p.commit = commit))))
          = hist.filter (fun p => decide (p.commit = commit)) := by
      intro commit
      rw [← hpk commit, packetsOf_eq, hp, filter_split]
    by_cases hready : isReady (st ++ [packet]) = true
    · rw [if_pos hready]
      refine ⟨⟨?_, ?_, ?_, ?_⟩, rfl, rfl, rfl, fun _ => ⟨st, hready, rfl, ?_⟩,
        fun hf => absurd hf (by simp)⟩
      · show ((pre ++ post).map Prod.fst).Nodup
        rw [List.map_append]
        exact hnd2
      · intro commit
        rw [packetsOf_eq, filter_last]
        show ((m.queuedDeltas ++ [st ++ [packet]]).flatten).filter _ ++
          (((pre ++ post).map Prod.snd).flatten).filter _ = _
        rw [List.flatten_append, List.filter_append, List.map_append, List.flatten_append,
          List.filter_append, ← hold commit]
        by_cases hc : packet.commit = commit
        · subst hc
          rw [filter_streams_nil pre packet.commit hpre hcpre,
            filter_streams_nil post packet.commit hpost hcpost, if_pos rfl]
          simp only [List.flatten_cons, List.flatten_nil, List.append_nil, List.nil_append,
            List.append_assoc]
          rw [filter_commit_self _ _ hsnoc, filter_commit_self _ _ hst2]
        · rw [if_neg hc, filter_commit_nil st _ _ hc hst2]
          simp only [List.flatten_cons, List.flatten_nil, List.append_nil, List.nil_append,
            List.append_assoc]
          rw [filter_commit_nil _ _ _ hc hsnoc]
          simp only [List.nil_append]
      · intro e he
        exact hpend e (hmem e he)
      · intro s hs
        rcases List.mem_append.1 hs with hs | hs
        · exact hqueued s hs
        · rw [List.mem_singleton.1 hs]
          refine ⟨hready, by simp, ⟨packet.commit, hsnoc⟩, ?_⟩
          intro k hk hk2
          rw [List.length_append, List.length_singleton] at hk2
          rw [take_snoc_le st packet k (by omega)]
          exact hst3 k hk (by omega)
      · intro e he
        rcases List.mem_append.1 he with he | he
        · exact hpre e he
        · exact hpost e he
    · rw [if_neg hready]
      have hready2 : isReady (st ++ [packet]) = false := by
        cases hb : isReady (st ++ [packet]) with
        | true => exact absurd hb hready
        | false => rfl
      refine ⟨⟨?_, ?_, ?_, hqueued⟩, rfl, rfl, rfl, fun hf => absurd hf (by simp),
        fun _ => ⟨rfl, st, hready2, by simp⟩⟩
      · show ((pre ++ (packet.commit, st ++ [packet]) :: post).map Prod.fst).Nodup
        rw [List.map_append, List.map_cons]
        exact hnodup
      · intro commit
        rw [packetsOf_eq, filter_last]
        show (m.queuedDeltas.flatten).filter _ ++
          (((pre ++ (packet.commit, st ++ [packet]) :: post).map Prod.snd).flatten).filter _ = _
        rw [filter_split, ← hold commit]
        by_cases hc : packet.commit = commit
        · subst hc
          rw [filter_streams_nil pre packet.commit hpre hcpre,
            filter_streams_nil post packet.commit hpost hcpost, if_pos rfl,
            filter_commit_self _ _ hsnoc, filter_commit_self _ _ hst2]
          simp only [List.append_nil, List.nil_append, List.append_assoc]
        · rw [if_neg hc, filter_commit_nil st _ _ hc hst2, filter_commit_nil _ _ _ hc hsnoc]
          simp only [List.append_nil, List.nil_append]
      · intro e he
        rcases List.mem_append.1 he with he | he
        · exact hpend e (hmem e (List.mem_append_left _ he))
        · rcases List.mem_cons.1 he with he | he
          · rw [he]
            refine ⟨by simp, hsnoc, ?_⟩
            intro k hk hk2
            dsimp only at hk2 ⊢
            rw [List.length_append, List.length_singleton] at hk2
            by_cases hk3 : k ≤ st.length
            · rw [take_snoc_le st packet k hk3]
              exact hst3 k hk hk3
            · have : k = st.length + 1 := by omega
              rw [this, take_snoc_all]
              exact hready2
          · exact hpend e (hmem e (List.mem_append_right _ he))
  | none =>
    have hne := findPending_none m.pendingDeltas packet.commit hfind
    rw [cmdSlaveDelta_new isReady m packet hfind]
    have hc0 : ∀ e ∈ m.pendingDeltas, ∀ p ∈ e.2, p.commit = e.1 := fun e he => (hpend e he).2.1
    have hone : ∀ p ∈ [packet], p.commit = packet.commit := by
      intro p hp
      rw [List.mem_singleton.1 hp]
    by_cases hready : isReady [packet] = true
    · rw [if_pos hready]
      refine ⟨⟨hnodup, ?_, hpend, ?_⟩, rfl, rfl, rfl, fun _ => ⟨[], hready, rfl, hne⟩,
        fun hf => absurd hf (by simp)⟩
      · intro commit
        rw [packetsOf_eq, filter_last, ← hpk commit, packetsOf_eq]
        show ((m.queuedDeltas ++ [[packet]]).flatten).filter _ ++ _ = _
        rw [List.flatten_append, List.filter_append]
        by_cases hc : packet.commit = commit
        · subst hc
          rw [filter_streams_nil m.pendingDeltas packet.commit hne hc0, if_pos rfl]
          simp only [List.flatten_cons, List.flatten_nil, List.append_nil]
          rw [filter_commit_self _ _ hone]
        · rw [if_neg hc]
          simp only [List.flatten_cons, List.flatten_nil, List.append_nil]
          rw [filter_commit_nil _ _ _ hc hone]
          simp only [List.append_nil]
      · intro s hs
        rcases List.mem_append.1 hs with hs | hs
        · exact hqueued s hs
        · rw [List.mem_singleton.1 hs]
          refine ⟨hready, by simp, ⟨packet.commit, hone⟩, ?_⟩
          intro k hk hk2
          rw [List.length_singleton] at hk2
          omega
    · rw [if_neg hready]
      have hready2 : isReady [packet] = false := by
        cases hb : isReady [packet] with
        | true => exact absurd hb hready
        | false => rfl
      refine ⟨⟨?_, ?_, ?_, hqueued⟩, rfl, rfl, rfl, fun hf => absurd hf (by simp),
        fun _ => ⟨rfl, [], hready2, by simp⟩⟩
      · show ((m.pendingDeltas ++ [(packet.commit, [packet])]).map Prod.fst).Nodup
        rw [List.map_append, List.map_cons, List.map_nil]
        rw [List.nodup_append]
        refine ⟨hnodup, List.nodup_singleton _, ?_⟩
        intro a ha ha2
        rw [List.mem_singleton] at ha2
        rw [List.mem_map] at ha
        obtain ⟨e, he, hea⟩ := ha
        exact hne e he (hea.trans ha2)
      · intro commit
        rw [packetsOf_eq, filter_last, ← hpk commit, packetsOf_eq]
        show _ ++ (((m.pendingDeltas ++ [(packet.commit, [packet])]).map Prod.snd).flatten).filter _
          = _
        rw [List.map_append, List.flatten_append, List.filter_append]
        by_cases hc : packet.commit = commit
        · subst hc
          rw [if_pos rfl]
          simp only [List.map_cons, List.map_nil, List.flatten_cons, List.flatten_nil,
            List.append_nil]
          rw [filter_commit_self _ _ hone, List.append_assoc]
        · rw [if_neg hc]
          simp only [List.map_cons, List.map_nil, List.flatten_cons, List.flatten_nil,
            List.append_nil]
          rw [filter_commit_nil _ _ _ hc hone]
          simp only [List.append_nil]
      · intro e he
        rcases List.mem_append.1 he with he | he
        · exact hpend e he
        · rw [List.mem_singleton.1 he]
          refine ⟨by simp, hone, ?_⟩
          intro k hk hk2
          dsimp only at hk2 ⊢
          rw [List.length_singleton] at hk2
          have : k = 1 := by omega
          rw [this]
          exact hready2

theorem new_assembled (isReady : List SlaveDeltaPacket → Bool) (version : Nat) :
    (MasterCM.new version).Assembled isReady [] :=
  ⟨List.nodup_nil, fun _ => rfl, fun e he => absurd he (List.not_mem_nil e),
    fun st hst => absurd hst (List.not_mem_nil st)⟩

theorem cmdSlaveDeltas_assembled (isReady : List SlaveDeltaPacket → Bool)
    (packets : List SlaveDeltaPacket) :
    ∀ (m : MasterCM) (hist : List SlaveDeltaPacket), m.Assembled isReady hist →
      (m.cmdSlaveDeltas isReady packets).1.Assembled isReady (hist ++ packets) ∧
      (m.cmdSlaveDeltas isReady packets).1.queuedDeltas.length
        = m.queuedDeltas.length + (m.cmdSlaveDeltas isReady packets).2 ∧
      (m.cmdSlaveDeltas isReady packets).1.version = m.version ∧
      (m.cmdSlaveDeltas isReady packets).1.slaves = m.slaves ∧
      (m.cmdSlaveDeltas isReady packets).1.slavesCount = m.slavesCount := by
  induction packets with
  | nil =>
    intro m hist h
    rw [List.append_nil]
    exact ⟨h, rfl, rfl, rfl, rfl⟩
  | cons packet packets ih =>
    intro m hist h
    obtain ⟨h1, h2, h3, h4, h5, h6⟩ := cmdSlaveDelta_assembled isReady m hist packet h
    obtain ⟨g1, g2, g3, g4, g5⟩ := ih (m.cmdSlaveDelta isReady packet).1 (hist ++ [packet]) h1
    rw [List.append_assoc, List.singleton_append] at g1
    have hlen : (m.cmdSlaveDelta isReady packet).1.queuedDeltas.length
        = m.queuedDeltas.length + (if (m.cmdSlaveDelta isReady packet).2 = true then 1 else 0) := by
      cases hb : (m.cmdSlaveDelta isReady packet).2 with
      | true =>
        obtain ⟨st, -, hq, -⟩ := h5 hb
        rw [hq, List.length_append, List.length_singleton]
        rfl
      | false =>
        rw [(h6 hb).1]
        rfl
    refine ⟨g1, ?_, g3.trans h2, g4.trans h3, g5.trans h4⟩
    show ((m.cmdSlaveDelta isReady packet).1.cmdSlaveDeltas isReady packets).1.queuedDeltas.length
      = m.queuedDeltas.length + ((if (m.cmdSlaveDelta isReady packet).2 = true then 1 else 0)
        + ((m.cmdSlaveDelta isReady packet).1.cmdSlaveDeltas isReady packets).2)
    rw [g2, hlen]
    omega

/-- C13: whatever packets arrive at a new master change manager, in whatever
order, and whatever `isReady` is: no two pending streams are for the same
commit; the packets of each commit lie in the queued and pending streams
exactly as they arrived, in arrival order, each stream holding packets of one
commit only; a pending stream was not ready after any of its packets; a
queued stream became ready with its last packet and not before;
`notifyNewVersion` was called once per queued stream; the version is
untouched.  For the next packet: if it makes the stream of its commit ready,
that stream is pushed to the back of the queue, no pending stream is left for
the commit and `notifyNewVersion` is called; otherwise the queue is as before,
nothing is notified and the stream is pending with the packet as its last. -/
theorem slave_delta_reassembly (isReady : List SlaveDeltaPacket → Bool) (version : Nat)
    (packets : List SlaveDeltaPacket) (packet : SlaveDeltaPacket) :
    (((MasterCM.new version).cmdSlaveDeltas isReady packets).1.pendingDeltas.map Prod.fst).Nodup ∧
    (∀ commit, ((MasterCM.new version).cmdSlaveDeltas isReady packets).1.packetsOf commit
      = packets.filter (fun p => decide (p.commit = commit))) ∧
    (∀ e ∈ ((MasterCM.new version).cmdSlaveDeltas isReady packets).1.pendingDeltas,
      e.2 ≠ [] ∧ (∀ p ∈ e.2, p.commit = e.1) ∧
      ∀ k, 0 < k → k ≤ e.2.length → isReady (e.2.take k) = false) ∧
    (∀ st ∈ ((MasterCM.new version).cmdSlaveDeltas isReady packets).1.queuedDeltas,
      isReady st = true ∧ st ≠ [] ∧ (∃ commit, ∀ p ∈ st, p.commit = commit) ∧
      ∀ k, 0 < k → k < st.length → isReady (st.take k) = false) ∧
    ((MasterCM.new version).cmdSlaveDeltas isReady packets).2
      = ((MasterCM.new version).cmdSlaveDeltas isReady packets).1.queuedDeltas.length ∧
    ((MasterCM.new version).cmdSlaveDeltas isReady packets).1.version = version ∧
    ((((MasterCM.new version).cmdSlaveDeltas isReady packets).1.cmdSlaveDelta isReady packet).2
        = true →
      ∃ st, isReady (st ++ [packet]) = true ∧
        (((MasterCM.new version).cmdSlaveDeltas isReady packets).1.cmdSlaveDelta isReady
            packet).1.queuedDeltas
          = ((MasterCM.new version).cmdSlaveDeltas isReady packets).1.queuedDeltas
              ++ [st ++ [packet]] ∧
        ∀ e ∈ (((MasterCM.new version).cmdSlaveDeltas isReady packets).1.cmdSlaveDelta isReady
            packet).1.pendingDeltas, e.1 ≠ packet.commit) ∧
    ((((MasterCM.new version).cmdSlaveDeltas isReady packets).1.cmdSlaveDelta isReady packet).2
        = false →
      (((MasterCM.new version).cmdSlaveDeltas isReady packets).1.cmdSlaveDelta isReady
          packet).1.queuedDeltas
        = ((MasterCM.new version).cmdSlaveDeltas isReady packets).1.queuedDeltas ∧
      ∃ st, isReady (st ++ [packet]) = false ∧
        (packet.commit, st ++ [packet]) ∈
          (((MasterCM.new version).cmdSlaveDeltas isReady packets).1.cmdSlaveDelta isReady
            packet).1.pendingDeltas) := by
  obtain ⟨h, hlen, hv, -, -⟩ :=
    cmdSlaveDeltas_assembled isReady packets (MasterCM.new version) [] (new_assembled isReady version)
  rw [List.nil_append] at h
  obtain ⟨-, -, -, -, s1, s2⟩ := cmdSlaveDelta_assembled isReady
    ((MasterCM.new version).cmdSlaveDeltas isReady packets).1 packets packet h
  obtain ⟨h1, h2, h3, h4⟩ := h
  refine ⟨h1, h2, h3, h4, ?_, hv, s1, s2⟩
  rw [hlen]
  show _ = 0 + _
  rw [Nat.zero_add]

/-- Witness for C13: the three packets of commit 7 arrive in the order 2, 1, 3
at a new manager.  After the first two the stream is pending and nothing is
queued; packet 3 makes it ready: the queue then holds exactly one stream, with
the three packets in arrival order, no stream is pending, and
`notifyNewVersion` has been called once. -/
theorem slave_delta_reassembly_witness :
    ((MasterCM.new 1).cmdSlaveDeltas exIsReady (exCommit7.take 2)).1.pendingDeltas
      = [(7, exCommit7.take 2)] ∧
    ((MasterCM.new 1).cmdSlaveDeltas exIsReady (exCommit7.take 2)).1.queuedDeltas = [] ∧
    ((MasterCM.new 1).cmdSlaveDeltas exIsReady exCommit7).1.queuedDeltas = [exCommit7] ∧
    ((MasterCM.new 1).cmdSlaveDeltas exIsReady exCommit7).1.pendingDeltas = [] ∧
    ((MasterCM.new 1).cmdSlaveDeltas exIsReady exCommit7).2 = 1 ∧
    ((MasterCM.new 1).cmdSlaveDeltas exIsReady exCommit7).1.packetsOf 7 = exCommit7 :=
  ⟨by decide, by decide, by decide, by decide, by decide,
    ((slave_delta_reassembly exIsReady 1 exCommit7 { commit := 7, sequence := 1, last := false }).2.1
      7).trans (by decide)⟩

/-! ## C14 and C15: `sync` and `addOldMaster` -/

theorem unpackQueued_eq (queued : List (List SlaveDeltaPacket)) :
    unpackQueued queued = (queued, []) := by
  induction queued with
  | nil => rfl
  | cons is rest ih =>
    unfold unpackQueued
    rw [ih]

/-- C14: with `VERSION_NEXT`, `sync` takes the stream at the front of the
queue (the oldest), unpacks it and leaves the others queued (on an empty queue
the call waits in `pop`); with `VERSION_HEAD` it unpacks every queued stream,
oldest first, and leaves the queue empty, doing nothing on an empty queue.  In
both modes the returned value is `_version`, and `_version`, the pending
streams and the subscribers are unchanged. -/
theorem sync_unpacks (m : MasterCM) :
    (∀ is rest, m.queuedDeltas = is :: rest →
      m.sync SyncVersion.next = some ({ m with queuedDeltas := rest }, [is], m.version)) ∧
    (m.queuedDeltas = [] → m.sync SyncVersion.next = none) ∧
    m.sync SyncVersion.head = some ({ m with queuedDeltas := [] }, m.queuedDeltas, m.version) ∧
    (m.queuedDeltas = [] → m.sync SyncVersion.head = some (m, [], m.version)) ∧
    (∀ v m1 unpacked ret, m.sync v = some (m1, unpacked, ret) →
      ret = m.version ∧ m1.version = m.version ∧ m1.pendingDeltas = m.pendingDeltas ∧
      m1.slaves = m.slaves ∧ m1.slavesCount = m.slavesCount ∧
      unpacked ++ m1.queuedDeltas = m.queuedDeltas) := by
  have hhead : m.sync SyncVersion.head
      = some ({ m with queuedDeltas := [] }, m.queuedDeltas, m.version) := by
    unfold MasterCM.sync
    simp only [unpackQueued_eq]
  refine ⟨?_, ?_, hhead, ?_, ?_⟩
  · intro is rest h
    unfold MasterCM.sync
    simp only [h]
  · intro h
    unfold MasterCM.sync
    simp only [h]
  · intro h
    rw [hhead, h]
    cases m
    simp only at h
    subst h
    rfl
  · intro v m1 unpacked ret h
    cases v with
    | next =>
      cases hq : m.queuedDeltas with
      | nil =>
        unfold MasterCM.sync at h
        simp only [hq] at h
        cases h
      | cons is rest =>
        unfold MasterCM.sync at h
        simp only [hq, Option.some.injEq, Prod.mk.injEq] at h
        obtain ⟨h1, h2, h3⟩ := h
        subst h1 h2 h3
        exact ⟨rfl, rfl, rfl, rfl, rfl, rfl⟩
    | head =>
      rw [hhead] at h
      simp only [Option.some.injEq, Prod.mk.injEq] at h
      obtain ⟨h1, h2, h3⟩ := h
      subst h1 h2 h3
      exact ⟨rfl, rfl, rfl, rfl, rfl, List.append_nil _⟩

theorem unique_mem (x : Nat) : ∀ l : List Nat, x ∈ unique l ↔ x ∈ l := by
  intro l
  induction l with
  | nil => exact Iff.rfl
  | cons a rest ih =>
    cases rest with
    | nil => exact Iff.rfl
    | cons b rest =>
      unfold unique
      by_cases hab : a = b
      · rw [if_pos hab, ih, hab]
        simp
      · rw [if_neg hab]
        simp only [List.mem_cons] at ih ⊢
        rw [ih]

theorem unique_sorted : ∀ l : List Nat, l.Sorted (fun a b => a ≤ b) →
    (unique l).Sorted (fun a b => a < b) := by
  intro l
  induction l with
  | nil => intro _; exact List.sorted_nil
  | cons a rest ih =>
    intro h
    cases rest with
    | nil => exact List.sorted_singleton a
    | cons b rest =>
      have hrest := ih (List.Sorted.of_cons h)
      unfold unique
      by_cases hab : a = b
      · rw [if_pos hab]
        exact hrest
      · rw [if_neg hab]
        rw [List.sorted_cons]
        refine ⟨?_, hrest⟩
        intro x hx
        rw [unique_mem] at hx
        have hle := (List.sorted_cons.1 h).1
        have hb : a ≤ b := hle b (List.mem_cons_self _ _)
        rcases List.mem_cons.1 hx with hx | hx
        · omega
        · have hbx : b ≤ x := (List.sorted_cons.1 (List.Sorted.of_cons h)).1 x hx
          omega

theorem usort_sorted (l : List Nat) : (usort l).Sorted (fun a b => a < b) :=
  unique_sorted _ (List.sorted_insertionSort (fun a b => a ≤ b) l)

theorem usort_mem (x : Nat) (l : List Nat) : x ∈ usort l ↔ x ∈ l := by
  unfold usort
  rw [unique_mem]
  exact (List.perm_insertionSort (fun a b => a ≤ b) l).mem_iff

theorem sorted_lt_ext (l1 l2 : List Nat) (h1 : l1.Sorted (fun a b => a < b))
    (h2 : l2.Sorted (fun a b => a < b)) (h : ∀ x, x ∈ l1 ↔ x ∈ l2) : l1 = l2 :=
  List.eq_of_perm_of_sorted ((List.perm_ext_iff_of_nodup h1.nodup h2.nodup).2 h) h1 h2

/-- C15: after `addOldMaster` the subscriber list holds the node, is sorted
and free of duplicates, and holds the nodes it held before and no others;
if the list was sorted and already held the node it is unchanged.  The count
of the node's ID is one more than before and no other count changes; exactly
one `ObjectVersionPacket` is sent, to the node, with the given instance ID and
the current `_version`; `_version` and the streams are unchanged. -/
theorem addOldMaster_subscribes (getNodeID : Nat → Nat) (m : MasterCM) (node instanceID : Nat) :
    node ∈ (m.addOldMaster getNodeID node instanceID).1.slaves ∧
    (m.addOldMaster getNodeID node instanceID).1.slaves.Sorted (fun a b => a < b) ∧
    (m.addOldMaster getNodeID node instanceID).1.slaves.Nodup ∧
    (∀ x, x ∈ (m.addOldMaster getNodeID node instanceID).1.slaves ↔ x ∈ m.slaves ∨ x = node) ∧
    (m.slaves.Sorted (fun a b => a < b) → node ∈ m.slaves →
      (m.addOldMaster getNodeID node instanceID).1.slaves = m.slaves) ∧
    (m.addOldMaster getNodeID node instanceID).1.slavesCount (getNodeID node)
      = m.slavesCount (getNodeID node) + 1 ∧
    (∀ id, id ≠ getNodeID node →
      (m.addOldMaster getNodeID node instanceID).1.slavesCount id = m.slavesCount id) ∧
    (m.addOldMaster getNodeID node instanceID).2
      = [(node, { instanceID := instanceID, version := m.version })] ∧
    (m.addOldMaster getNodeID node instanceID).1.version = m.version ∧
    (m.addOldMaster getNodeID node instanceID).1.pendingDeltas = m.pendingDeltas ∧
    (m.addOldMaster getNodeID node instanceID).1.queuedDeltas = m.queuedDeltas := by
  have hmem : ∀ x, x ∈ usort (m.slaves ++ [node]) ↔ x ∈ m.slaves ∨ x = node := by
    intro x
    rw [usort_mem, List.mem_append, List.mem_singleton]
  have hsorted := usort_sorted (m.slaves ++ [node])
  refine ⟨(hmem node).2 (Or.inr rfl), hsorted, hsorted.nodup, hmem, ?_, ?_, ?_, rfl, rfl, rfl, rfl⟩
  · intro hs hn
    apply sorted_lt_ext _ _ hsorted hs
    intro x
    show x ∈ usort (m.slaves ++ [node]) ↔ x ∈ m.slaves
    rw [hmem x]
    constructor
    · rintro (h | h)
      · exact h
      · rw [h]; exact hn
    · exact Or.inl
  · show Function.update m.slavesCount (getNodeID node) _ (getNodeID node) = _
    rw [Function.update_same]
  · intro id hid
    show Function.update m.slavesCount (getNodeID node) _ id = _
    rw [Function.update_noteq hid]

/-- Witness for C14: with the stream of commit 7 queued, `sync` with
`VERSION_NEXT` unpacks it and leaves the queue empty; `sync` with
`VERSION_HEAD` then returns the version at once and changes nothing. -/
theorem sync_unpacks_witness :
    exQueued.sync SyncVersion.next
      = some ({ exQueued with queuedDeltas := [] }, [exCommit7], exQueued.version) ∧
    ({ exQueued with queuedDeltas := [] } : MasterCM).sync SyncVersion.head
      = some ({ exQueued with queuedDeltas := [] },
              [], ({ exQueued with queuedDeltas := [] } : MasterCM).version) :=
  ⟨(sync_unpacks exQueued).1 exCommit7 [] (by decide),
    (sync_unpacks { exQueued with queuedDeltas := [] }).2.2.2.1 rfl⟩

/-- Witness for C15: node 5 is added to the subscribers 2, 5, 9, which stay as
they are, and node 4 is added, which gives 2, 4, 5, 9; the packet sent
carries instance ID 7 and version 3. -/
theorem addOldMaster_subscribes_witness :
    (exSubscribed.addOldMaster (fun n => n) 5 7).1.slaves = exSubscribed.slaves ∧
    (exSubscribed.addOldMaster (fun n => n) 4 7).1.slaves = [2, 4, 5, 9] ∧
    (exSubscribed.addOldMaster (fun n => n) 4 7).2 = [(4, { instanceID := 7, version := 3 })] ∧
    (exSubscribed.addOldMaster (fun n => n) 4 7).1.slavesCount 4 = 1 :=
  ⟨(addOldMaster_subscribes (fun n => n) exSubscribed 5 7).2.2.2.2.1 (by decide) (by decide),
    by decide, by decide, by decide⟩

/-! ## The scan of an ACK request against the runs of missing fragments -/

theorem firstGot_some (got : List Bool) :
    ∀ (n i j : Nat), i + n = got.length → firstGot (got.drop i) i = some j →
      i ≤ j ∧ j < got.length ∧ got.getD j false = true ∧
      ∀ t, i ≤ t → t < j → got.getD t false = false := by
  intro n
  induction n with
  | zero =>
    intro i j hn h
    rw [List.drop_of_length_le (by omega)] at h
    cases h
  | succ n ih =>
    intro i j hn h
    have hi : i < got.length := by omega
    rw [List.drop_eq_getElem_cons hi] at h
    cases hb : got[i] with
    | true =>
      rw [hb] at h
      simp only [firstGot, Option.some.injEq] at h
      subst h
      refine ⟨Nat.le_refl _, hi, ?_, fun t h1 h2 => by omega⟩
      rw [List.getD_eq_getElem _ _ hi, hb]
    | false =>
      rw [hb] at h
      simp only [firstGot] at h
      obtain ⟨h1, h2, h3, h4⟩ := ih (i + 1) j (by omega) h
      refine ⟨by omega, h2, h3, fun t ht1 ht2 => ?_⟩
      by_cases hti : t = i
      · rw [hti, List.getD_eq_getElem _ _ hi, hb]
      · exact h4 t (by omega) ht2

theorem firstGot_none (got : List Bool) :
    ∀ (n i : Nat), i + n = got.length → firstGot (got.drop i) i = none →
      ∀ t, i ≤ t → got.getD t false = false := by
  intro n
  induction n with
  | zero =>
    intro i hn _ t ht
    exact List.getD_eq_default _ _ (by omega)
  | succ n ih =>
    intro i hn h t ht
    have hi : i < got.length := by omega
    rw [List.drop_eq_getElem_cons hi] at h
    cases hb : got[i] with
    | true =>
      rw [hb] at h
      simp only [firstGot] at h
      cases h
    | false =>
      rw [hb] at h
      simp only [firstGot] at h
      by_cases hti : t = i
      · rw [hti, List.getD_eq_getElem _ _ hi, hb]
      · exact ih (i + 1) (by omega) h t (by omega)

theorem specMissingRunsFrom_false (got : List Bool) (n i : Nat) (run : Option Nat)
    (h : got.getD i false = false) :
    specMissingRunsFrom got (n + 1) i run
      = specMissingRunsFrom got n (i + 1) (some (run.getD i)) := by
  conv_lhs => rw [specMissingRunsFrom.eq_def]
  simp only [h, Bool.false_eq_true, if_false]

theorem specMissingRunsFrom_true (got : List Bool) (n i : Nat) (h : got.getD i false = true) :
    specMissingRunsFrom got (n + 1) i none = specMissingRunsFrom got n (i + 1) none ∧
    ∀ start, specMissingRunsFrom got (n + 1) i (some start)
      = (start, i - 1) :: specMissingRunsFrom got n (i + 1) none := by
  constructor
  · conv_lhs => rw [specMissingRunsFrom.eq_def]
    simp only [h, if_true]
  · intro start
    conv_lhs => rw [specMissingRunsFrom.eq_def]
    simp only [h, if_true]

theorem specMissingRunsFrom_skip (got : List Bool) :
    ∀ (d i n : Nat) (run : Option Nat),
      (∀ t, i ≤ t → t ≤ i + d → got.getD t false = false) →
      specMissingRunsFrom got (d + 1 + n) i run
        = specMissingRunsFrom got n (i + d + 1) (some (run.getD i)) := by
  intro d
  induction d with
  | zero =>
    intro i n run h
    rw [Nat.zero_add, Nat.add_comm 1 n,
      specMissingRunsFrom_false got n i run (h i (Nat.le_refl _) (by omega))]
  | succ d ih =>
    intro i n run h
    have h0 : got.getD i false = false := h i (Nat.le_refl _) (by omega)
    rw [show d + 1 + 1 + n = (d + 1 + n) + 1 by omega, specMissingRunsFrom_false got _ i run h0,
      ih (i + 1) n (some (run.getD i)) (fun t h1 h2 => h t (by omega) (by omega)),
      show i + 1 + d + 1 = i + (d + 1) + 1 by omega]
    rfl

theorem scanLost_succ (cfg : Config) (got : List Bool) (lastDatagramID fuel i : Nat)
    (acc : List Nat) :
    scanLost cfg got lastDatagramID (fuel + 1) i acc =
      if lastDatagramID < i then some acc
      else if cfg.maxNAck ≤ acc.length then some acc
      else if i < got.length then
        if got.getD i false = true then scanLost cfg got lastDatagramID fuel (i + 1) acc
        else
          match firstGot (got.drop i) i with
          | some j =>
            scanLost cfg got lastDatagramID fuel (j + 1)
              (acc ++ [((j - 1) % 2 ^ 32) ||| ((i <<< 16) % 2 ^ 32)])
          | none =>
            scanLost cfg got lastDatagramID fuel (got.length + 1)
              (acc ++ [lastDatagramID ||| ((i <<< 16) % 2 ^ 32)])
      else none := rfl

theorem scanLost_beyond (cfg : Config) (got : List Bool) (lastDatagramID fuel i : Nat)
    (acc : List Nat) (h : lastDatagramID < i) :
    scanLost cfg got lastDatagramID fuel i acc = some acc := by
  cases fuel with
  | zero => rfl
  | succ fuel => rw [scanLost_succ, if_pos h]

theorem scan_range_decode (start end_ : Nat) (hs : start < 65536) (he : end_ < 65536) :
    rangeStart ((end_ % 2 ^ 32) ||| ((start <<< 16) % 2 ^ 32)) = start ∧
    rangeEnd ((end_ % 2 ^ 32) ||| ((start <<< 16) % 2 ^ 32)) = end_ ∧
    rangeStart (end_ ||| ((start <<< 16) % 2 ^ 32)) = start ∧
    rangeEnd (end_ ||| ((start <<< 16) % 2 ^ 32)) = end_ := by
  have h1 : end_ % 2 ^ 32 = end_ := Nat.mod_eq_of_lt (by omega)
  have h2 : (start <<< 16) % 2 ^ 32 = start <<< 16 := by
    apply Nat.mod_eq_of_lt
    rw [Nat.shiftLeft_eq]
    omega
  have h3 : end_ ||| (start <<< 16) = (end_ ||| (start <<< 16)) % 2 ^ 32 := by
    symm
    apply Nat.mod_eq_of_lt
    rw [Nat.lor_comm, pack_eq_add start end_ he]
    omega
  obtain ⟨d1, d2⟩ := range_decode start end_ hs he
  rw [h1, h2, h3]
  exact ⟨d1, d2, d1, d2⟩

/-- The scan of `_handleAckRequest` against the ranges the specification asks
for: when no `got` bit above the last fragment ID is set and the ranges fit
the NACK, the scan from fragment `i` on adds exactly the maximal runs of
missing fragments among `i..lastDatagramID`, in increasing order. -/
theorem scanLost_runs (cfg : Config) (got : List Bool) (lastDatagramID : Nat)
    (hlast : lastDatagramID < got.length) (hlen : got.length ≤ 65536)
    (hclean : ∀ j, lastDatagramID < j → got.getD j false = false) :
    ∀ (n i fuel : Nat) (acc : List Nat), i + n = lastDatagramID + 1 → n ≤ fuel →
      acc.length + (specMissingRunsFrom got n i none).length ≤ cfg.maxNAck →
      (scanLost cfg got lastDatagramID fuel i acc).map
          (List.map (fun r => (rangeStart r, rangeEnd r)))
        = some (acc.map (fun r => (rangeStart r, rangeEnd r))
            ++ specMissingRunsFrom got n i none) := by
  intro n
  induction n using Nat.strong_induction_on with
  | _ n ih =>
    intro i fuel acc hin hfuel hcap
    cases n with
    | zero =>
      rw [scanLost_beyond cfg got lastDatagramID fuel i acc (by omega)]
      simp only [specMissingRunsFrom, List.append_nil, Option.map_some']
    | succ n =>
      obtain ⟨f, rfl⟩ : ∃ f, fuel = f + 1 := ⟨fuel - 1, by omega⟩
      rw [scanLost_succ, if_neg (by omega)]
      by_cases hmax : cfg.maxNAck ≤ acc.length
      · rw [if_pos hmax]
        have hnil : specMissingRunsFrom got (n + 1) i none = [] :=
          List.length_eq_zero.1 (by omega)
        rw [hnil, List.append_nil, Option.map_some']
      · rw [if_neg hmax, if_pos (by omega)]
        by_cases hb : got.getD i false = true
        · rw [if_pos hb, (specMissingRunsFrom_true got n i hb).1]
          rw [(specMissingRunsFrom_true got n i hb).1] at hcap
          exact ih n (Nat.lt_succ_self n) (i + 1) f acc (by omega) (by omega) hcap
        · rw [if_neg hb]
          have hb2 : got.getD i false = false := by
            cases hx : got.getD i false with
            | true => exact absurd hx hb
            | false => rfl
          cases hf : firstGot (got.drop i) i with
          | some j =>
            dsimp only
            obtain ⟨h1, h2, h3, h4⟩ :=
              firstGot_some got (got.length - i) i j (by omega) hf
            have hij : i < j := by
              rcases Nat.lt_or_ge i j with h | h
              · exact h
              · have : i = j := by omega
                rw [this, h3] at hb2
                exact absurd hb2 (by simp)
            have hjl : j ≤ lastDatagramID := by
              by_contra hn
              have := hclean j (by omega)
              rw [h3] at this
              exact absurd this (by simp)
            obtain ⟨d, hd⟩ : ∃ d, j = i + d + 1 := ⟨j - i - 1, by omega⟩
            obtain ⟨m, hm⟩ : ∃ m, n + 1 = d + 1 + (m + 1) := ⟨lastDatagramID - j, by omega⟩
            have hspec : specMissingRunsFrom got (n + 1) i none
                = (i, j - 1) :: specMissingRunsFrom got m (j + 1) none := by
              rw [hm, specMissingRunsFrom_skip got d i (m + 1) none
                (fun t ht1 ht2 => h4 t ht1 (by omega)), ← hd]
              exact (specMissingRunsFrom_true got m j h3).2 i
            rw [hspec] at hcap ⊢
            rw [List.length_cons] at hcap
            have hrec := ih m (by omega) (j + 1) f
              (acc ++ [((j - 1) % 2 ^ 32) ||| ((i <<< 16) % 2 ^ 32)]) (by omega) (by omega)
              (by rw [List.length_append, List.length_singleton]; omega)
            rw [hrec]
            obtain ⟨e1, e2, -, -⟩ := scan_range_decode i (j - 1) (by omega) (by omega)
            simp only [List.map_append, List.map_cons, List.map_nil, e1, e2, List.append_assoc,
              List.singleton_append]
          | none =>
            dsimp only
            have hall := firstGot_none got (got.length - i) i (by omega) hf
            obtain ⟨d, hd⟩ : ∃ d, lastDatagramID = i + d := ⟨lastDatagramID - i, by omega⟩
            have hspec : specMissingRunsFrom got (n + 1) i none = [(i, lastDatagramID)] := by
              rw [show n + 1 = d + 1 + 0 by omega, specMissingRunsFrom_skip got d i 0 none
                (fun t ht1 _ => hall t ht1), ← hd]
              rfl
            rw [hspec, scanLost_beyond cfg got lastDatagramID f (got.length + 1) _ (by omega)]
            obtain ⟨-, -, e3, e4⟩ := scan_range_decode i lastDatagramID (by omega) (by omega)
            simp only [Option.map_some', List.map_append, List.map_cons, List.map_nil, e3, e4]

/-- The NACK of `_handleAckRequest` against the ranges the specification asks
for: for a slot that is being filled, with no `got` bit set above the last
fragment ID, at least one and fewer than 256 runs of missing fragments, and
no more runs than `_maxNAck`, the request is answered by one NACK whose ranges
are exactly the maximal runs of missing fragments among `0..lastDatagramID`,
in increasing order. -/
theorem handleAckRequest_missing_runs (cfg : Config) (selfID : Nat) (c : Conn)
    (r : DatagramAckRequest) (k : Fin 4)
    (hfind : c.findReceiverWithSequenceID r.sequenceID = some k)
    (hack : (c.inBuffers k).ackSend = false)
    (hlast : r.lastDatagramID < (c.inBuffers k).got.length)
    (hlen : (c.inBuffers k).got.length ≤ 65536)
    (hclean : ∀ j, r.lastDatagramID < j → (c.inBuffers k).got.getD j false = false)
    (hsome : specMissingRuns (c.inBuffers k).got r.lastDatagramID ≠ [])
    (hcap : (specMissingRuns (c.inBuffers k).got r.lastDatagramID).length ≤ cfg.maxNAck)
    (hcount : (specMissingRuns (c.inBuffers k).got r.lastDatagramID).length < 256) :
    ∃ nack, c.handleAckRequest cfg selfID r = some (c, [nack]) ∧
      nack.ranges = specMissingRuns (c.inBuffers k).got r.lastDatagramID := by
  have hscan := scanLost_runs cfg (c.inBuffers k).got r.lastDatagramID hlast hlen hclean
    (r.lastDatagramID + 1) 0 (r.lastDatagramID + 1) [] (by omega) (Nat.le_refl _)
    (by rw [List.length_nil, Nat.zero_add]; exact hcap)
  rw [List.map_nil, List.nil_append] at hscan
  rw [handleAckRequest_found cfg c r k selfID hfind,
    if_neg (by rw [hack]; exact Bool.false_ne_true)]
  cases hs : scanLost cfg (c.inBuffers k).got r.lastDatagramID (r.lastDatagramID + 1) 0 [] with
  | none => rw [hs] at hscan; cases hscan
  | some bufferRepeatID =>
    rw [hs, Option.map_some', Option.some.injEq] at hscan
    have hl : bufferRepeatID.length
        = (specMissingRuns (c.inBuffers k).got r.lastDatagramID).length := by
      unfold specMissingRuns
      rw [← hscan, List.length_map]
    have hpos : bufferRepeatID.length > 0 := by
      rw [hl]
      exact List.length_pos.2 hsome
    dsimp only
    rw [if_pos hpos]
    refine ⟨_, rfl, ?_⟩
    have hmod : bufferRepeatID.length % 256 = bufferRepeatID.length :=
      Nat.mod_eq_of_lt (by omega)
    simp only [sendNack, Out.ranges, hmod, List.take_length]
    exact hscan

/-! ## Released slots have no `got` bit set -/

/-- A property of connections that holds of a new connection and is kept by
the handling of DATA datagrams and ACK requests, by reads and by `close` holds
of every child in every reachable state. -/
theorem reachable_children (cfg : Config) (P : Conn → Prop)
    (hfresh : ∀ id, P (Conn.fresh cfg id))
    (hdata : ∀ (selfID : Nat) (c c1 : Conn) (d : DatagramData) (out : List Out),
      P c → c.handleDataDatagram cfg selfID d = some (c1, out) → P c1)
    (hreq : ∀ (selfID : Nat) (c c1 : Conn) (r : DatagramAckRequest) (out : List Out),
      P c → c.handleAckRequest cfg selfID r = some (c1, out) → P c1)
    (hread : ∀ (c : Conn) (bytes : Nat) (res : ReadResult),
      P c → c.readSync cfg bytes = some res → P res.conn)
    (hclose : ∀ c : Conn, P c → P (c.close cfg))
    (s : RSPConnection) (hs : Reachable cfg s) : ∀ c ∈ s.children, P c := by
  induction hs with
  | init id ids =>
    intro c hc
    simp only [RSPConnection.listening, List.mem_map] at hc
    obtain ⟨i, -, rfl⟩ := hc
    exact hfresh i
  | @step s s1 out bytes e _ hstep ih =>
    intro c hc
    cases e with
    | data d =>
      simp only [RSPConnection.step, RSPConnection.handleDataDatagram] at hstep
      split at hstep
      · cases hstep; exact ih c hc
      · split at hstep
        · cases hstep; exact ih c hc
        · rename_i i c0 hc0
          split at hstep
          · cases hstep
          · rename_i c1 out1 hh
            cases hstep
            rcases List.mem_or_eq_of_mem_set hc with h | h
            · exact ih c h
            · subst h
              exact hdata s.id c0 c d out1 (ih c0 (List.getElem?_mem hc0)) hh
    | ackRequest r =>
      simp only [RSPConnection.step, RSPConnection.handleAckRequest] at hstep
      split at hstep
      · cases hstep; exact ih c hc
      · split at hstep
        · cases hstep; exact ih c hc
        · rename_i i c0 hc0
          split at hstep
          · cases hstep
          · rename_i c1 out1 hh
            cases hstep
            rcases List.mem_or_eq_of_mem_set hc with h | h
            · exact ih c h
            · subst h
              exact hreq s.id c0 c r out1 (ih c0 (List.getElem?_mem hc0)) hh
    | read i n =>
      simp only [RSPConnection.step, RSPConnection.readChild] at hstep
      split at hstep
      · cases hstep
      · rename_i c0 hc0
        split at hstep
        · cases hstep
        · rename_i res hh
          cases hstep
          rcases List.mem_or_eq_of_mem_set hc with h | h
          · exact ih c h
          · subst h
            exact hread c0 n res (ih c0 (List.getElem?_mem hc0)) hh
    | close i =>
      simp only [RSPConnection.step, RSPConnection.closeChild] at hstep
      cases hstep
      split at hc
      · exact ih c hc
      · rename_i c0 hc0
        rcases List.mem_or_eq_of_mem_set hc with h | h
        · exact ih c h
        · subst h
          exact hclose c0 (ih c0 (List.getElem?_mem hc0))

theorem replicate_getD_false (n j : Nat) : (List.replicate n false).getD j false = false := by
  by_cases hj : j < n
  · rw [List.getD_eq_getElem _ _ (by rw [List.length_replicate]; exact hj)]
    exact List.getElem_replicate _ _
  · exact List.getD_eq_default _ _ (by rw [List.length_replicate]; omega)

theorem fresh_releasedClear (cfg : Config) (id : Nat) : (Conn.fresh cfg id).ReleasedClear := by
  intro k _ _ j
  exact replicate_getD_false cfg.ackFreq j

theorem handleDataDatagram_releasedClear (cfg : Config) (selfID : Nat) (c c1 : Conn)
    (d : DatagramData) (out : List Out) (hinv : c.ReleasedClear)
    (h : c.handleDataDatagram cfg selfID d = some (c1, out)) : c1.ReleasedClear := by
  unfold Conn.handleDataDatagram at h
  cases hq : c.acquireRecvBuffer (d.writeSeqID &&& 0xFFFF) with
  | mk c0 ro =>
    rw [hq] at h
    have hb := (acquireRecvBuffer_inBuffers c c0 _ ro hq).1
    have hinv0 : c0.ReleasedClear := by
      intro k h1 h2 j
      rw [hb] at h1 h2 ⊢
      exact hinv k h1 h2 j
    cases ro with
    | none =>
      simp only [Option.some.injEq, Prod.mk.injEq] at h
      rw [← h.1]
      exact hinv0
    | some r =>
      dsimp only at h
      obtain ⟨-, -, -, -, -, -, hothers, hself⟩ := fillSlot_frame cfg selfID c0 c1 r d out h
      intro k h1 h2 j
      by_cases hkr : k = r
      · rcases hself with hs | hs
        · rw [hkr, hs] at h1
          exact absurd h1 Bool.false_ne_true
        · rw [hs] at h1 h2 ⊢
          exact hinv0 k h1 h2 j
      · rw [hothers k hkr] at h1 h2 ⊢
        exact hinv0 k h1 h2 j

theorem handleAckRequest_releasedClear (cfg : Config) (selfID : Nat) (c c1 : Conn)
    (r : DatagramAckRequest) (out : List Out) (hinv : c.ReleasedClear)
    (h : c.handleAckRequest cfg selfID r = some (c1, out)) : c1.ReleasedClear := by
  cases hfind : c.findReceiverWithSequenceID r.sequenceID with
  | none =>
    unfold Conn.handleAckRequest at h
    rw [hfind] at h
    cases h
    exact hinv
  | some k =>
    rw [handleAckRequest_found cfg c r k selfID hfind] at h
    split at h
    · cases h; exact hinv
    · split at h
      · cases h
      · split at h
        · cases h; exact hinv
        · cases h
          intro j h1 h2 t
          by_cases hjk : j = k
          · subst hjk
            simp only [Function.update_same] at h2
            exact absurd h2 Bool.false_ne_true
          · simp only [Function.update_noteq hjk] at h1 h2 ⊢
            exact hinv j h1 h2 t

theorem readSync_releasedClear (cfg : Config) (c : Conn) (bytes : Nat) (res : ReadResult)
    (hinv : c.ReleasedClear) (h : c.readSync cfg bytes = some res) :
    res.conn.ReleasedClear := by
  unfold Conn.readSync at h
  simp only at h
  split at h
  · rename_i hpub
    cases h
    unfold Conn.readSyncSlot
    simp only
    split
    · intro j h1 h2 t
      by_cases hjk : j = c.readBufferIndex
      · subst hjk
        simp only [Function.update_same]
        exact replicate_getD_false _ t
      · simp only [Function.update_noteq hjk] at h1 h2 ⊢
        exact hinv j h1 h2 t
    · intro j h1 h2 t
      by_cases hjk : j = c.readBufferIndex
      · subst hjk
        simp only [Function.update_same] at h2
        rw [hpub.2] at h2
        exact absurd h2 Bool.false_ne_true
      · simp only [Function.update_noteq hjk] at h1 h2 ⊢
        exact hinv j h1 h2 t
  · cases h

theorem close_releasedClear (cfg : Config) (c : Conn) (hinv : c.ReleasedClear) :
    (c.close cfg).ReleasedClear := by
  unfold Conn.close
  split
  · exact hinv
  · intro j _ _ t
    exact replicate_getD_false cfg.ackFreq t

/-- In every reachable state, a slot that is acknowledged and read has no
`got` bit set. -/
theorem reachable_releasedClear (cfg : Config) (s : RSPConnection) (hs : Reachable cfg s) :
    ∀ c ∈ s.children, c.ReleasedClear :=
  reachable_children cfg Conn.ReleasedClear (fresh_releasedClear cfg)
    (handleDataDatagram_releasedClear cfg) (handleAckRequest_releasedClear cfg)
    (readSync_releasedClear cfg) (close_releasedClear cfg) s hs

/-- Adoption of a released slot: in every reachable state, when the DATA
datagram of a new sequence goes to a slot with `ackSend` and `allRead` set,
the slot afterwards has the new sequence ID, read position 0,
`ackSend = false`, and no `got` bit set but that of the fragment. -/
theorem adoption_of_released_slot (cfg : Config) (s : RSPConnection) (hs : Reachable cfg s)
    (c : Conn) (hc : c ∈ s.children) (selfID : Nat) (d : DatagramData) (c0 c1 : Conn)
    (r : Fin 4) (out : List Out)
    (hacq : c.acquireRecvBuffer (d.writeSeqID &&& 0xFFFF) = (c0, some r))
    (hsend : (c.inBuffers r).ackSend = true) (hall : (c.inBuffers r).allRead = true)
    (hnew : firstDatagram c.lastSequenceIDAck (c.inBuffers r) (d.writeSeqID &&& 0xFFFF) ≠ none)
    (h : c.handleDataDatagram cfg selfID d = some (c1, out)) :
    (c1.inBuffers r).sequenceID = d.writeSeqID &&& 0xFFFF ∧ (c1.inBuffers r).readPos = 0 ∧
    (c1.inBuffers r).ackSend = false ∧
    ∀ j, (c1.inBuffers r).got.getD j false = decide (j = d.dataIDlength >>> 16) := by
  have hclear := reachable_releasedClear cfg s hs c hc r hsend hall
  obtain ⟨hb, hl⟩ := acquireRecvBuffer_inBuffers c c0 _ _ hacq
  unfold Conn.handleDataDatagram at h
  rw [hacq] at h
  dsimp only at h
  rw [fillSlot_eq, hb, hl] at h
  have hfirst : firstDatagram c.lastSequenceIDAck (c.inBuffers r) (d.writeSeqID &&& 0xFFFF)
      = some ((c.inBuffers r).startSequence (d.writeSeqID &&& 0xFFFF)) := by
    unfold firstDatagram at hnew ⊢
    rw [if_pos hsend] at hnew ⊢
    split
    · rename_i h1; rw [if_pos h1] at hnew; exact absurd rfl hnew
    · rename_i h1
      rw [if_neg h1] at hnew
      split
      · rename_i h2; rw [if_pos h2] at hnew; exact absurd rfl hnew
      · rfl
  rw [hfirst] at h
  dsimp only at h
  have hgot : ((c.inBuffers r).startSequence (d.writeSeqID &&& 0xFFFF)).got
      = (c.inBuffers r).got := rfl
  by_cases hlen : d.dataIDlength >>> 16 < (c.inBuffers r).got.length
  · rw [hgot, if_pos hlen, if_neg (by rw [hclear]; exact Bool.false_ne_true)] at h
    by_cases hpay : d.dataIDlength &&& 0xFFFF ≤ d.payload.length
    · rw [if_pos hpay] at h
      simp only [Option.some.injEq, Prod.mk.injEq] at h
      rw [← h.1]
      simp only [Function.update_same]
      refine ⟨rfl, rfl, rfl, fun j => ?_⟩
      simp only [InBuffer.store, InBuffer.startSequence, List.getD_eq_getElem?_getD,
        List.getElem?_set]
      by_cases hj : d.dataIDlength >>> 16 = j
      · subst hj
        simp [hlen]
      · rw [if_neg hj]
        have := hclear j
        rw [List.getD_eq_getElem?_getD] at this
        rw [this]
        symm
        simpa using fun hjj => hj hjj.symm
    · rw [if_neg hpay] at h
      cases h
  · rw [hgot, if_neg hlen] at h
    cases h

/-! ## C21: which requests the merge loop merges -/

theorem mergeCandidate_cons (old candidate : RepeatRequest) (rest : List RepeatRequest) :
    mergeCandidate (old :: rest) candidate =
      if overlaps old candidate = true then hull old candidate :: rest
      else old :: mergeCandidate rest candidate := by
  by_cases h : old.start ≤ candidate.end_ ∧ old.end_ ≥ candidate.start
  · have h1 : overlaps old candidate = true := by simp [overlaps, h.1, h.2]
    rw [if_pos h1, mergeCandidate, if_pos h]; rfl
  · have h1 : ¬ overlaps old candidate = true := by
      simp only [overlaps, Bool.and_eq_true, decide_eq_true_eq]; exact h
    rw [if_neg h1, mergeCandidate, if_neg h]

theorem mergeCandidate_append (candidate : RepeatRequest) :
    ∀ requests : List RepeatRequest, (∀ r ∈ requests, overlaps r candidate = false) →
      mergeCandidate requests candidate = requests ++ [candidate] := by
  intro requests
  induction requests with
  | nil => intro _; rfl
  | cons old rest ih =>
    intro h
    have h1 := h old (List.mem_cons_self _ _)
    rw [mergeCandidate_cons, if_neg (by simp [h1]),
      ih (fun r hr => h r (List.mem_cons_of_mem _ hr))]
    rfl

theorem mergeCandidate_first (candidate old : RepeatRequest) (post : List RepeatRequest)
    (hold : overlaps old candidate = true) :
    ∀ pre : List RepeatRequest, (∀ r ∈ pre, overlaps r candidate = false) →
      mergeCandidate (pre ++ old :: post) candidate = pre ++ hull old candidate :: post := by
  intro pre
  induction pre with
  | nil => intro _; rw [List.nil_append, mergeCandidate_cons, if_pos hold]; rfl
  | cons p pre ih =>
    intro h
    have h1 := h p (List.mem_cons_self _ _)
    rw [List.cons_append, mergeCandidate_cons, if_neg (by simp [h1]),
      ih (fun r hr => h r (List.mem_cons_of_mem _ hr))]
    rfl

/-- Counterexample to C21: the ranges 0..1 and 2..3 are adjacent (one ends at
fragment 1, the other starts at fragment 2) and are found together by
`_handleRepeat`; the merged list keeps them as two separate requests, the
function counts two repeats, and no merged request covers fragments 1 and 2
together. -/
theorem adjacent_ranges_stay_separate :
    mergeRequests [nackRequest 0 1] [nackRequest 2 3]
      = some [nackRequest 0 1, nackRequest 2 3] ∧
    (handleRepeat exCfg exWriter [] 0 [] 0
      [some (nackRequest 0 1), some (nackRequest 2 3), none,
        some ⟨RepeatType.done, 0, 0⟩]).map Prod.fst = some 2 ∧
    ∀ r ∈ [nackRequest 0 1, nackRequest 2 3], ¬ (r.start ≤ 1 ∧ 2 ≤ r.end_) := by
  decide

/-- C21 (amended): the merge step of `_handleRepeat` merges a NACK candidate
into the first collected request it shares a fragment with: that request is
replaced, in place, by one range covering both, and nothing is appended.  A
candidate that shares no fragment with any collected request is appended as a
separate request; ranges that are only adjacent share no fragment. -/
theorem merge_overlapping_ranges (requests : List RepeatRequest) (candidate : RepeatRequest)
    (pre post : List RepeatRequest) (old : RepeatRequest)
    (hsplit : requests = pre ++ old :: post)
    (hpre : ∀ r ∈ pre, overlaps r candidate = false)
    (hold : overlaps old candidate = true) :
    mergeCandidate requests candidate = pre ++ hull old candidate :: post ∧
      (hull old candidate).start = min old.start candidate.start ∧
      (hull old candidate).end_ = max old.end_ candidate.end_ ∧
      (∀ k, (old.start ≤ k ∧ k ≤ old.end_) ∨ (candidate.start ≤ k ∧ k ≤ candidate.end_) →
        (hull old candidate).start ≤ k ∧ k ≤ (hull old candidate).end_) ∧
      (∀ others : List RepeatRequest, (∀ r ∈ others, overlaps r candidate = false) →
        mergeCandidate others candidate = others ++ [candidate]) ∧
      (∀ r : RepeatRequest, r.end_ + 1 = candidate.start ∨ candidate.end_ + 1 = r.start →
        overlaps r candidate = false) := by
  subst hsplit
  refine ⟨mergeCandidate_first candidate old post hold pre hpre, rfl, rfl, ?_,
    mergeCandidate_append candidate, ?_⟩
  · intro k hk
    simp only [hull]
    omega
  · intro r hr
    simp only [overlaps, Bool.and_eq_false_iff, decide_eq_false_iff_not]
    omega

/-- Witness for C21 (amended): the candidate 2..5 is merged into the collected
request 4..6, the first it overlaps, behind the request 0..1. -/
theorem merge_overlapping_ranges_witness :
    mergeCandidate [nackRequest 0 1, nackRequest 4 6, nackRequest 8 9] (nackRequest 2 5)
        = [nackRequest 0 1] ++ hull (nackRequest 4 6) (nackRequest 2 5) :: [nackRequest 8 9] ∧
      (hull (nackRequest 4 6) (nackRequest 2 5)).start = min 4 2 ∧
      (hull (nackRequest 4 6) (nackRequest 2 5)).end_ = max 6 5 :=
  let h := merge_overlapping_ranges [nackRequest 0 1, nackRequest 4 6, nackRequest 8 9]
    (nackRequest 2 5) [nackRequest 0 1] [nackRequest 8 9] (nackRequest 4 6) rfl
    (by decide) (by decide)
  ⟨h.1, h.2.1, h.2.2.1⟩

/-! ## C27: merged requests, error count and repeated fragments -/

theorem mergeCandidate_mem (candidate : RepeatRequest) :
    ∀ (requests : List RepeatRequest) (b : RepeatRequest),
      b ∈ mergeCandidate requests candidate →
        b ∈ requests ∨ b = candidate ∨
          ∃ r ∈ requests, overlaps r candidate = true ∧ b = hull r candidate := by
  intro requests
  induction requests with
  | nil =>
    intro b hb
    simp only [mergeCandidate, List.mem_singleton] at hb
    exact Or.inr (Or.inl hb)
  | cons old rest ih =>
    intro b hb
    rw [mergeCandidate_cons] at hb
    by_cases h : overlaps old candidate = true
    · rw [if_pos h] at hb
      rcases List.mem_cons.mp hb with h1 | h1
      · exact Or.inr (Or.inr ⟨old, List.mem_cons_self _ _, h, h1⟩)
      · exact Or.inl (List.mem_cons_of_mem _ h1)
    · rw [if_neg h] at hb
      rcases List.mem_cons.mp hb with h1 | h1
      · exact Or.inl (h1 ▸ List.mem_cons_self _ _)
      · rcases ih b h1 with h2 | h2 | ⟨r, hr, ho, hb2⟩
        · exact Or.inl (List.mem_cons_of_mem _ h2)
        · exact Or.inr (Or.inl h2)
        · exact Or.inr (Or.inr ⟨r, List.mem_cons_of_mem _ hr, ho, hb2⟩)

theorem overlaps_iff (old candidate : RepeatRequest) :
    overlaps old candidate = true ↔ old.start ≤ candidate.end_ ∧ candidate.start ≤ old.end_ := by
  simp [overlaps]

theorem mergeCandidate_bound (candidate : RepeatRequest) (bound : Nat)
    (hc : candidate.end_ < bound) (requests : List RepeatRequest)
    (hreq : ∀ r ∈ requests, r.end_ < bound) :
    ∀ r ∈ mergeCandidate requests candidate, r.end_ < bound := by
  intro b hb
  rcases mergeCandidate_mem candidate requests b hb with h | h | ⟨r, hr, -, h⟩
  · exact hreq b h
  · rw [h]; exact hc
  · have := hreq r hr
    rw [h]; simp only [hull]; omega

theorem mergeCandidate_apart (candidate : RepeatRequest) :
    ∀ requests : List RepeatRequest, (∀ r ∈ requests, r.start ≤ r.end_) →
      PairwiseApart requests →
      requests.countP (fun old => overlaps old candidate) ≤ 1 →
      PairwiseApart (mergeCandidate requests candidate) := by
  intro requests
  induction requests with
  | nil =>
    intro _ _ _
    simp [mergeCandidate, PairwiseApart]
  | cons old rest ih =>
    intro hreq hap hcount
    have hold := hreq old (List.mem_cons_self _ _)
    have hrest : ∀ r ∈ rest, r.start ≤ r.end_ := fun r h => hreq r (List.mem_cons_of_mem _ h)
    unfold PairwiseApart at hap ⊢
    rw [List.pairwise_cons] at hap
    rw [List.countP_cons] at hcount
    rw [mergeCandidate_cons]
    by_cases h : overlaps old candidate = true
    · rw [if_pos h]
      rw [if_pos h] at hcount
      have hzero : rest.countP (fun old => overlaps old candidate) = 0 := by omega
      rw [List.countP_eq_zero] at hzero
      rw [List.pairwise_cons]
      refine ⟨fun b hb => ?_, hap.2⟩
      have h1 := hap.1 b hb
      have h2 := hzero b hb
      have h3 := hrest b hb
      rw [overlaps_iff] at h h2
      simp only [hull]
      omega
    · rw [if_neg h]
      rw [if_neg h] at hcount
      rw [List.pairwise_cons]
      refine ⟨fun b hb => ?_, ih hrest hap.2 (by omega)⟩
      rw [overlaps_iff] at h
      rcases mergeCandidate_mem candidate rest b hb with h1 | h1 | ⟨r, hr, ho, h1⟩
      · exact hap.1 b h1
      · rw [h1]; omega
      · have h2 := hap.1 r hr
        have h3 := hrest r hr
        rw [overlaps_iff] at ho
        rw [h1]; simp only [hull]
        omega

theorem countP_or_apart {α : Type} (p q : α → Bool) :
    ∀ l : List α, (∀ k ∈ l, ¬ (p k = true ∧ q k = true)) →
      l.countP (fun k => p k || q k) = l.countP p + l.countP q := by
  intro l
  induction l with
  | nil => intro _; rfl
  | cons a l ih =>
    intro h
    have h1 := h a (List.mem_cons_self _ _)
    have h2 := ih (fun k hk => h k (List.mem_cons_of_mem _ hk))
    rw [List.countP_cons, List.countP_cons, List.countP_cons, h2]
    cases hp : p a <;> cases hq : q a <;> simp_all <;> omega

theorem countP_interval (start end_ : Nat) :
    ∀ bound : Nat, (List.range bound).countP (fun k => decide (start ≤ k) && decide (k ≤ end_))
      = min bound (end_ + 1) - start := by
  intro bound
  induction bound with
  | zero => simp
  | succ n ih =>
    rw [List.range_succ, List.countP_append, ih, List.countP_cons, List.countP_nil]
    by_cases h : start ≤ n ∧ n ≤ end_
    · simp only [h.1, h.2, decide_True, Bool.and_self, if_true]
      omega
    · have h1 : (decide (start ≤ n) && decide (n ≤ end_)) = false := by
        simp only [Bool.and_eq_false_iff, decide_eq_false_iff_not]
        omega
      rw [h1]
      simp only [Bool.false_eq_true, if_false]
      omega

/-- The sum of `end - start + 1` over the requests, without wrap-around. -/
theorem countErrors_acc (requests : List RepeatRequest) :
    ∀ acc : Nat, (∀ r ∈ requests, r.start ≤ r.end_ ∧ r.end_ < 2 ^ 32 - 1) →
      acc + (requests.map (fun r => r.end_ + 1 - r.start)).sum < 2 ^ 64 →
      requests.foldl
          (fun errors r => (errors + (r.end_ + 2 ^ 32 - r.start + 1) % 2 ^ 32) % 2 ^ 64) acc
        = acc + (requests.map (fun r => r.end_ + 1 - r.start)).sum := by
  induction requests with
  | nil => intro acc _ _; simp
  | cons r rest ih =>
    intro acc hv hsum
    have hr := hv r (List.mem_cons_self _ _)
    simp only [List.map_cons, List.sum_cons] at hsum ⊢
    have h1 : (r.end_ + 2 ^ 32 - r.start + 1) % 2 ^ 32 = r.end_ + 1 - r.start := by
      have : r.end_ + 2 ^ 32 - r.start + 1 = (r.end_ + 1 - r.start) + 2 ^ 32 := by omega
      rw [this, Nat.add_mod_right, Nat.mod_eq_of_lt (by omega)]
    rw [List.foldl_cons, h1, Nat.mod_eq_of_lt (by omega),
      ih _ (fun x hx => hv x (List.mem_cons_of_mem _ hx)) (by omega)]
    omega

theorem sizes_eq_countP (bound : Nat) :
    ∀ requests : List RepeatRequest,
      (∀ r ∈ requests, r.start ≤ r.end_ ∧ r.end_ < bound) → PairwiseApart requests →
      (requests.map (fun r => r.end_ + 1 - r.start)).sum
        = (List.range bound).countP (fun k => covered requests k) := by
  intro requests
  induction requests with
  | nil => intro _ _; simp [covered]
  | cons r rest ih =>
    intro hv hap
    unfold PairwiseApart at hap
    rw [List.pairwise_cons] at hap
    have hr := hv r (List.mem_cons_self _ _)
    have h1 : (rest.map (fun r => r.end_ + 1 - r.start)).sum
        = (List.range bound).countP (covered rest) :=
      ih (fun x hx => hv x (List.mem_cons_of_mem _ hx)) hap.2
    have h2 : (fun k => covered (r :: rest) k)
        = (fun k => (decide (r.start ≤ k) && decide (k ≤ r.end_)) || covered rest k) := by
      funext k; simp [covered]
    rw [h2, countP_or_apart, countP_interval, List.map_cons, List.sum_cons, h1]
    · omega
    · intro k _ hk
      obtain ⟨x, hx, hx1⟩ := (covered_iff rest k).mp hk.2
      have h3 := hap.1 x hx
      have h4 := hk.1
      simp only [Bool.and_eq_true, decide_eq_true_eq] at h4
      omega

theorem resendIDs_nodup :
    ∀ requests : List RepeatRequest, PairwiseApart requests → (resendIDs requests).Nodup := by
  intro requests hap
  unfold resendIDs
  rw [List.nodup_flatMap]
  refine ⟨fun r _ => List.nodup_range' _ _, ?_⟩
  unfold PairwiseApart at hap
  refine hap.imp ?_
  intro a b hab
  rw [Function.onFun, List.disjoint_left]
  intro k hka hkb
  rw [List.mem_range'_1] at hka hkb
  omega

theorem resend_eq_map (cfg : Config) (data : List Nat) (size writeSeqID : Nat)
    (requests : List RepeatRequest) :
    resend cfg data size writeSeqID requests
      = (resendIDs requests).map
          (fun j => Emit.data (sendDatagram cfg data size writeSeqID j)) := by
  unfold resend resendIDs
  induction requests with
  | nil => rfl
  | cons r rest ih => simp only [List.flatMap_cons, List.map_append, ih]

theorem mem_resendIDs (requests : List RepeatRequest) (k : Nat) :
    k ∈ resendIDs requests ↔ covered requests k = true := by
  rw [covered_iff]
  unfold resendIDs
  simp only [List.mem_flatMap, List.mem_range'_1]
  constructor
  · rintro ⟨r, hr, h⟩; exact ⟨r, hr, by omega⟩
  · rintro ⟨r, hr, h⟩; exact ⟨r, hr, by omega⟩

theorem mergeRequests_apart :
    ∀ (queue requests : List RepeatRequest),
      (∀ r ∈ queue, r.type ≠ RepeatType.done) →
      (∀ r ∈ requests, r.start ≤ r.end_ ∧ r.end_ < 65536) →
      (∀ r ∈ queue, r.type = RepeatType.nack → r.start ≤ r.end_ ∧ r.end_ < 65536) →
      PairwiseApart requests → SingleOverlaps requests queue →
      ∃ merged, mergeRequests requests queue = some merged ∧
        (∀ r ∈ merged, r.start ≤ r.end_ ∧ r.end_ < 65536) ∧ PairwiseApart merged := by
  intro queue
  induction queue with
  | nil =>
    intro requests _ hreq _ hap _
    exact ⟨requests, rfl, hreq, hap⟩
  | cons candidate queue ih =>
    intro requests hnodone hreq hq hap hsingle
    have hnd : ∀ r ∈ queue, r.type ≠ RepeatType.done :=
      fun r h => hnodone r (List.mem_cons_of_mem _ h)
    have hq1 : ∀ r ∈ queue, r.type = RepeatType.nack → r.start ≤ r.end_ ∧ r.end_ < 65536 :=
      fun r h => hq r (List.mem_cons_of_mem _ h)
    cases ht : candidate.type with
    | done => exact absurd ht (hnodone candidate (List.mem_cons_self _ _))
    | ackreq =>
      simp only [SingleOverlaps, ht] at hsingle
      obtain ⟨merged, hm, hv, hap1⟩ := ih requests hnd hreq hq1 hap hsingle
      exact ⟨merged, by simp [mergeRequests, ht, hm], hv, hap1⟩
    | nack =>
      simp only [SingleOverlaps, ht] at hsingle
      have hc := hq candidate (List.mem_cons_self _ _) ht
      have hvalid := mergeCandidate_valid candidate hc.1 requests (fun r h => (hreq r h).1)
      have hbound := mergeCandidate_bound candidate 65536 hc.2 requests (fun r h => (hreq r h).2)
      obtain ⟨merged, hm, hv, hap1⟩ := ih (mergeCandidate requests candidate) hnd
        (fun r h => ⟨hvalid r h, hbound r h⟩) hq1
        (mergeCandidate_apart candidate requests (fun r h => (hreq r h).1) hap hsingle.1)
        hsingle.2
      exact ⟨merged, by simp [mergeRequests, ht, hm], hv, hap1⟩

/-- Counterexample to C27: with the request 0..1 collected, the NACKs 3..4
and 1..3 are found together.  The second is merged into 0..1 only, so the merged
requests 0..3 and 3..4 overlap in fragment 3: the error count is 6 for 5
distinct fragments, and fragment 3 is sent twice in the batch. -/
theorem merged_requests_overlap :
    mergeRequests [nackRequest 0 1] [nackRequest 3 4, nackRequest 1 3]
      = some [nackRequest 0 3, nackRequest 3 4] ∧
    ¬ PairwiseApart [nackRequest 0 3, nackRequest 3 4] ∧
    countErrors [nackRequest 0 3, nackRequest 3 4] = 6 ∧
    ((List.range 65536).filter
      (fun k => covered [nackRequest 0 1, nackRequest 3 4, nackRequest 1 3] k)).length = 5 ∧
    resendIDs [nackRequest 0 3, nackRequest 3 4] = [0, 1, 2, 3, 3, 4] ∧
    (handleRepeat exCfg exWriter [] 0 [] 0
      [some (nackRequest 0 1), some (nackRequest 3 4), some (nackRequest 1 3), none,
        some ⟨RepeatType.done, 0, 0⟩]).map (fun x => x.2.take 7)
      = some (Emit.adaptSendRate 6 ::
          [0, 1, 2, 3, 3, 4].map (fun j =>
            Emit.data (sendDatagram exCfg [] 0 (shiftedID exWriter.id ||| exWriter.sequenceID) j))) := by
  refine ⟨by decide, by unfold PairwiseApart; decide, by decide, ?_, by decide, by decide!⟩
  rw [← List.countP_eq_length_filter]
  have h : (fun k => covered [nackRequest 0 1, nackRequest 3 4, nackRequest 1 3] k)
      = (fun k => decide (0 ≤ k) && decide (k ≤ 4)) := by
    funext k
    rw [Bool.eq_iff_iff, covered_iff]
    simp only [List.mem_cons, List.mem_singleton, List.not_mem_nil, or_false, nackRequest,
      Bool.and_eq_true, decide_eq_true_eq]
    constructor
    · rintro ⟨r, (h | h | h), h1⟩ <;> subst h <;> simp only at h1 <;> omega
    · intro hk
      by_cases h3 : k ≤ 1
      · exact ⟨⟨RepeatType.nack, 0, 1⟩, Or.inl rfl, Nat.zero_le _, h3⟩
      · by_cases h4 : k ≤ 3
        · exact ⟨⟨RepeatType.nack, 1, 3⟩, Or.inr (Or.inr rfl), by show 1 ≤ k; omega, h4⟩
        · exact ⟨⟨RepeatType.nack, 3, 4⟩, Or.inr (Or.inl rfl), by show 3 ≤ k; omega, hk.2⟩
  rw [h, countP_interval]
  decide

/-- C27 (amended): if the requests collected so far are pairwise
non-overlapping and, along the merge loop, no NACK found in the queue overlaps
more than one of the requests collected before it (all ranges with
`start <= end < 65536`, no `DONE` in the queue), then the merged requests are
pairwise non-overlapping, the error count handed to rate adaptation equals the
number of distinct fragment indices that were NACKed, and no fragment is sent
again more than once in the batch. -/
theorem merged_requests_apart (cfg : Config) (data : List Nat) (size writeSeqID : Nat)
    (requests queue : List RepeatRequest)
    (hnodone : ∀ r ∈ queue, r.type ≠ RepeatType.done)
    (hreq : ∀ r ∈ requests, r.start ≤ r.end_ ∧ r.end_ < 65536)
    (hq : ∀ r ∈ queue, r.type = RepeatType.nack → r.start ≤ r.end_ ∧ r.end_ < 65536)
    (hapart : PairwiseApart requests) (hsingle : SingleOverlaps requests queue) :
    ∃ merged, mergeRequests requests queue = some merged ∧
      PairwiseApart merged ∧
      countErrors merged
        = ((List.range 65536).filter (fun k =>
            covered (requests ++ queue.filter (fun r => decide (r.type = RepeatType.nack))) k)).length ∧
      (resendIDs merged).Nodup ∧
      (∀ k, k ∈ resendIDs merged ↔
        covered (requests ++ queue.filter (fun r => decide (r.type = RepeatType.nack))) k = true) ∧
      resend cfg data size writeSeqID merged
        = (resendIDs merged).map (fun j => Emit.data (sendDatagram cfg data size writeSeqID j)) := by
  obtain ⟨merged, hm, hv, hap⟩ := mergeRequests_apart queue requests hnodone hreq hq hapart hsingle
  obtain ⟨merged1, hm1, hcov⟩ := merge_preserves_coverage requests queue hnodone
    (fun r h => (hreq r h).1) (fun r h ht => (hq r h ht).1)
  rw [hm] at hm1
  cases hm1
  have hsum := sizes_eq_countP 65536 merged hv hap
  have hle : (List.range 65536).countP (fun k => covered merged k) ≤ 65536 := by
    have := List.countP_le_length (fun k => covered merged k) (l := List.range 65536)
    simpa using this
  refine ⟨merged, hm, hap, ?_, resendIDs_nodup merged hap, fun k => ?_, resend_eq_map _ _ _ _ _⟩
  · unfold countErrors
    rw [countErrors_acc merged 0 (fun r h => ⟨(hv r h).1, by have := (hv r h).2; omega⟩)
      (by omega), Nat.zero_add, hsum, ← List.countP_eq_length_filter]
    exact List.countP_congr (fun k _ => by rw [hcov k])
  · rw [mem_resendIDs, hcov k]

/-- Witness for C27 (amended): with 0..1 collected, the NACKs 5..6 and 1..3
are found together; the merged requests are 0..3 and 5..6. -/
theorem merged_requests_apart_witness :
    ∃ merged, mergeRequests [nackRequest 0 1] [nackRequest 5 6, nackRequest 1 3] = some merged ∧
      PairwiseApart merged ∧
      countErrors merged
        = ((List.range 65536).filter (fun k =>
            covered ([nackRequest 0 1] ++ [nackRequest 5 6, nackRequest 1 3].filter
              (fun r => decide (r.type = RepeatType.nack))) k)).length ∧
      (resendIDs merged).Nodup ∧
      (∀ k, k ∈ resendIDs merged ↔
        covered ([nackRequest 0 1] ++ [nackRequest 5 6, nackRequest 1 3].filter
          (fun r => decide (r.type = RepeatType.nack))) k = true) ∧
      resend exCfg [] 0 0 merged
        = (resendIDs merged).map (fun j => Emit.data (sendDatagram exCfg [] 0 0 j)) :=
  merged_requests_apart exCfg [] 0 0 [nackRequest 0 1] [nackRequest 5 6, nackRequest 1 3]
    (by decide) (by decide) (by decide) (by unfold PairwiseApart; decide)
    ⟨by decide, by decide, trivial⟩

/-! ## C29: the last fragment ID of an ACK request -/

/-- For a write of at least one byte (clamped to the buffer size) the ACK
request carries `nDatagrams - 1`, a fragment index within the ACK window. -/
theorem ackRequest_last_in_window (cfg : Config) (hwf : cfg.WF) (s : RSPConnection)
    (size : Nat) (h0 : 0 < size) (hsize : size ≤ cfg.payloadSize * cfg.ackFreq)
    (hn : s.nDatagrams = countDatagrams cfg size) :
    1 ≤ s.nDatagrams ∧ s.ackRequest.lastDatagramID = s.nDatagrams - 1 ∧
      s.ackRequest.lastDatagramID < cfg.ackFreq := by
  obtain ⟨hp, -, -, ha⟩ := hwf
  obtain ⟨hle, hlt⟩ := countDatagrams_bounds cfg hp size
  have h1 : 1 ≤ countDatagrams cfg size := by
    rcases Nat.eq_zero_or_pos (countDatagrams cfg size) with h | h
    · rw [h] at hle; omega
    · exact h
  have h2 : countDatagrams cfg size ≤ cfg.ackFreq := by
    by_contra hgt
    have h3 := hlt cfg.ackFreq (by omega)
    rw [Nat.mul_comm] at h3
    omega
  unfold RSPConnection.ackRequest
  rw [hn]
  refine ⟨h1, ?_, ?_⟩ <;> simp only <;> omega

/-- C29: a write of 0 bytes reaches the send phase with `_nDatagrams = 0`, and
the ACK request it emits carries the last fragment ID 65535, the 16-bit value
of `0 - 1`, which is not below the ACK window of 5 fragments.  A receiver
that gets this request answers with a NACK for the fragments 0..65535.  The
underflow does not depend on the settings: no datagrams are counted for 0
bytes, and the field is 65535 whenever `_nDatagrams` is 0. -/
theorem zero_byte_write_underflows :
    exCfg.WF ∧
    (exWriter.write exCfg [] 0 [some ⟨RepeatType.done, 0, 0⟩]).map
        (fun w => (w.ret, w.conn.nDatagrams, w.sent))
      = some (0, 0, [Emit.ackRequest ⟨1, 65535, 1⟩, Emit.adaptSendRate 0]) ∧
    ¬ (65535 < exCfg.ackFreq) ∧
    (exReceiver.handleAckRequest exCfg ⟨1, 65535, 1⟩).map (fun x => x.2.1.map Out.ranges)
      = some [[(0, 65535)]] ∧
    (∀ cfg : Config, cfg.payloadSize ≠ 0 → countDatagrams cfg 0 = 0) ∧
    (∀ s : RSPConnection, s.nDatagrams = 0 → s.ackRequest.lastDatagramID = 65535) := by
  refine ⟨by decide, by decide!, by decide, by decide!, ?_, ?_⟩
  · intro cfg _
    simp [countDatagrams]
  · intro s hs
    simp [RSPConnection.ackRequest, hs]

/-! ## C28: the count of a NACK -/

theorem getD_set_ne (got : List Bool) (i t : Nat) (h : t ≠ i) :
    (got.set i true).getD t false = got.getD t false := by
  simp only [List.getD_eq_getElem?_getD, List.getElem?_set_ne (Ne.symm h)]

/-- A DATA datagram changes no `got` bit but that of its own fragment index. -/
theorem fillSlot_got_frame (cfg : Config) (selfID : Nat) (c c1 : Conn) (r : Fin 4)
    (d : DatagramData) (out : List Out) (h : c.fillSlot cfg selfID r d = some (c1, out))
    (t : Nat) (ht : t ≠ d.dataIDlength >>> 16) (k : Fin 4) :
    (c1.inBuffers k).got.getD t false = (c.inBuffers k).got.getD t false := by
  rw [fillSlot_eq] at h
  cases hf : firstDatagram c.lastSequenceIDAck (c.inBuffers r) (d.writeSeqID &&& 0xFFFF) with
  | none =>
    rw [hf] at h
    cases h
    rfl
  | some receive =>
    rw [hf] at h
    have hgot := (firstDatagram_ackSend _ _ _ _ hf).2.1
    try simp only at h
    by_cases hkr : k = r
    · subst hkr
      split at h
      · split at h
        · cases h
          simp only [Function.update_same, hgot]
        · split at h
          · cases h
            simp only [Function.update_same, InBuffer.store, getD_set_ne _ _ _ ht, hgot]
          · cases h
      · cases h
    · split at h
      · split at h
        · cases h
          simp only [Function.update_noteq hkr]
        · split at h
          · cases h
            simp only [Function.update_noteq hkr]
          · cases h
      · cases h

theorem handleDataDatagram_got_frame (cfg : Config) (selfID : Nat) (c c1 : Conn)
    (d : DatagramData) (out : List Out) (h : c.handleDataDatagram cfg selfID d = some (c1, out))
    (t : Nat) (ht : t ≠ d.dataIDlength >>> 16) (k : Fin 4) :
    (c1.inBuffers k).got.getD t false = (c.inBuffers k).got.getD t false := by
  rw [handleDataDatagram_eq] at h
  cases hrb : c.recvBuffer with
  | some r =>
    rw [hrb] at h
    exact fillSlot_got_frame cfg selfID c c1 r d out h t ht k
  | none =>
    rw [hrb] at h
    simp only at h
    split at h
    · exact fillSlot_got_frame cfg selfID _ c1 _ d out h t ht k
    · cases h
      rfl

theorem root_handleDataDatagram_got_frame (cfg : Config) (s s1 : RSPConnection)
    (d : DatagramData) (out : List Out) (flag : Bool)
    (h : s.handleDataDatagram cfg d = some (s1, out, flag))
    (t : Nat) (ht : t ≠ d.dataIDlength >>> 16) (i : Nat) (k : Fin 4) :
    (s1.children[i]?).map (fun c => (c.inBuffers k).got.getD t false)
      = (s.children[i]?).map (fun c => (c.inBuffers k).got.getD t false) := by
  simp only [RSPConnection.handleDataDatagram] at h
  split at h
  · cases h; rfl
  · split at h
    · cases h; rfl
    · rename_i j _ _ c0 hc0
      split at h
      · cases h
      · rename_i c1 out1 hh
        cases h
        have hj : j < s.children.length := (List.getElem?_eq_some_iff.mp hc0).1
        by_cases hij : j = i
        · subst hij
          simp only [List.getElem?_set_self hj, hc0, Option.map_some', Option.some.injEq]
          exact handleDataDatagram_got_frame cfg s.id c0 c1 d _ hh t ht k
        · simp only [List.getElem?_set_ne hij]

theorem run_data_got_frame (cfg : Config) (t : Nat) :
    ∀ (ds : List DatagramData) (s s1 : RSPConnection) (out : List Out)
      (reads : List (List Nat)),
      (∀ d ∈ ds, t ≠ d.dataIDlength >>> 16) →
      s.run cfg (ds.map Event.data) = some (s1, out, reads) →
      ∀ (i : Nat) (k : Fin 4),
        (s1.children[i]?).map (fun c => (c.inBuffers k).got.getD t false)
          = (s.children[i]?).map (fun c => (c.inBuffers k).got.getD t false) := by
  intro ds
  induction ds with
  | nil =>
    intro s s1 out reads _ h i k
    simp only [List.map_nil, RSPConnection.run, Option.some.injEq, Prod.mk.injEq] at h
    rw [h.1]
  | cons d ds ih =>
    intro s s1 out reads hds h i k
    simp only [List.map_cons, RSPConnection.run, RSPConnection.step] at h
    cases hstep : s.handleDataDatagram cfg d with
    | none => rw [hstep] at h; simp at h
    | some x =>
      obtain ⟨s0, out0, flag⟩ := x
      rw [hstep] at h
      simp only [Option.map_some'] at h
      cases hrun : RSPConnection.run cfg s0 (ds.map Event.data) with
      | none => rw [hrun] at h; simp at h
      | some y =>
        obtain ⟨s2, outs, reads2⟩ := y
        rw [hrun] at h
        simp only [Option.some.injEq, Prod.mk.injEq] at h
        rw [← h.1, ih s0 s2 outs reads2 (fun e he => hds e (List.mem_cons_of_mem _ he)) hrun i k]
        exact root_handleDataDatagram_got_frame cfg s s0 d out0 flag hstep t
          (hds d (List.mem_cons_self _ _)) i k

theorem ext_getD (l1 l2 : List Bool) (hlen : l1.length = l2.length)
    (h : ∀ t, t < l1.length → l1.getD t false = l2.getD t false) : l1 = l2 := by
  apply List.ext_getElem hlen
  intro n h1 h2
  have := h n h1
  simpa [List.getD_eq_getElem?_getD, List.getElem?_eq_getElem h1, List.getElem?_eq_getElem h2]
    using this

set_option maxRecDepth 1000000 in
theorem scanLost_alternating :
    scanLost exWide exAlternating 511 512 0 []
      = some ((List.range 256).map (fun t => (2 * t) ||| ((2 * t) <<< 16))) := by
  decide!

set_option maxRecDepth 1000000 in
/-- C28: with the typical MTU of 1470 bytes a NACK can hold 365 ranges, more
than the 8-bit count of `_sendNack` can announce.  A receiver that gets the
256 odd fragments of a 512-fragment write and then its ACK request finds 256
missing ranges (0..0, 2..2, ..., 510..510) in its scan, all of them in the range
buffer; the NACK it hands on announces count 0 and carries no range. -/
theorem nack_count_wraps :
    exWide.WF ∧ 256 ≤ exWide.maxNAck ∧
    ∃ s out c ranges,
      (RSPConnection.listening 2 [Conn.fresh exWide 1]).run exWide exOddFragments
        = some (s, out, []) ∧
      s.children[0]? = some c ∧ c.findReceiverWithSequenceID 1 = some 0 ∧
      (c.inBuffers 0).ackSend = false ∧ (c.inBuffers 0).got = exAlternating ∧
      scanLost exWide (c.inBuffers 0).got 511 512 0 [] = some ranges ∧
      ranges.length = 256 ∧
      ranges.map (fun r => (rangeStart r, rangeEnd r))
        = (List.range 256).map (fun t => (2 * t, 2 * t)) ∧
      (s.handleAckRequest exWide ⟨1, 511, 1⟩).map (fun x => x.2)
        = some ([Out.nack 2 1 1 0 []], true) := by
  have hcfg : exWide.WF := by decide
  have hlen : exWindow.length = 746496 := List.length_replicate _ _
  have hsize : exWindow.length ≤ exWide.bufferSize := by rw [hlen]; decide
  have hcount : countDatagrams exWide exWindow.length = 512 := by rw [hlen]; decide
  have hfree : (Conn.fresh exWide 1).FreeFor exWide 1 0 :=
    ⟨Or.inl rfl, rfl, rfl, rfl, rfl, fun k => by show (0 : Nat) ≠ 1; decide, by decide⟩
  have hin : ∀ j ∈ exOddIDs, j < countDatagrams exWide exWindow.length := by
    intro j hj
    rw [hcount]
    simp only [exOddIDs, List.mem_map, List.mem_range] at hj
    obtain ⟨t, ht, rfl⟩ := hj
    omega
  have horder : exOddIDs = 1 :: (List.range 255).map (fun t => 2 * t + 3) := by decide
  have hadopt := run_adopt exWide hcfg exWindow hsize 1 (by decide) 0 0
    (RSPConnection.listening 2 [Conn.fresh exWide 1]) (Conn.fresh exWide 1) (by decide)
    rfl rfl hfree 1 (by rw [hcount]; decide)
    (((List.range 255).map (fun t => 2 * t + 3)).map (fun j =>
      Event.data (sendDatagram exWide exWindow exWindow.length
        (shiftedID (Conn.fresh exWide 1).id ||| 1) j)))
  obtain ⟨s1, out, c1, hrun, hsid, hfind1, hchild1, hc1, hgot1, -⟩ :=
    run_assembling exWide hcfg exWindow hsize 1 1 (by decide) (by decide) 0 0 exOddIDs
      { RSPConnection.listening 2 [Conn.fresh exWide 1] with
        children := [(Conn.fresh exWide 1).adopt 0 1] }
      ((Conn.fresh exWide 1).adopt 0 1) rfl rfl
      (adopt_assembling exWide exWindow 1 0 (Conn.fresh exWide 1) hfree) hin
  have hrun0 : (RSPConnection.listening 2 [Conn.fresh exWide 1]).run exWide exOddFragments
      = some (s1, out, []) := by
    unfold exOddFragments
    rw [horder, List.map_cons] at hrun ⊢
    exact hadopt.trans hrun
  have hframe : ∀ t, (∀ j ∈ exOddIDs, t ≠ j) →
      (c1.inBuffers 0).got.getD t false = false := by
    intro t ht
    have h1 := run_data_got_frame exWide t
      (exOddIDs.map (fun j => sendDatagram exWide exWindow exWindow.length (shiftedID 1 ||| 1) j))
      _ s1 out [] (by
        intro d hd
        simp only [List.mem_map] at hd
        obtain ⟨j, hj, rfl⟩ := hd
        rw [(sendDatagram_fields exWide hcfg exWindow exWindow.length _ j hsize (hin j hj)).2.1]
        exact ht j hj)
      (by rw [List.map_map]; exact hrun) 0 0
    rw [hchild1] at h1
    simp only [Option.map_some', List.getElem?_cons_zero, Option.some.injEq] at h1
    rw [h1]
    simp only [Conn.adopt, Function.update_same, InBuffer.startSequence]
    exact replicate_getD_false _ t
  have hgot : (c1.inBuffers 0).got = exAlternating := by
    apply ext_getD
    · rw [hc1.2.2.2.2.2.2.2.2.1]
      simp [exAlternating, exWide]
    · intro t ht
      rw [hc1.2.2.2.2.2.2.2.2.1] at ht
      have ht1 : t < 512 := ht
      have hr : exAlternating.getD t false = decide (t % 2 = 1) := by
        simp [exAlternating, List.getD_eq_getElem?_getD, List.getElem?_range ht1]
      rw [hr]
      by_cases hodd : t % 2 = 1
      · rw [hgot1 t (by
          simp only [exOddIDs, List.mem_map, List.mem_range]
          exact ⟨t / 2, by omega, by omega⟩)]
        simp [hodd]
      · rw [hframe t (by
          intro j hj
          simp only [exOddIDs, List.mem_map, List.mem_range] at hj
          obtain ⟨u, -, rfl⟩ := hj
          omega)]
        simp [hodd]
  have hfindr : c1.findReceiverWithSequenceID 1 = some 0 :=
    findReceiver_unique c1 1 0 hc1.2.2.2.2.2.2.1 hc1.2.2.2.1
  have hack : (c1.inBuffers 0).ackSend = false := hc1.2.2.2.2.1
  have hscan := scanLost_alternating
  refine ⟨hcfg, by decide, s1, out, c1, _, hrun0, hchild1, hfindr, hack, hgot,
    by rw [hgot]; exact hscan, by simp, by decide!, ?_⟩
  have hreq : c1.handleAckRequest exWide s1.id ⟨1, 511, 1⟩
      = some (c1, [Out.nack 2 1 1 0 []]) := by
    rw [handleAckRequest_found exWide c1 ⟨1, 511, 1⟩ 0 s1.id hfindr, if_neg (by simp [hack]),
      hgot]
    simp only [hscan]
    rw [if_pos (by simp), hsid, hc1.1]
    simp [sendNack, RSPConnection.listening]
  simp only [RSPConnection.handleAckRequest, RSPConnection.findConnectionWithWriterID, hfind1,
    hchild1, hreq, Option.map_some']

/-! ## C26: partial reads -/

theorem reset_readBounds (cfg : Config) (b : InBuffer) : (b.reset cfg).ReadBounds cfg := by
  refine ⟨by simp [InBuffer.reset], ?_, ?_, ?_, ?_⟩
  · simp only [InBuffer.reset, List.length_append, List.length_replicate]
    omega
  · simp only [InBuffer.reset, Config.bufferSize]
    rw [Nat.mul_comm cfg.payloadSize cfg.ackFreq]
    have := Nat.mod_le (cfg.ackFreq * cfg.payloadSize) (2 ^ 32)
    omega
  · intro h; simp [InBuffer.reset] at h
  · intro _ h; simp [InBuffer.reset] at h

theorem fresh_readBounds (cfg : Config) (id : Nat) : (Conn.fresh cfg id).ReadBounds cfg :=
  fun _ => reset_readBounds cfg _

theorem firstDatagram_readBounds (cfg : Config) (lastSequenceIDAck : Int) (b receive : InBuffer)
    (sequenceID : Nat) (hb : b.ReadBounds cfg)
    (h : firstDatagram lastSequenceIDAck b sequenceID = some receive) :
    receive.ReadBounds cfg ∧ receive.ackSend = false := by
  unfold firstDatagram at h
  by_cases hack : b.ackSend = true
  · rw [if_pos hack] at h
    split at h
    · cases h
    · split at h
      · cases h
      · cases h
        obtain ⟨h1, -, -, -, -⟩ := hb
        exact ⟨⟨h1, Nat.zero_le _, Nat.zero_le _, fun _ => rfl, fun h => by
          simp [InBuffer.startSequence] at h⟩, rfl⟩
  · rw [if_neg hack] at h
    cases h
    exact ⟨hb, by simpa using hack⟩

theorem store_readBounds (cfg : Config) (b : InBuffer) (index length : Nat)
    (payload : List Nat) (hb : b.ReadBounds cfg) (hack : b.ackSend = false)
    (hindex : index < b.got.length) (hlen : length ≤ payload.length) (h16 : length ≤ 65535) :
    (b.store cfg index length payload).ReadBounds cfg := by
  obtain ⟨h1, h2, h3, h4, h5⟩ := hb
  have hmul : index * cfg.payloadSize ≤ cfg.ackFreq * cfg.payloadSize :=
    Nat.mul_le_mul_right _ (by omega)
  refine ⟨by simp [InBuffer.store, h1], ?_, ?_, fun _ => h4 hack, fun h => ?_⟩
  · simp only [InBuffer.store, writeAt, growSize, List.length_map, List.length_range,
      List.length_take, Config.payloadSize, Nat.min_eq_left hlen]
    split <;> omega
  · simp only [InBuffer.store, growSize]
    split <;> omega
  · simp [InBuffer.store, hack] at h

theorem fillSlot_readBounds (cfg : Config) (selfID : Nat) (c c1 : Conn) (r : Fin 4)
    (d : DatagramData) (out : List Out) (hinv : c.ReadBounds cfg)
    (h : c.fillSlot cfg selfID r d = some (c1, out)) : c1.ReadBounds cfg := by
  rw [fillSlot_eq] at h
  cases hf : firstDatagram c.lastSequenceIDAck (c.inBuffers r) (d.writeSeqID &&& 0xFFFF) with
  | none =>
    rw [hf] at h
    cases h
    exact hinv
  | some receive =>
    rw [hf] at h
    obtain ⟨hrec, hack⟩ := firstDatagram_readBounds cfg _ _ _ _ (hinv r) hf
    try simp only at h
    split at h
    · rename_i hindex
      split at h
      · cases h
        intro k
        by_cases hkr : k = r
        · subst hkr; simpa using hrec
        · simp only [Function.update_noteq hkr]; exact hinv k
      · split at h
        · rename_i hlen
          cases h
          intro k
          by_cases hkr : k = r
          · subst hkr
            simp only [Function.update_same]
            refine store_readBounds cfg receive _ _ _ hrec hack hindex hlen ?_
            rw [and_0xFFFF]
            have := Nat.mod_lt d.dataIDlength (show 0 < 65536 by decide)
            omega
          · simp only [Function.update_noteq hkr]; exact hinv k
        · cases h
    · cases h

theorem handleDataDatagram_readBounds (cfg : Config) (selfID : Nat) (c c1 : Conn)
    (d : DatagramData) (out : List Out) (hinv : c.ReadBounds cfg)
    (h : c.handleDataDatagram cfg selfID d = some (c1, out)) : c1.ReadBounds cfg := by
  rw [handleDataDatagram_eq] at h
  cases hrb : c.recvBuffer with
  | some r =>
    rw [hrb] at h
    exact fillSlot_readBounds cfg selfID c c1 r d out hinv h
  | none =>
    rw [hrb] at h
    simp only at h
    split at h
    · exact fillSlot_readBounds cfg selfID { c with recvBuffer := some c.recvBufferIndex } c1 _ d
        out (fun k => hinv k) h
    · cases h
      exact fun k => hinv k

theorem handleAckRequest_readBounds (cfg : Config) (selfID : Nat) (c c1 : Conn)
    (r : DatagramAckRequest) (out : List Out) (hinv : c.ReadBounds cfg)
    (h : c.handleAckRequest cfg selfID r = some (c1, out)) : c1.ReadBounds cfg := by
  cases hfind : c.findReceiverWithSequenceID r.sequenceID with
  | none =>
    unfold Conn.handleAckRequest at h
    rw [hfind] at h
    cases h
    exact hinv
  | some k =>
    rw [handleAckRequest_found cfg c r k selfID hfind] at h
    split at h
    · cases h; exact hinv
    · rename_i hack
      split at h
      · cases h
      · split at h
        · cases h; exact hinv
        · cases h
          intro j
          by_cases hjk : j = k
          · subst hjk
            obtain ⟨h1, h2, h3, h4, -⟩ := hinv j
            have h0 := h4 (by simpa using hack)
            simp only [Function.update_same]
            exact ⟨h1, h2, h3, fun h => by simp at h, fun _ _ => by
              show (c.inBuffers j).readPos ≤ _
              rw [h0]; exact Nat.zero_le _⟩
          · simp only [Function.update_noteq hjk]
            exact hinv j

theorem readSync_readBounds (cfg : Config) (hcfg : cfg.ackFreq * cfg.payloadSize + 65535 < 2 ^ 64)
    (c : Conn) (bytes : Nat) (res : ReadResult)
    (hinv : c.ReadBounds cfg) (h : c.readSync cfg bytes = some res) :
    res.conn.ReadBounds cfg := by
  unfold Conn.readSync at h
  simp only at h
  split at h
  · rename_i hpub
    cases h
    obtain ⟨h1, h2, h3, h4, h5⟩ := hinv c.readBufferIndex
    have h6 := h5 hpub.1 hpub.2
    unfold Conn.readSyncSlot
    simp only
    split
    · intro j
      by_cases hjk : j = c.readBufferIndex
      · subst hjk
        simp only [Function.update_same]
        exact ⟨by simp [h1], Nat.zero_le _, Nat.zero_le _, fun h => by simp [hpub.1] at h,
          fun _ h => by simp at h⟩
      · simp only [Function.update_noteq hjk]
        exact hinv j
    · intro j
      by_cases hjk : j = c.readBufferIndex
      · subst hjk
        simp only [Function.update_same]
        refine ⟨h1, h2, h3, fun h => by simp [hpub.1] at h, fun _ _ => ?_⟩
        generalize (c.inBuffers c.readBufferIndex).dataSize = ds at *
        generalize (c.inBuffers c.readBufferIndex).readPos = rp at *
        show rp + min _ _ ≤ ds
        have h7 : (ds + 2 ^ 64 - rp) % 2 ^ 64 = ds - rp := by
          have : ds + 2 ^ 64 - rp = (ds - rp) + 2 ^ 64 := by omega
          rw [this, Nat.add_mod_right, Nat.mod_eq_of_lt (by omega)]
        rw [h7]
        omega
      · simp only [Function.update_noteq hjk]
        exact hinv j
  · cases h

theorem close_readBounds (cfg : Config) (c : Conn) (hinv : c.ReadBounds cfg) :
    (c.close cfg).ReadBounds cfg := by
  unfold Conn.close
  split
  · exact hinv
  · exact fun k => reset_readBounds cfg _

/-- In every reachable state the slots of every child are within their read
bounds. -/
theorem reachable_readBounds (cfg : Config)
    (hcfg : cfg.ackFreq * cfg.payloadSize + 65535 < 2 ^ 64)
    (s : RSPConnection) (hs : Reachable cfg s) : ∀ c ∈ s.children, c.ReadBounds cfg :=
  reachable_children cfg (Conn.ReadBounds cfg) (fresh_readBounds cfg)
    (handleDataDatagram_readBounds cfg) (handleAckRequest_readBounds cfg)
    (readSync_readBounds cfg hcfg) (close_readBounds cfg) s hs

/-- A trace that starts in a reachable state ends in one. -/
theorem reachable_run (cfg : Config) :
    ∀ (events : List Event) (s s1 : RSPConnection) (out : List Out) (reads : List (List Nat)),
      Reachable cfg s → s.run cfg events = some (s1, out, reads) → Reachable cfg s1 := by
  intro events
  induction events with
  | nil =>
    intro s s1 out reads hs h
    simp only [RSPConnection.run, Option.some.injEq, Prod.mk.injEq] at h
    rw [← h.1]; exact hs
  | cons e es ih =>
    intro s s1 out reads hs h
    simp only [RSPConnection.run] at h
    cases hstep : s.step cfg e with
    | none => rw [hstep] at h; simp at h
    | some x =>
      obtain ⟨s0, out0, bytes0⟩ := x
      rw [hstep] at h
      simp only at h
      cases hrun : RSPConnection.run cfg s0 es with
      | none => rw [hrun] at h; simp at h
      | some y =>
        obtain ⟨s2, outs, reads2⟩ := y
        rw [hrun] at h
        simp only [Option.some.injEq, Prod.mk.injEq] at h
        rw [← h.1]
        exact ih s0 s2 outs reads2 (Reachable.step e hs hstep) hrun

theorem readSyncSlot_ret (c : Conn) (k : Fin 4) (bytes : Nat) :
    (c.readSyncSlot k bytes).ret
      = min bytes (((c.inBuffers k).dataSize + 2 ^ 64 - (c.inBuffers k).readPos) % 2 ^ 64) ∧
    (c.readSyncSlot k bytes).bytes
      = ((c.inBuffers k).data.drop (c.inBuffers k).readPos).take (c.readSyncSlot k bytes).ret := by
  unfold Conn.readSyncSlot
  simp only
  split <;> exact ⟨rfl, rfl⟩

theorem readSyncSlot_released (c : Conn) (k : Fin 4) (bytes : Nat)
    (h : (c.inBuffers k).readPos + (c.readSyncSlot k bytes).ret = (c.inBuffers k).dataSize) :
    c.readSyncSlot k bytes =
      { conn :=
          { c with
            readBufferIndex := nextIndex c.readBufferIndex
            inBuffers := Function.update c.inBuffers k
              { c.inBuffers k with
                readPos := (c.inBuffers k).readPos + (c.readSyncSlot k bytes).ret
                got := List.replicate (c.inBuffers k).got.length false
                dataSize := 0
                allRead := true } }
        bytes := (c.readSyncSlot k bytes).bytes
        ret := (c.readSyncSlot k bytes).ret } := by
  rw [(readSyncSlot_ret c k bytes).1] at h
  have h1 := (readSyncSlot_ret c k bytes).1
  have h2 := (readSyncSlot_ret c k bytes).2
  rw [h2, h1]
  conv_lhs => unfold Conn.readSyncSlot
  simp only
  rw [if_pos h]

theorem readSyncSlot_kept (c : Conn) (k : Fin 4) (bytes : Nat)
    (h : (c.inBuffers k).readPos + (c.readSyncSlot k bytes).ret ≠ (c.inBuffers k).dataSize) :
    c.readSyncSlot k bytes =
      { conn :=
          { c with
            inBuffers := Function.update c.inBuffers k
              { c.inBuffers k with
                readPos := (c.inBuffers k).readPos + (c.readSyncSlot k bytes).ret } }
        bytes := (c.readSyncSlot k bytes).bytes
        ret := (c.readSyncSlot k bytes).ret } := by
  rw [(readSyncSlot_ret c k bytes).1] at h
  have h1 := (readSyncSlot_ret c k bytes).1
  have h2 := (readSyncSlot_ret c k bytes).2
  rw [h2, h1]
  conv_lhs => unfold Conn.readSyncSlot
  simp only
  rw [if_neg h]

/-- One read on a slot that waits for the reader and is within its read
bounds. -/
theorem readSync_step (cfg : Config) (hcfg : cfg.ackFreq * cfg.payloadSize + 65535 < 2 ^ 64)
    (c : Conn) (n : Nat) (b : InBuffer) (hb : c.inBuffers c.readBufferIndex = b)
    (hinv : b.ReadBounds cfg) (hack : b.ackSend = true) (hall : b.allRead = false) :
    ∃ res, c.readSync cfg n = some res ∧
      res.ret = min n (min cfg.bufferSize (b.dataSize - b.readPos)) ∧
      res.bytes = (b.bytes.drop b.readPos).take res.ret ∧
      res.bytes.length = res.ret ∧
      (res.conn.inBuffers c.readBufferIndex).readPos = b.readPos + res.ret ∧
      (∀ k, k ≠ c.readBufferIndex → res.conn.inBuffers k = c.inBuffers k) ∧
      (b.readPos + res.ret = b.dataSize →
        (res.conn.inBuffers c.readBufferIndex).allRead = true ∧
        (res.conn.inBuffers c.readBufferIndex).ackSend = true ∧
        (res.conn.inBuffers c.readBufferIndex).got = List.replicate b.got.length false ∧
        (res.conn.inBuffers c.readBufferIndex).dataSize = 0 ∧
        res.conn.readBufferIndex = nextIndex c.readBufferIndex) ∧
      (b.readPos + res.ret ≠ b.dataSize →
        (res.conn.inBuffers c.readBufferIndex).allRead = false ∧
        (res.conn.inBuffers c.readBufferIndex).ackSend = true ∧
        (res.conn.inBuffers c.readBufferIndex).got = b.got ∧
        (res.conn.inBuffers c.readBufferIndex).dataSize = b.dataSize ∧
        (res.conn.inBuffers c.readBufferIndex).data = b.data ∧
        (res.conn.inBuffers c.readBufferIndex).sequenceID = b.sequenceID ∧
        res.conn.readBufferIndex = c.readBufferIndex) := by
  obtain ⟨h1, h2, h3, -, h5⟩ := hinv
  have h6 := h5 hack hall
  have hsize : (min n cfg.bufferSize) % 2 ^ 32 = min n cfg.bufferSize := by
    apply Nat.mod_eq_of_lt
    have : cfg.bufferSize < 2 ^ 32 := Nat.mod_lt _ (by decide)
    omega
  have h7 : (b.dataSize + 2 ^ 64 - b.readPos) % 2 ^ 64 = b.dataSize - b.readPos := by
    have : b.dataSize + 2 ^ 64 - b.readPos = (b.dataSize - b.readPos) + 2 ^ 64 := by omega
    rw [this, Nat.add_mod_right, Nat.mod_eq_of_lt (by omega)]
  have hread : c.readSync cfg n
      = some (c.readSyncSlot c.readBufferIndex (min n cfg.bufferSize)) := by
    unfold Conn.readSync
    simp only
    rw [hb, if_pos ⟨hack, hall⟩, hsize]
  obtain ⟨hret, hbytes⟩ := readSyncSlot_ret c c.readBufferIndex (min n cfg.bufferSize)
  rw [hb, h7] at hret
  rw [hb] at hbytes
  have hret1 : (c.readSyncSlot c.readBufferIndex (min n cfg.bufferSize)).ret
      = min n (min cfg.bufferSize (b.dataSize - b.readPos)) := by
    rw [hret]; omega
  refine ⟨_, hread, hret1, ?_, ?_, ?_, ?_, ?_, ?_⟩
  · rw [hbytes]
    generalize (c.readSyncSlot c.readBufferIndex (min n cfg.bufferSize)).ret = ret at *
    simp only [InBuffer.bytes, List.drop_take, List.take_take]
    rw [Nat.min_eq_left (by omega)]
  · rw [hbytes]
    generalize (c.readSyncSlot c.readBufferIndex (min n cfg.bufferSize)).ret = ret at *
    simp only [List.length_take, List.length_drop]
    omega
  · by_cases hrel : b.readPos
        + (c.readSyncSlot c.readBufferIndex (min n cfg.bufferSize)).ret = b.dataSize
    · rw [readSyncSlot_released c _ _ (by rw [hb]; exact hrel)]
      simp only [Function.update_same, hb]
    · rw [readSyncSlot_kept c _ _ (by rw [hb]; exact hrel)]
      simp only [Function.update_same, hb]
  · intro k hk
    by_cases hrel : b.readPos
        + (c.readSyncSlot c.readBufferIndex (min n cfg.bufferSize)).ret = b.dataSize
    · rw [readSyncSlot_released c _ _ (by rw [hb]; exact hrel)]
      simp only [Function.update_noteq hk]
    · rw [readSyncSlot_kept c _ _ (by rw [hb]; exact hrel)]
      simp only [Function.update_noteq hk]
  · intro hrel
    rw [readSyncSlot_released c _ _ (by rw [hb]; exact hrel)]
    simp only [Function.update_same, hb, hack]
    exact ⟨trivial, trivial, trivial, trivial, trivial⟩
  · intro hrel
    rw [readSyncSlot_kept c _ _ (by rw [hb]; exact hrel)]
    simp only [Function.update_same, hb, hack, hall]
    exact ⟨trivial, trivial, trivial, trivial, trivial, trivial, trivial⟩

theorem sum_pos_of_cons (m : Nat) (ms : List Nat) (h : ∀ x ∈ m :: ms, 0 < x) :
    0 < (m :: ms).sum := by
  have := h m (List.mem_cons_self _ _)
  simp only [List.sum_cons]
  omega

/-- Successive reads on a slot that waits for the reader: as long as the
requested sizes do not pass the end of the data, the reads return the bytes of
the slot from the read position on, in order. -/
theorem run_reads (cfg : Config) (hcfg : cfg.ackFreq * cfg.payloadSize + 65535 < 2 ^ 64)
    (i : Nat) :
    ∀ (ns : List Nat) (s : RSPConnection) (c : Conn) (b : InBuffer),
      Reachable cfg s → s.children[i]? = some c → c.inBuffers c.readBufferIndex = b →
      b.ackSend = true → b.allRead = false →
      (∀ m ∈ ns, 0 < m ∧ m ≤ cfg.bufferSize) →
      b.readPos + ns.sum ≤ b.dataSize →
      ∃ s1 reads, s.run cfg (ns.map (Event.read i)) = some (s1, [], reads) ∧
        reads.flatten = (b.bytes.drop b.readPos).take ns.sum ∧
        reads.map List.length = ns := by
  intro ns
  induction ns with
  | nil =>
    intro s c b _ _ _ _ _ _ _
    exact ⟨s, [], rfl, by simp, rfl⟩
  | cons n rest ih =>
    intro s c b hs hchild hb hack hall hns hsum
    have hinv := reachable_readBounds cfg hcfg s hs c (List.getElem?_mem hchild)
    have hn := hns n (List.mem_cons_self _ _)
    simp only [List.sum_cons] at hsum
    obtain ⟨res, hread, hret, hbytes, hlen, hpos, -, -, hkept⟩ :=
      readSync_step cfg hcfg c n b hb (hb ▸ hinv c.readBufferIndex) hack hall
    have hretn : res.ret = n := by rw [hret]; omega
    have hilt : i < s.children.length := (List.getElem?_eq_some_iff.mp hchild).1
    have hstep : s.step cfg (Event.read i n)
        = some ({ s with children := s.children.set i res.conn }, [], res.bytes) := by
      simp only [RSPConnection.step, RSPConnection.readChild, hchild, hread, Option.map_some']
    cases rest with
    | nil =>
      refine ⟨{ s with children := s.children.set i res.conn }, [res.bytes], ?_, ?_, ?_⟩
      · simp only [List.map_cons, List.map_nil, RSPConnection.run, hstep, List.append_nil]
      · simp only [List.flatten_cons, List.flatten_nil, List.append_nil, List.sum_cons,
          List.sum_nil, Nat.add_zero]
        rw [hbytes, hretn]
      · simp only [List.map_cons, List.map_nil, hlen, hretn]
    | cons m ms =>
      have hrestpos := sum_pos_of_cons m ms
        (fun x hx => (hns x (List.mem_cons_of_mem _ hx)).1)
      obtain ⟨hall1, hack1, -, hds1, hdata1, -, hidx1⟩ := hkept (by rw [hretn]; omega)
      have hb1 : res.conn.inBuffers res.conn.readBufferIndex
          = res.conn.inBuffers c.readBufferIndex := by rw [hidx1]
      obtain ⟨s1, reads, hrun, hflat, hlens⟩ :=
        ih { s with children := s.children.set i res.conn } res.conn
          (res.conn.inBuffers c.readBufferIndex) (Reachable.step (Event.read i n) hs hstep)
          (by simp only [List.getElem?_set_self hilt]) hb1 hack1 hall1
          (fun x hx => hns x (List.mem_cons_of_mem _ hx))
          (by rw [hpos, hds1, hretn]; omega)
      refine ⟨s1, res.bytes :: reads, ?_, ?_, ?_⟩
      · rw [List.map_cons, RSPConnection.run]
        simp only [hstep, hrun, List.nil_append]
      · have hbb : (res.conn.inBuffers c.readBufferIndex).bytes = b.bytes := by
          simp only [InBuffer.bytes, hds1, hdata1]
        have hS : (n :: m :: ms).sum = n + (m :: ms).sum := List.sum_cons
        rw [List.flatten_cons, hflat, hbytes, hpos, hretn, hbb, hS, List.take_add,
          List.drop_drop]
      · rw [List.map_cons, hlens, hlen, hretn]

/-- C26: in every reachable state (settings for which the largest data size
of a slot fits 64 bits), let the slot at the read index of a child be published
(`ackSend = true`, `allRead = false`).  A `readSync` for `n` bytes returns
`min(n, bufferSize, dataSize - readPos)` bytes, which are the bytes of the slot
from `readPos` on, and advances `readPos` by that amount.  The slot is released
(`allRead = true`, no `got` bit set, data size 0, read index advanced by 1
modulo 4) exactly when `readPos` then equals the data size; otherwise the
flags, `got`, the data and the read index are unchanged.  Successive reads of
non-zero sizes that together do not pass the end of the data return the bytes
of the slot from `readPos` on, in order, each read as many as asked for. -/
theorem readSync_partial_reads (cfg : Config)
    (hcfg : cfg.ackFreq * cfg.payloadSize + 65535 < 2 ^ 64)
    (s : RSPConnection) (hs : Reachable cfg s) (i : Nat) (c : Conn)
    (hchild : s.children[i]? = some c) (b : InBuffer)
    (hb : c.inBuffers c.readBufferIndex = b)
    (hack : b.ackSend = true) (hall : b.allRead = false) (n : Nat) :
    (∃ res, c.readSync cfg n = some res ∧
      res.ret = min n (min cfg.bufferSize (b.dataSize - b.readPos)) ∧
      res.bytes = (b.bytes.drop b.readPos).take res.ret ∧
      res.bytes.length = res.ret ∧
      (res.conn.inBuffers c.readBufferIndex).readPos = b.readPos + res.ret ∧
      (∀ k, k ≠ c.readBufferIndex → res.conn.inBuffers k = c.inBuffers k) ∧
      (((res.conn.inBuffers c.readBufferIndex).allRead = true ∧
        (res.conn.inBuffers c.readBufferIndex).got = List.replicate b.got.length false ∧
        (res.conn.inBuffers c.readBufferIndex).dataSize = 0 ∧
        res.conn.readBufferIndex = nextIndex c.readBufferIndex)
          ↔ b.readPos + res.ret = b.dataSize) ∧
      (b.readPos + res.ret ≠ b.dataSize →
        (res.conn.inBuffers c.readBufferIndex).allRead = false ∧
        (res.conn.inBuffers c.readBufferIndex).ackSend = true ∧
        (res.conn.inBuffers c.readBufferIndex).got = b.got ∧
        (res.conn.inBuffers c.readBufferIndex).dataSize = b.dataSize ∧
        (res.conn.inBuffers c.readBufferIndex).data = b.data ∧
        res.conn.readBufferIndex = c.readBufferIndex)) ∧
    (∀ ns : List Nat, (∀ m ∈ ns, 0 < m ∧ m ≤ cfg.bufferSize) →
      b.readPos + ns.sum ≤ b.dataSize →
      ∃ s1 reads, s.run cfg (ns.map (Event.read i)) = some (s1, [], reads) ∧
        reads.flatten = (b.bytes.drop b.readPos).take ns.sum ∧
        reads.map List.length = ns) := by
  have hinv := reachable_readBounds cfg hcfg s hs c (List.getElem?_mem hchild)
  obtain ⟨res, hread, hret, hbytes, hlen, hpos, hothers, hrel, hkept⟩ :=
    readSync_step cfg hcfg c n b hb (hb ▸ hinv c.readBufferIndex) hack hall
  refine ⟨⟨res, hread, hret, hbytes, hlen, hpos, hothers, ⟨fun h => ?_, fun h => ?_⟩,
    fun h => ?_⟩, fun ns hns hsum => run_reads cfg hcfg i ns s c b hs hchild hb hack hall hns hsum⟩
  · by_contra hne
    rw [(hkept hne).1] at h
    exact absurd h.1 Bool.false_ne_true
  · obtain ⟨h1, -, h3, h4, h5⟩ := hrel h
    exact ⟨h1, h3, h4, h5⟩
  · obtain ⟨h1, h2, h3, h4, h5, -, h7⟩ := hkept h
    exact ⟨h1, h2, h3, h4, h5, h7⟩

/-- Witness for C26: the 6 bytes of `exShort`, published in slot 0 of the
child of `exPublished`, are read in pieces of 4 and 2 bytes. -/
theorem readSync_partial_reads_witness :
    (exPublishedChild.inBuffers exPublishedChild.readBufferIndex).view
      = (1, true, false, 0, [true, true, false, false, false], exShort) ∧
    ∃ s1 reads, exPublished.run exCfg ([4, 2].map (Event.read 0)) = some (s1, [], reads) ∧
      reads.flatten = (exShort.drop 0).take 6 ∧ reads.map List.length = [4, 2] :=
  ⟨by decide!,
    (readSync_partial_reads exCfg (by decide) exPublished
      (reachable_run exCfg exShortWrite exReceiver exPublished _ _ (Reachable.init 2 [1]) rfl)
      0 exPublishedChild rfl
      (exPublishedChild.inBuffers exPublishedChild.readBufferIndex) rfl rfl rfl 4).2
      [4, 2] (by decide) (by decide)⟩

/-! ## C22: ID collision check -/

theorem findChild_none_iff (id : Nat) :
    ∀ children : List Conn, findChild children id = none ↔ ∀ c ∈ children, c.id ≠ id := by
  intro children
  induction children with
  | nil => simp [findChild]
  | cons x xs ih =>
    unfold findChild
    by_cases h : x.id = id
    · rw [if_pos h]
      simp [h]
    · rw [if_neg h]
      simp only [Option.map_eq_none', ih, List.mem_cons, forall_eq_or_imp]
      exact ⟨fun h1 => ⟨h, h1⟩, fun h1 => h1.2⟩

/-- C22: `_checkNewID` changes nothing in the connection (child list and own ID
included); it writes exactly one Deny, carrying the announced ID, if the ID is
the own ID or the ID of a child, and nothing otherwise. -/
theorem checkNewID_deny (s : RSPConnection) (id : Nat) :
    (s.checkNewID id).1 = s ∧
    ((id = s.id ∨ ∃ c ∈ s.children, c.id = id) →
      (s.checkNewID id).2 = [nodeDatagram NodeType.deny id]) ∧
    (¬ (id = s.id ∨ ∃ c ∈ s.children, c.id = id) → (s.checkNewID id).2 = []) := by
  unfold RSPConnection.checkNewID RSPConnection.findConnectionWithWriterID
  by_cases h : id = s.id
  · rw [if_pos h]
    exact ⟨rfl, fun _ => by rw [h], fun hn => absurd (Or.inl h) hn⟩
  · rw [if_neg h]
    cases hf : findChild s.children id with
    | none =>
      have hnone := (findChild_none_iff id s.children).mp hf
      refine ⟨rfl, fun hk => ?_, fun _ => rfl⟩
      rcases hk with hk | ⟨c, hc, hid⟩
      · exact absurd hk h
      · exact absurd hid (hnone c hc)
    | some i =>
      refine ⟨rfl, fun _ => rfl, fun hn => ?_⟩
      exfalso
      apply hn
      right
      by_contra hno
      have : findChild s.children id = none :=
        (findChild_none_iff id s.children).mpr (fun c hc hid => hno ⟨c, hc, hid⟩)
      rw [this] at hf
      cases hf

/-! ## C23: Exit handling -/

theorem eraseChild_split (id : Nat) (c : Conn) (post : List Conn) (hc : c.id = id) :
    ∀ pre : List Conn, (∀ x ∈ pre, x.id ≠ id) →
      eraseChild (pre ++ c :: post) id = some (pre ++ post) := by
  intro pre
  induction pre with
  | nil =>
    intro _
    simp only [List.nil_append, eraseChild]
    rw [if_pos hc]
  | cons x xs ih =>
    intro h
    have hx := h x (List.mem_cons_self _ _)
    have ih1 := ih (fun y hy => h y (List.mem_cons_of_mem _ hy))
    rw [List.cons_append, eraseChild, if_neg hx, ih1]
    rfl

theorem exists_first_child (id : Nat) :
    ∀ children : List Conn, (∃ c ∈ children, c.id = id) →
      ∃ pre c post, children = pre ++ c :: post ∧ c.id = id ∧ ∀ x ∈ pre, x.id ≠ id := by
  intro children
  induction children with
  | nil => rintro ⟨c, hc, -⟩; cases hc
  | cons x xs ih =>
    rintro ⟨c, hc, hid⟩
    by_cases hx : x.id = id
    · exact ⟨[], x, xs, rfl, hx, fun y hy => by cases hy⟩
    · rcases List.mem_cons.mp hc with h | h
      · subst h; exact absurd hid hx
      · obtain ⟨pre, c1, post, hs, hc1, hpre⟩ := ih ⟨c, h, hid⟩
        refine ⟨x :: pre, c1, post, by rw [hs]; rfl, hc1, fun y hy => ?_⟩
        rcases List.mem_cons.mp hy with h1 | h1
        · subst h1; exact hx
        · exact hpre y h1

/-- Counterexample to C23: participant 1 knows itself and participant 2, both
accepted, and an Exit names participant 2.  The child 2 is removed, and then
the remaining child 1 as well: the child list is empty and the counter of
accepted children went down by two. -/
theorem exit_clears_last_child :
    exDuo.childIDs = [1, 2] ∧ exDuo.countAcceptChildren = 2 ∧
    (exDuo.acceptRemoveConnection 2).1.childIDs = [] ∧
    (exDuo.acceptRemoveConnection 2).1.countAcceptChildren = 0 := by
  decide

/-- C23 (amended): for an Exit naming a known child, `_acceptRemoveConnection`
removes the first child with that ID.  Unless exactly one child is left, every
other child stays in place and in order and the counter of accepted children
goes down by exactly one; if exactly one child is left, the list is cleared
and the counter goes down by two.  The own ID and the other members of the
connection are unchanged. -/
theorem exit_removes_child (s : RSPConnection) (id : Nat)
    (hknown : ∃ c ∈ s.children, c.id = id) :
    ∃ pre c post, s.children = pre ++ c :: post ∧ c.id = id ∧ (∀ x ∈ pre, x.id ≠ id) ∧
      ((pre ++ post).length ≠ 1 →
        (s.acceptRemoveConnection id).1.children = pre ++ post ∧
        (s.acceptRemoveConnection id).1.countAcceptChildren = s.countAcceptChildren - 1) ∧
      ((pre ++ post).length = 1 →
        (s.acceptRemoveConnection id).1.children = [] ∧
        (s.acceptRemoveConnection id).1.countAcceptChildren = s.countAcceptChildren - 2) ∧
      (s.acceptRemoveConnection id).1.id = s.id ∧
      (s.acceptRemoveConnection id).1.timeouts = s.timeouts := by
  obtain ⟨pre, c, post, hs, hc, hpre⟩ := exists_first_child id s.children hknown
  have he : eraseChild s.children id = some (pre ++ post) := by
    rw [hs]; exact eraseChild_split id c post hc pre hpre
  refine ⟨pre, c, post, hs, hc, hpre, fun hne => ?_, fun hone => ?_, ?_, ?_⟩
  · unfold RSPConnection.acceptRemoveConnection
    simp only [he]
    rw [if_neg hne]
    exact ⟨rfl, rfl⟩
  · unfold RSPConnection.acceptRemoveConnection
    simp only [he]
    rw [if_pos hone]
    refine ⟨rfl, ?_⟩
    show s.countAcceptChildren - 1 - 1 = s.countAcceptChildren - 2
    omega
  · unfold RSPConnection.acceptRemoveConnection
    simp only [he]
    split <;> rfl
  · unfold RSPConnection.acceptRemoveConnection
    simp only [he]
    split <;> rfl

/-- Witness for C23 (amended): in a group of three, participant 1 handles the
Exit of participant 3; the children 1 and 2 remain and two children remain
accepted. -/
theorem exit_removes_child_witness :
    (∃ pre c post, exGroup.children = pre ++ c :: post ∧ c.id = 3 ∧ (∀ x ∈ pre, x.id ≠ 3) ∧
      ((pre ++ post).length ≠ 1 →
        (exGroup.acceptRemoveConnection 3).1.children = pre ++ post ∧
        (exGroup.acceptRemoveConnection 3).1.countAcceptChildren
          = exGroup.countAcceptChildren - 1) ∧
      ((pre ++ post).length = 1 →
        (exGroup.acceptRemoveConnection 3).1.children = [] ∧
        (exGroup.acceptRemoveConnection 3).1.countAcceptChildren
          = exGroup.countAcceptChildren - 2) ∧
      (exGroup.acceptRemoveConnection 3).1.id = exGroup.id ∧
      (exGroup.acceptRemoveConnection 3).1.timeouts = exGroup.timeouts) ∧
    (exGroup.acceptRemoveConnection 3).1.childIDs = [1, 2] ∧
    (exGroup.acceptRemoveConnection 3).1.countAcceptChildren = 2 ∧
    (exGroup.acceptRemoveConnection 3).2 = [⟨NodeType.countnode, 1, 2⟩] :=
  ⟨exit_removes_child exGroup 3 ⟨Conn.fresh exCfg 3, by simp [exGroup, RSPConnection.listening], rfl⟩,
    by decide, by decide, by decide⟩

/-! ## C24: Count handling during peer learning -/

/-- Method `_handleCountNode` on its own, as `_handleData` calls it: when the
counts agree nothing changes and the result is `true`; when they differ and the
sender is unknown, the sender is a child afterwards. -/
theorem handleCountNode_spec (cfg : Config) (s : RSPConnection) (count : DatagramNode) :
    (s.children.length = count.nbClient →
      s.handleCountNode cfg count = (s, [], true)) ∧
    (s.children.length ≠ count.nbClient → (∀ c ∈ s.children, c.id ≠ count.connectionID) →
      (s.handleCountNode cfg count).1.childIDs = s.childIDs ++ [count.connectionID] ∧
      (s.handleCountNode cfg count).2.2 = false) := by
  constructor
  · intro h
    unfold RSPConnection.handleCountNode
    rw [if_pos h]
  · intro h hnew
    have hf : findChild s.children count.connectionID = none :=
      (findChild_none_iff _ _).mpr hnew
    unfold RSPConnection.handleCountNode RSPConnection.addNewConnection
      RSPConnection.findConnectionWithWriterID
    rw [if_neg h]
    simp only [hf]
    simp [RSPConnection.childIDs, Conn.fresh]

/-- C24: in `_handleInitData` the case `COUNTNODE` runs on into the case
`ID_EXIT`, so the sender of every Count datagram is removed from the child
list.  A participant that knows only itself and gets a Count with `nChildren`
1 from participant 2 ends with an empty child list; one that knows itself and
participant 2 and gets the matching Count of participant 2 ends with an empty
list too; and when the Count of the unknown participant 3 announces 3
children, participant 3 is added and removed again.  The same datagrams
handled by `_handleData` leave the list unchanged in the first two cases and
add participant 3 in the third. -/
theorem count_falls_through_to_exit :
    ((exAlone.handleInitData exCfg (some ⟨NodeType.countnode, 2, 1⟩)).1.childIDs,
      (exAlone.handleInitData exCfg (some ⟨NodeType.countnode, 2, 1⟩)).1.timeouts,
      (exAlone.handleInitData exCfg (some ⟨NodeType.countnode, 2, 1⟩)).1.countAcceptChildren)
        = ([], 20, -1) ∧
    ((exPair.handleInitData exCfg (some ⟨NodeType.countnode, 2, 2⟩)).1.childIDs,
      (exPair.handleInitData exCfg (some ⟨NodeType.countnode, 2, 2⟩)).1.timeouts,
      (exPair.handleInitData exCfg (some ⟨NodeType.countnode, 2, 2⟩)).1.countAcceptChildren)
        = ([], 20, -2) ∧
    ((exPair.handleInitData exCfg (some ⟨NodeType.countnode, 3, 3⟩)).1.childIDs,
      (exPair.handleInitData exCfg (some ⟨NodeType.countnode, 3, 3⟩)).1.timeouts,
      (exPair.handleInitData exCfg (some ⟨NodeType.countnode, 3, 3⟩)).1.countAcceptChildren)
        = ([1, 2], 0, -1) ∧
    (exAlone.handleDataCountNode exCfg ⟨NodeType.countnode, 2, 1⟩).1.childIDs = [1] ∧
    (exPair.handleDataCountNode exCfg ⟨NodeType.countnode, 2, 2⟩).1.childIDs = [1, 2] ∧
    (exPair.handleDataCountNode exCfg ⟨NodeType.countnode, 3, 3⟩).1.childIDs = [1, 2, 3] ∧
    ∀ (cfg : Config) (s : RSPConnection) (count : DatagramNode),
      count.type = NodeType.countnode →
      (s.handleInitData cfg (some count)).1
        = (({ (s.handleCountNode cfg count).1 with
              timeouts := if (s.handleCountNode cfg count).2.2 then 20 else 0 } :
            RSPConnection).acceptRemoveConnection count.connectionID).1 := by
  refine ⟨by decide, by decide, by decide, by decide, by decide, by decide, ?_⟩
  intro cfg s count h
  simp only [RSPConnection.handleInitData, h]

/-! ## C30: the counter of accepted children -/

/-- Additions and accepts keep the counter of accepted children between 0
and the number of children. -/
theorem add_accept_keep_count (cfg : Config) (s : RSPConnection)
    (h : 0 ≤ s.countAcceptChildren ∧ s.countAcceptChildren ≤ s.children.length) :
    (∀ id, 0 ≤ (s.addNewConnection cfg id).1.countAcceptChildren ∧
      (s.addNewConnection cfg id).1.countAcceptChildren
        ≤ (s.addNewConnection cfg id).1.children.length) ∧
    (∀ s1 out child, s.acceptSync = some (s1, out, child) →
      0 ≤ s1.countAcceptChildren ∧ s1.countAcceptChildren ≤ s1.children.length) := by
  constructor
  · intro id
    unfold RSPConnection.addNewConnection
    split
    · exact h
    · simp only [List.length_append, List.length_singleton]
      omega
  · intro s1 out child hacc
    unfold RSPConnection.acceptSync at hacc
    split at hacc
    · cases hacc; exact h
    · split at hacc
      · split at hacc
        · cases hacc
        · rename_i c hc
          cases hacc
          have hlt := (List.getElem?_eq_some_iff.mp hc).1
          simp only [List.length_set]
          omega
      · cases hacc

/-- C30: participant 1 adds itself and the peers 2 and 3; before the
application has accepted a child, the Exit of peer 3 is handled.  The counter
of accepted children is then -1 with two children in the list, and the next
`acceptSync` reads `_children[ -1 ]`.  In a group of two the Exit of the peer
leaves the counter at -2.  Whatever the state, the Exit of a known child
lowers the counter, so it goes below 0 whenever no child has been accepted. -/
theorem accepted_count_negative :
    ((RSPConnection.listening 1 []).members exCfg
        [MemberEvent.add 1, MemberEvent.add 2, MemberEvent.add 3, MemberEvent.exit 3]).map
      (fun s => (s.childIDs, s.countAcceptChildren, s.acceptSync.isNone))
      = some ([1, 2], -1, true) ∧
    ((RSPConnection.listening 1 []).members exCfg
        [MemberEvent.add 1, MemberEvent.add 2, MemberEvent.add 3, MemberEvent.exit 3,
          MemberEvent.accept]).isNone = true ∧
    ((RSPConnection.listening 1 []).members exCfg
        [MemberEvent.add 1, MemberEvent.add 2, MemberEvent.exit 2]).map
      (fun s => (s.childIDs, s.countAcceptChildren)) = some ([], -2) ∧
    ((RSPConnection.listening 1 []).members exCfg
        [MemberEvent.add 1, MemberEvent.add 2, MemberEvent.add 3, MemberEvent.accept,
          MemberEvent.accept, MemberEvent.accept, MemberEvent.exit 3]).map
      (fun s => (s.childIDs, s.countAcceptChildren)) = some ([1, 2], 2) ∧
    ∀ (s : RSPConnection) (id : Nat), (∃ c ∈ s.children, c.id = id) →
      (s.acceptRemoveConnection id).1.countAcceptChildren < s.countAcceptChildren := by
  refine ⟨by decide, by decide, by decide, by decide, ?_⟩
  intro s id hknown
  obtain ⟨pre, c, post, hs, hc, hpre⟩ := exists_first_child id s.children hknown
  have he : eraseChild s.children id = some (pre ++ post) := by
    rw [hs]; exact eraseChild_split id c post hc pre hpre
  unfold RSPConnection.acceptRemoveConnection
  simp only [he]
  split
  · show s.countAcceptChildren - 1 - 1 < s.countAcceptChildren
    omega
  · show s.countAcceptChildren - 1 < s.countAcceptChildren
    omega

/-! ## C25: ID acquisition -/

theorem sendDatagramCountNode_no_confirm (s : RSPConnection) :
    s.sendDatagramCountNode.filter (fun d => decide (d.type = NodeType.confirm)) = [] := by
  unfold RSPConnection.sendDatagramCountNode
  split <;> rfl

theorem checkNewID_no_confirm (s : RSPConnection) (id : Nat) :
    (s.checkNewID id).1 = s ∧
    (s.checkNewID id).2.filter (fun d => decide (d.type = NodeType.confirm)) = [] := by
  unfold RSPConnection.checkNewID
  split
  · exact ⟨rfl, rfl⟩
  · split <;> exact ⟨rfl, rfl⟩

theorem acceptRemoveConnection_frame (s : RSPConnection) (id : Nat) :
    (s.acceptRemoveConnection id).1.id = s.id ∧
    (s.acceptRemoveConnection id).1.timeouts = s.timeouts ∧
    (s.acceptRemoveConnection id).2.filter (fun d => decide (d.type = NodeType.confirm)) = [] ∧
    (s.children = [] → (s.acceptRemoveConnection id).1.children = []) := by
  obtain ⟨s1, hs1⟩ : ∃ s1 : RSPConnection, s1 = (match eraseChild s.children id with
      | some children =>
        { s with countAcceptChildren := s.countAcceptChildren - 1, children := children }
      | none => s) := ⟨_, rfl⟩
  have hr : s.acceptRemoveConnection id =
      if s1.children.length = 1 then
        ({ s1 with countAcceptChildren := s1.countAcceptChildren - 1, children := [] },
          s1.sendDatagramCountNode)
      else (s1, s1.sendDatagramCountNode) := by
    rw [hs1]; rfl
  have hid : s1.id = s.id ∧ s1.timeouts = s.timeouts ∧ (s.children = [] → s1.children = []) := by
    rw [hs1]
    cases he : eraseChild s.children id with
    | none => exact ⟨rfl, rfl, fun h => h⟩
    | some children =>
      refine ⟨rfl, rfl, fun h => ?_⟩
      rw [h] at he
      simp [eraseChild] at he
  rw [hr]
  split
  · exact ⟨hid.1, hid.2.1, sendDatagramCountNode_no_confirm _, fun _ => rfl⟩
  · exact ⟨hid.1, hid.2.1, sendDatagramCountNode_no_confirm _, hid.2.2⟩

theorem addNewConnection_own (cfg : Config) (s : RSPConnection) (id : Nat) :
    (s.addNewConnection cfg id).1.id = s.id ∧
    (s.addNewConnection cfg id).1.timeouts = s.timeouts ∧
    id ∈ (s.addNewConnection cfg id).1.childIDs ∧
    (s.addNewConnection cfg id).2.filter (fun d => decide (d.type = NodeType.confirm)) = [] ∧
    (s.children = [] → (s.addNewConnection cfg id).1.childIDs = [id]) := by
  cases hf : findChild s.children id with
  | none =>
    have hr : s.addNewConnection cfg id
        = ({ s with children := s.children ++ [Conn.fresh cfg id] },
            ({ s with children := s.children ++ [Conn.fresh cfg id] } :
              RSPConnection).sendDatagramCountNode) := by
      unfold RSPConnection.addNewConnection RSPConnection.findConnectionWithWriterID
      rw [hf]
    rw [hr]
    refine ⟨rfl, rfl, ?_, sendDatagramCountNode_no_confirm _, fun h => ?_⟩
    · simp [RSPConnection.childIDs, Conn.fresh]
    · simp [RSPConnection.childIDs, Conn.fresh, h]
  | some i =>
    have hr : s.addNewConnection cfg id = (s, []) := by
      unfold RSPConnection.addNewConnection RSPConnection.findConnectionWithWriterID
      rw [hf]
    rw [hr]
    refine ⟨rfl, rfl, ?_, rfl, fun h => ?_⟩
    · by_contra hno
      have : findChild s.children id = none :=
        (findChild_none_iff id s.children).mpr (fun c hc hid => hno (by
          simp only [RSPConnection.childIDs, List.mem_map]
          exact ⟨c, hc, hid⟩))
      rw [this] at hf
      cases hf
    · rw [h] at hf
      simp [findChild] at hf

/-- What `_handleAcceptID` does with a datagram that was read. -/
theorem handleAcceptID_spec (s : RSPConnection) (newID : Nat) (node : DatagramNode) :
    (s.handleAcceptID newID (some node)).2.2 = true ∧
    (s.handleAcceptID newID (some node)).2.1.filter
      (fun d => decide (d.type = NodeType.confirm)) = [] ∧
    (node.type = NodeType.deny ∧ node.connectionID = s.id →
      s.handleAcceptID newID (some node)
        = ({ s with timeouts := 0, id := newID }, [nodeDatagram NodeType.hello newID], true)) ∧
    (¬ (node.type = NodeType.deny ∧ node.connectionID = s.id) →
      (s.handleAcceptID newID (some node)).1.id = s.id ∧
      (s.handleAcceptID newID (some node)).1.timeouts = s.timeouts ∧
      (s.children = [] → (s.handleAcceptID newID (some node)).1.children = [])) ∧
    (node.type = NodeType.deny → node.connectionID ≠ s.id →
      s.handleAcceptID newID (some node) = (s, [], true)) := by
  obtain ⟨type, cid, nb⟩ := node
  cases type with
  | hello =>
    have hr : s.handleAcceptID newID (some ⟨NodeType.hello, cid, nb⟩)
        = ((s.checkNewID cid).1, (s.checkNewID cid).2, true) := rfl
    rw [hr]
    obtain ⟨h1, h2⟩ := checkNewID_no_confirm s cid
    refine ⟨rfl, h2, (fun h => by cases h.1), fun _ => ?_, (fun h => by cases h)⟩
    rw [h1]
    exact ⟨rfl, rfl, fun h => h⟩
  | deny =>
    have hr : s.handleAcceptID newID (some ⟨NodeType.deny, cid, nb⟩)
        = if cid = s.id then
            ({ s with timeouts := 0, id := newID }, [nodeDatagram NodeType.hello newID], true)
          else (s, [], true) := rfl
    rw [hr]
    by_cases hown : cid = s.id
    · rw [if_pos hown]
      exact ⟨rfl, rfl, fun _ => rfl, fun h => absurd ⟨rfl, hown⟩ h, fun _ h => absurd hown h⟩
    · rw [if_neg hown]
      exact ⟨rfl, rfl, fun h => absurd h.2 hown, fun _ => ⟨rfl, rfl, fun h => h⟩, fun _ _ => rfl⟩
  | exit =>
    have hr : s.handleAcceptID newID (some ⟨NodeType.exit, cid, nb⟩)
        = ((s.acceptRemoveConnection cid).1, (s.acceptRemoveConnection cid).2, true) := rfl
    rw [hr]
    obtain ⟨h1, h2, h3, h4⟩ := acceptRemoveConnection_frame s cid
    exact ⟨rfl, h3, (fun h => by cases h.1), fun _ => ⟨h1, h2, h4⟩, (fun h => by cases h)⟩
  | confirm =>
    exact ⟨rfl, rfl, (fun h => by cases h.1), fun _ => ⟨rfl, rfl, fun h => h⟩, (fun h => by cases h)⟩
  | countnode =>
    exact ⟨rfl, rfl, (fun h => by cases h.1), fun _ => ⟨rfl, rfl, fun h => h⟩, (fun h => by cases h)⟩
  | other =>
    exact ⟨rfl, rfl, (fun h => by cases h.1), fun _ => ⟨rfl, rfl, fun h => h⟩, (fun h => by cases h)⟩

theorem acceptLoop_timeout (cfg : Config) (s : RSPConnection) (events : List AcceptEvent) :
    RSPConnection.acceptLoop cfg s (AcceptEvent.timeout :: events) =
      if s.timeouts + 1 < 20 then
        ((RSPConnection.acceptLoop cfg { s with timeouts := s.timeouts + 1 } events).1,
          nodeDatagram NodeType.hello s.id ::
            (RSPConnection.acceptLoop cfg { s with timeouts := s.timeouts + 1 } events).2.1,
          (RSPConnection.acceptLoop cfg { s with timeouts := s.timeouts + 1 } events).2.2)
      else
        ((({ s with timeouts := s.timeouts + 1 } : RSPConnection).addNewConnection cfg s.id).1,
          nodeDatagram NodeType.confirm s.id ::
            (({ s with timeouts := s.timeouts + 1 } : RSPConnection).addNewConnection cfg s.id).2,
          some true) := rfl

theorem acceptLoop_data (cfg : Config) (s : RSPConnection) (node : DatagramNode) (newID : Nat)
    (events : List AcceptEvent) :
    RSPConnection.acceptLoop cfg s (AcceptEvent.data (some node) newID :: events) =
      ((RSPConnection.acceptLoop cfg (s.handleAcceptID newID (some node)).1 events).1,
        (s.handleAcceptID newID (some node)).2.1 ++
          (RSPConnection.acceptLoop cfg (s.handleAcceptID newID (some node)).1 events).2.1,
        (RSPConnection.acceptLoop cfg (s.handleAcceptID newID (some node)).1 events).2.2) := by
  have h := (handleAcceptID_spec s newID node).1
  conv_lhs => unfold RSPConnection.acceptLoop
  simp only [h, Bool.true_eq_false, if_false]

/-- The loop of `_acceptID` against the count of timeouts since the start or
the last Deny of the own ID. -/
theorem acceptLoop_spec (cfg : Config) :
    ∀ (events : List AcceptEvent) (s : RSPConnection), s.timeouts < 20 →
      (∀ newID, AcceptEvent.data none newID ∉ events) →
      (RSPConnection.acceptLoop cfg s events).2.2
        = (specConfirmed s.id s.timeouts events).map (fun _ => true) ∧
      (RSPConnection.acceptLoop cfg s events).2.1.filter
          (fun d => decide (d.type = NodeType.confirm))
        = (specConfirmed s.id s.timeouts events).toList.map (nodeDatagram NodeType.confirm) ∧
      (∀ id, specConfirmed s.id s.timeouts events = some id →
        (RSPConnection.acceptLoop cfg s events).1.id = id ∧
        id ∈ (RSPConnection.acceptLoop cfg s events).1.childIDs ∧
        (s.children = [] → (RSPConnection.acceptLoop cfg s events).1.childIDs = [id])) ∧
      (specConfirmed s.id s.timeouts events = none → s.children = [] →
        (RSPConnection.acceptLoop cfg s events).1.children = []) := by
  intro events
  induction events with
  | nil =>
    intro s _ _
    exact ⟨rfl, rfl, (fun id h => by cases h), fun _ h => h⟩
  | cons e events ih =>
    intro s ht hread
    have hread1 : ∀ newID, AcceptEvent.data none newID ∉ events :=
      fun newID h => hread newID (List.mem_cons_of_mem _ h)
    cases e with
    | timeout =>
      rw [acceptLoop_timeout]
      by_cases h : s.timeouts + 1 < 20
      · have hspec : specConfirmed s.id s.timeouts (AcceptEvent.timeout :: events)
            = specConfirmed s.id (s.timeouts + 1) events := by
          simp only [specConfirmed]
          rw [if_neg (by omega)]
        rw [if_pos h, hspec]
        obtain ⟨h1, h2, h3, h4⟩ := ih { s with timeouts := s.timeouts + 1 } h hread1
        refine ⟨h1, ?_, h3, h4⟩
        rw [List.filter_cons_of_neg (by simp [nodeDatagram])]
        exact h2
      · have hspec : specConfirmed s.id s.timeouts (AcceptEvent.timeout :: events)
            = some s.id := by
          simp only [specConfirmed]
          rw [if_pos (by omega)]
        rw [if_neg h, hspec]
        obtain ⟨h1, -, h3, h4, h5⟩ :=
          addNewConnection_own cfg { s with timeouts := s.timeouts + 1 } s.id
        refine ⟨rfl, ?_, fun id hid => ?_, fun hn => by cases hn⟩
        · rw [List.filter_cons_of_pos (by simp [nodeDatagram])]
          simp only [h4, Option.toList, List.map_cons, List.map_nil]
        · cases hid
          exact ⟨h1, h3, h5⟩
    | data datagram newID =>
      cases datagram with
      | none => exact absurd (List.mem_cons_self _ _) (hread newID)
      | some node =>
        rw [acceptLoop_data]
        obtain ⟨-, hf, hown, hother, -⟩ := handleAcceptID_spec s newID node
        by_cases hd : node.type = NodeType.deny ∧ node.connectionID = s.id
        · have hspec : specConfirmed s.id s.timeouts
              (AcceptEvent.data (some node) newID :: events) = specConfirmed newID 0 events := by
            simp only [specConfirmed]
            rw [if_pos hd]
          rw [hspec, hown hd]
          obtain ⟨h1, h2, h3, h4⟩ :=
            ih { s with timeouts := 0, id := newID } (show (0 : Nat) < 20 by decide) hread1
          refine ⟨h1, ?_, h3, h4⟩
          rw [List.filter_append, List.filter_cons_of_neg (by simp [nodeDatagram]),
            List.filter_nil, List.nil_append]
          exact h2
        · have hspec : specConfirmed s.id s.timeouts
              (AcceptEvent.data (some node) newID :: events)
              = specConfirmed s.id s.timeouts events := by
            simp only [specConfirmed]
            rw [if_neg hd]
          obtain ⟨hid, htm, hch⟩ := hother hd
          obtain ⟨h1, h2, h3, h4⟩ :=
            ih (s.handleAcceptID newID (some node)).1 (by rw [htm]; exact ht) hread1
          rw [hid, htm] at h1 h2 h3 h4
          rw [hspec]
          refine ⟨h1, ?_, fun id hc => ?_, fun hn hs => h4 hn (hch hs)⟩
          · rw [List.filter_append, hf, List.nil_append]
            exact h2
          · obtain ⟨h5, h6, h7⟩ := h3 id hc
            exact ⟨h5, h6, fun hs => h7 (hch hs)⟩
    | interrupt =>
      have hloop : RSPConnection.acceptLoop cfg s (AcceptEvent.interrupt :: events)
          = RSPConnection.acceptLoop cfg s events := rfl
      have hspec : specConfirmed s.id s.timeouts (AcceptEvent.interrupt :: events)
          = specConfirmed s.id s.timeouts events := rfl
      rw [hloop, hspec]
      exact ih s ht hread1

/-- C25: for every sequence of timeouts, datagrams and interrupts reported to
the loop of `_acceptID` (no read fails), the method returns `true`, writes one
Confirm for the own ID and has the own ID in the child list exactly when 20
timeouts have occurred since the start or since the last Deny that carried the
own ID (`specConfirmed`); until then it writes no Confirm, adds no child and
goes on waiting.  A Deny carrying the own ID sets the timeout counter to 0,
replaces the own ID by the newly generated one and announces it with a Hello;
a Deny carrying another ID changes nothing. -/
theorem acceptID_confirms (cfg : Config) (s : RSPConnection) (events : List AcceptEvent)
    (hread : ∀ newID, AcceptEvent.data none newID ∉ events) :
    (s.acceptID cfg events).2.2 = (specConfirmed s.id 0 events).map (fun _ => true) ∧
    (s.acceptID cfg events).2.1.filter (fun d => decide (d.type = NodeType.confirm))
      = (specConfirmed s.id 0 events).toList.map (nodeDatagram NodeType.confirm) ∧
    (∀ id, specConfirmed s.id 0 events = some id →
      (s.acceptID cfg events).1.id = id ∧ id ∈ (s.acceptID cfg events).1.childIDs ∧
      (s.children = [] → (s.acceptID cfg events).1.childIDs = [id])) ∧
    (specConfirmed s.id 0 events = none → s.children = [] →
      (s.acceptID cfg events).1.children = []) ∧
    (∀ (s1 : RSPConnection) (newID : Nat) (node : DatagramNode),
      node.type = NodeType.deny →
      (node.connectionID = s1.id →
        s1.handleAcceptID newID (some node)
          = ({ s1 with timeouts := 0, id := newID }, [nodeDatagram NodeType.hello newID], true)) ∧
      (node.connectionID ≠ s1.id → s1.handleAcceptID newID (some node) = (s1, [], true))) := by
  obtain ⟨h1, h2, h3, h4⟩ :=
    acceptLoop_spec cfg events { s with timeouts := 0 } (show (0 : Nat) < 20 by decide) hread
  refine ⟨h1, ?_, h3, h4, fun s1 newID node hty => ?_⟩
  · unfold RSPConnection.acceptID
    simp only
    rw [List.filter_cons_of_neg (by simp [nodeDatagram])]
    exact h2
  · obtain ⟨-, -, hown, -, hother⟩ := handleAcceptID_spec s1 newID node
    exact ⟨fun h => hown ⟨hty, h⟩, fun h => hother hty h⟩

/-- Witness for C25: a participant that starts with ID 7 sees three timeouts,
a Deny for 7 (the new ID drawn is 9), a Deny for 5 and then twenty timeouts;
it confirms the ID 9. -/
theorem acceptID_confirms_witness :
    specConfirmed 7 0
        (List.replicate 3 AcceptEvent.timeout ++
          [AcceptEvent.data (some ⟨NodeType.deny, 7, 0⟩) 9,
           AcceptEvent.data (some ⟨NodeType.deny, 5, 0⟩) 4] ++
          List.replicate 20 AcceptEvent.timeout) = some 9 ∧
    (exStarting.acceptID exCfg
        (List.replicate 3 AcceptEvent.timeout ++
          [AcceptEvent.data (some ⟨NodeType.deny, 7, 0⟩) 9,
           AcceptEvent.data (some ⟨NodeType.deny, 5, 0⟩) 4] ++
          List.replicate 20 AcceptEvent.timeout)).2.2
      = (specConfirmed exStarting.id 0
        (List.replicate 3 AcceptEvent.timeout ++
          [AcceptEvent.data (some ⟨NodeType.deny, 7, 0⟩) 9,
           AcceptEvent.data (some ⟨NodeType.deny, 5, 0⟩) 4] ++
          List.replicate 20 AcceptEvent.timeout)).map (fun _ => true) ∧
    (exStarting.acceptID exCfg
        (List.replicate 3 AcceptEvent.timeout ++
          [AcceptEvent.data (some ⟨NodeType.deny, 7, 0⟩) 9,
           AcceptEvent.data (some ⟨NodeType.deny, 5, 0⟩) 4] ++
          List.replicate 20 AcceptEvent.timeout)).1.childIDs = [9] :=
  ⟨by decide,
    (acceptID_confirms exCfg exStarting
      (List.replicate 3 AcceptEvent.timeout ++
        [AcceptEvent.data (some ⟨NodeType.deny, 7, 0⟩) 9,
         AcceptEvent.data (some ⟨NodeType.deny, 5, 0⟩) 4] ++
        List.replicate 20 AcceptEvent.timeout)
      (by intro newID h; simp [List.mem_replicate] at h)).1,
    by decide⟩

end RSP
